import Mathlib

/-!
# Tetris engine (`script.js`): collision, merge, rotation, sweep and the player actions

A shallow embedding of the game engine of `script.js`.

* A JavaScript array of arrays of numbers is a `List (List Int)`; cell values are integers
  (`0` is empty).  Reading `a[i]` outside `0 .. a.length - 1` yields `undefined`, which is
  `none` here.
* A function that can throw a `TypeError`, or that would put a value outside the dense grid
  (which a list of lists cannot hold), returns `Option` and answers `none` there.
* A loop whose termination depends on the data takes a `fuel : Nat` argument and answers
  `none` when the fuel runs out; the theorems give a fuel bound under which it returns.
* Scores, line counts and levels are exact integers (JavaScript numbers below `2 ^ 53`), and
  the speed curve is computed with exact fractions.
* The timing numbers (`time`, `lastTime`, `dropCounter`) are finite doubles, each held as the
  rational number it stands for.  A double subtraction or addition returns the rounding of the
  exact result; `update` takes the rounding function as an argument, `roundDouble` is the one
  of IEEE 754 binary64, and the theorems hold for every rounding function.
* `Math.random` is replaced by explicit indices `Fin 7` passed to the functions that draw.
* The page (canvas, sound, text fields) is left out, except that `update` reports the states
  it hands to `draw()`.
-/

namespace Tetris

/-- A grid of cell values: the arena and the piece matrices. -/
abbrev Matrix := List (List Int)

/-- The JavaScript read `a[i]` for an integer `i`: `none` stands for `undefined`. -/
def jsGet {α : Type} (a : List α) (i : Int) : Option α :=
  if i < 0 then none else a[i.toNat]?

/-- The expression `arena[r] && arena[r][c]` of `collide`: a row is an array and so truthy,
hence the value is `arena[r][c]` when row `r` exists and `undefined` when it does not. -/
def arenaAt (arena : Matrix) (r c : Int) : Option Int :=
  match jsGet arena r with
  | none => none
  | some row => jsGet row c

/-- The inner loop of `collide` (`for (let x = 0; x < m[y].length; x++)`), started at column
`x` with the cells of row `y` that are still to visit; `true` is the early `return true`. -/
def collideRow (arena : Matrix) (ox oy : Int) (y : Nat) : List Int → Nat → Bool
  | [], _ => false
  | v :: rest, x =>
    if v ≠ 0 ∧ arenaAt arena ((y : Int) + oy) ((x : Int) + ox) ≠ some 0 then true
    else collideRow arena ox oy y rest (x + 1)

/-- The outer loop of `collide` (`for (let y = 0; y < m.length; y++)`), started at row `y`. -/
def collideRows (arena : Matrix) (ox oy : Int) : Matrix → Nat → Bool
  | [], _ => false
  | row :: rest, y =>
    if collideRow arena ox oy y row 0 then true else collideRows arena ox oy rest (y + 1)

/-- The function `collide(arena, player)` with `m = player.matrix`, `ox = player.pos.x`,
`oy = player.pos.y`. -/
def collide (arena : Matrix) (m : Matrix) (ox oy : Int) : Bool :=
  collideRows arena ox oy m 0

/-- The assignment `arena[r][c] = v` of `merge`.  It throws a `TypeError` when row `r` does
not exist; a column outside the row would leave the dense grid.  Both are `none`. -/
def setCell (arena : Matrix) (r c v : Int) : Option Matrix :=
  match jsGet arena r with
  | none => none
  | some row =>
    if 0 ≤ c ∧ c < (row.length : Int) then some (arena.set r.toNat (row.set c.toNat v))
    else none

/-- The inner `row.forEach((value, x) => ...)` of `merge`, started at column `x`. -/
def mergeRow (ox oy : Int) (y : Nat) : List Int → Nat → Matrix → Option Matrix
  | [], _, arena => some arena
  | v :: rest, x, arena =>
    if v ≠ 0 then
      (setCell arena ((y : Int) + oy) ((x : Int) + ox) v).bind (mergeRow ox oy y rest (x + 1))
    else mergeRow ox oy y rest (x + 1) arena

/-- The outer `player.matrix.forEach((row, y) => ...)` of `merge`, started at row `y`. -/
def mergeRows (ox oy : Int) : Matrix → Nat → Matrix → Option Matrix
  | [], _, arena => some arena
  | row :: rest, y, arena =>
    (mergeRow ox oy y row 0 arena).bind (mergeRows ox oy rest (y + 1))

/-- The function `merge(arena, player)`: the arena after the call. -/
def merge (arena : Matrix) (m : Matrix) (ox oy : Int) : Option Matrix :=
  mergeRows ox oy m 0 arena

/-- The cell `m[y][x]` of a matrix, when it exists. -/
def cellOf (m : Matrix) (y x : Nat) : Option Int :=
  match m[y]? with
  | none => none
  | some row => row[x]?

/-- The coordinate `(r, c)` lies inside the board: row `r` exists and has a column `c`. -/
def InBounds (arena : Matrix) (r c : Int) : Prop :=
  0 ≤ r ∧ r < (arena.length : Int) ∧ 0 ≤ c ∧ c < ((arena.getD r.toNat []).length : Int)

instance (arena : Matrix) (r c : Int) : Decidable (InBounds arena r c) := by
  unfold InBounds; infer_instance

/-- The width `arena[0].length` of the board, `0` for a board without rows. -/
def boardWidth (arena : Matrix) : Nat := (arena.headD []).length

/-- The swap `[matrix[x][y], matrix[y][x]] = [matrix[y][x], matrix[x][y]]` of `rotate`: both
cells are read first, then `matrix[x][y]` and `matrix[y][x]` are assigned in that order.  A
cell that does not exist reads as `undefined`, which the grid cannot hold: `none`. -/
def swapCells (matrix : Matrix) (x y : Nat) : Option Matrix :=
  match cellOf matrix y x, cellOf matrix x y with
  | some a, some b =>
    (setCell matrix (x : Int) (y : Int) a).bind (fun m1 => setCell m1 (y : Int) (x : Int) b)
  | _, _ => none

/-- The two nested loops of `rotate`, `for (y = 0; y < matrix.length; y++)` and
`for (x = 0; x < y; x++)`, which transpose the matrix in place by swaps.  The swaps keep
`matrix.length`, so the outer bound is the length at entry. -/
def transposeInPlace (matrix : Matrix) : Option Matrix :=
  (List.range matrix.length).foldlM
    (fun m y => (List.range y).foldlM (fun m1 x => swapCells m1 x y) m) matrix

/-- The function `rotate(matrix, dir)`: the matrix after the call.  After the transposition
each row is reversed when `dir > 0`, and the order of the rows is reversed otherwise. -/
def rotate (matrix : Matrix) (dir : Int) : Option Matrix :=
  (transposeInPlace matrix).map
    (fun t => if dir > 0 then t.map List.reverse else t.reverse)

/-- A square matrix of side `n`: `n` rows of `n` cells. -/
def Square (n : Nat) (m : Matrix) : Prop :=
  m.length = n ∧ ∀ row ∈ m, row.length = n

instance (n : Nat) (m : Matrix) : Decidable (Square n m) := by
  unfold Square; infer_instance

/-- The labelled outer loop of `arenaSweep` with loop variable `y` and counter `rowCount`.
The inner loop looks for a cell equal to `0` in row `y`; finding one is `continue outer`,
whose update step is `--y`.  Otherwise the row is spliced out, filled with `0` and put on
top, and `++y` followed by the update step `--y` leaves `y` as it is.  Reading
`arena[y].length` of a row that does not exist throws (`none`), as does running out of
fuel. -/
def sweepLoop : Nat → Matrix → Int → Nat → Option (Matrix × Nat)
  | 0, _, _, _ => none
  | fuel + 1, arena, y, rowCount =>
    if y ≥ 0 then
      match arena[y.toNat]? with
      | none => none
      | some row =>
        if row.any (fun c => c == 0) then sweepLoop fuel arena (y - 1) rowCount
        else
          sweepLoop fuel ((row.map (fun _ => (0 : Int))) :: arena.eraseIdx y.toNat)
            (y + 1 - 1) (rowCount + 1)
    else some (arena, rowCount)

/-- The function `arenaSweep()` on the given arena: the arena after the call and the returned
count. -/
def arenaSweep (fuel : Nat) (arena : Matrix) : Option (Matrix × Nat) :=
  sweepLoop fuel arena ((arena.length : Int) - 1) 0

/-- A full row: a row that contains no `0` cell. -/
def isFull (row : List Int) : Bool := decide (0 ∉ row)

/-- A 12 x 20 board whose rows 2, 5 and 6 (counted from the top) are full; the other rows
hold a zero, and rows 4, 7 and 19 hold some blocks. -/
def sweepExample : Matrix :=
  [List.replicate 12 0, List.replicate 12 0, List.replicate 12 3, List.replicate 12 0,
   [0, 1, 1, 1, 0, 0, 0, 0, 0, 0, 0, 0], List.replicate 12 5, List.replicate 12 6,
   [2, 2, 0, 0, 0, 0, 0, 0, 0, 0, 7, 7], List.replicate 12 0, List.replicate 12 0,
   List.replicate 12 0, List.replicate 12 0, List.replicate 12 0, List.replicate 12 0,
   List.replicate 12 0, List.replicate 12 0, List.replicate 12 0, List.replicate 12 0,
   List.replicate 12 0, [4, 4, 4, 4, 0, 4, 4, 4, 4, 4, 4, 4]]

/-- The seven piece letters of `createPiece`. -/
inductive PieceType where
  | T | O | L | J | I | S | Z
  deriving DecidableEq, Repr

/-- The function `createPiece(type)` for the seven letters that `randomPiece` can pass. -/
def createPiece : PieceType → Matrix
  | .T => [[0, 0, 0], [1, 1, 1], [0, 1, 0]]
  | .O => [[2, 2], [2, 2]]
  | .L => [[0, 3, 0], [0, 3, 0], [0, 3, 3]]
  | .J => [[0, 4, 0], [0, 4, 0], [4, 4, 0]]
  | .I => [[0, 5, 0, 0], [0, 5, 0, 0], [0, 5, 0, 0], [0, 5, 0, 0]]
  | .S => [[0, 6, 6], [6, 6, 0], [0, 0, 0]]
  | .Z => [[7, 7, 0], [0, 7, 7], [0, 0, 0]]

/-- The function `randomPiece()`, given the index `Math.floor(Math.random() * pieces.length)`
into the string `TJLOSZI` of piece letters. -/
def randomPiece (r : Fin 7) : Matrix :=
  createPiece (match r with
    | 0 => .T | 1 => .J | 2 => .L | 3 => .O | 4 => .S | 5 => .Z | 6 => .I)

/-- The value of the difficulty selector (`difficultyEl.value`); `other` is any string that is
not a key of `difficulties`. -/
inductive Difficulty where
  | easy | normal | hard | other
  deriving DecidableEq, Repr

/-- The table `difficulties` with the fallback `|| difficulties.normal`: the base interval and
the speed factor, the latter as an exact fraction. -/
def preset : Difficulty → Int × ℚ
  | .easy => (1200, 85 / 100)
  | .normal => (1000, 78 / 100)
  | .hard => (700, 72 / 100)
  | .other => (1000, 78 / 100)

/-- The score table `lineScoreBase`. -/
def lineScoreBase : List Int := [0, 40, 100, 300, 1200]

/-- The mutable globals of the script: `arena`, `player` (`pos`, `matrix`, `score`, `lines`,
`level`), `nextPiece`, the timing variables, the two flags and the selected difficulty. -/
structure State where
  arena : Matrix
  posX : Int
  posY : Int
  matrix : Matrix
  score : Int
  lines : Int
  level : Int
  nextPiece : Option Matrix
  dropCounter : ℚ
  dropInterval : Int
  lastTime : ℚ
  playing : Bool
  paused : Bool
  difficulty : Difficulty

/-- The function `applySpeed()`, which sets `dropInterval` to
`Math.max(80, Math.round(base * Math.pow(sf, level - 1)))`, computed with exact fractions in
place of doubles; `Math.round` is `floor(x + 1/2)`. -/
def applySpeed (s : State) : State :=
  { s with dropInterval := max 80 (Int.floor
      (((preset s.difficulty).1 : ℚ) * (preset s.difficulty).2 ^ (s.level - 1) + 1 / 2)) }

/-- The function `playerReset()`, given the two indices that `randomPiece` may draw (`r0` is
used only when no next piece is queued).  The spawn column is `Math.floor(arena[0].length / 2 -
matrix[0].length / 2)`, which is the floor of half the difference of the two widths; reading
`.length` of a missing first row throws (`none`).  `updateUI`, `beep` and `drawNext` only
touch the page. -/
def playerReset (r0 r1 : Fin 7) (s : State) : Option State :=
  let queued := match s.nextPiece with
    | none => randomPiece r0
    | some p => p
  match s.arena.head?, queued.head? with
  | some arenaRow, some pieceRow =>
    let s1 : State :=
      { s with matrix := queued, nextPiece := some (randomPiece r1), posY := 0,
               posX := ((arenaRow.length : Int) - (pieceRow.length : Int)) / 2 }
    if collide s1.arena s1.matrix s1.posX s1.posY then
      some { s1 with playing := false, paused := false,
                     arena := s1.arena.map (fun row => row.map (fun _ => (0 : Int))) }
    else some s1
  | _, _ => none

/-- The statements that `playerDrop` (lines 168-180) and `hardDrop` (lines 206-219) share word
for word: `merge`, `arenaSweep`, the scoring block under `linesCleared > 0`, `updateUI` (page
only) and `playerReset`.  `lineScoreBase[n] || 0` is the table entry, `0` outside the table;
`Math.floor(lines / 10)` is integer division. -/
def lockPiece (fuel : Nat) (r0 r1 : Fin 7) (s : State) : Option State :=
  (merge s.arena s.matrix s.posX s.posY).bind fun merged =>
  (arenaSweep fuel merged).bind fun swept =>
    let linesCleared := swept.2
    let s1 : State := { s with arena := swept.1 }
    let s2 : State :=
      if linesCleared > 0 then
        let base := lineScoreBase.getD linesCleared 0
        let gained := base * s1.level
        let oldLevel := s1.level
        let s3 : State :=
          { s1 with score := s1.score + gained, lines := s1.lines + (linesCleared : Int),
                    level := (s1.lines + (linesCleared : Int)) / 10 + 1 }
        if s3.level > oldLevel then applySpeed s3 else s3
      else s1
    playerReset r0 r1 s2

/-- The function `playerDrop()`: a probe one row down, and the lock sequence when it
collides. -/
def playerDrop (fuel : Nat) (r0 r1 : Fin 7) (s : State) : Option State :=
  if !s.playing || s.paused then some s
  else
    let s1 : State := { s with posY := s.posY + 1 }
    if collide s1.arena s1.matrix s1.posX s1.posY then
      (lockPiece fuel r0 r1 { s1 with posY := s1.posY - 1 }).map
        fun t => { t with dropCounter := 0 }
    else some { s1 with dropCounter := 0 }

/-- The function `playerMove(dir)`; the `beep` only makes a sound. -/
def playerMove (dir : Int) (s : State) : State :=
  if !s.playing || s.paused then s
  else
    let s1 : State := { s with posX := s.posX + dir }
    if collide s1.arena s1.matrix s1.posX s1.posY then { s1 with posX := s1.posX - dir }
    else s1

/-- The loop `while (!collide(arena, player)) { player.pos.y++; drop++; }` of `hardDrop`; it
returns `player.pos.y` and `drop` at the exit of the loop. -/
def dropLoop : Nat → Matrix → Matrix → Int → Int → Int → Option (Int × Int)
  | 0, _, _, _, _, _ => none
  | fuel + 1, arena, m, x, y, drop =>
    if !collide arena m x y then dropLoop fuel arena m x (y + 1) (drop + 1)
    else some (y, drop)

/-- The function `hardDrop()`; the `beep` only makes a sound. -/
def hardDrop (fuel : Nat) (r0 r1 : Fin 7) (s : State) : Option State :=
  if !s.playing || s.paused then some s
  else
    (dropLoop fuel s.arena s.matrix s.posX s.posY 0).bind fun out =>
      let y := out.1 - 1
      let drop := out.2 - 1
      let s1 : State :=
        { s with posY := y, score := if drop > 0 then s.score + drop * 2 else s.score }
      (lockPiece fuel r0 r1 s1).map fun t => { t with dropCounter := 0 }

/-- The loop `while (collide(arena, player)) { ... }` of `playerRotate` on the rotated matrix
`m`, with the current `player.pos.x` and `offset`.  It returns `some x` when the loop ends
with the piece free at column `x`, and `none` when `Math.abs(offset) > matrix[0].length`
makes the function give up. -/
def kickLoop : Nat → Matrix → Matrix → Int → Int → Int → Option (Option Int)
  | 0, _, _, _, _, _ => none
  | fuel + 1, arena, m, y, x, offset =>
    if collide arena m x y then
      let x1 := x + offset
      let offset1 := -(offset + (if offset > 0 then 1 else -1))
      match m.head? with
      | none => none
      | some row0 =>
        if offset1.natAbs > row0.length then some none
        else kickLoop fuel arena m y x1 offset1
    else some (some x)

/-- The function `playerRotate(dir)`; the `beep` only makes a sound. -/
def playerRotate (fuel : Nat) (dir : Int) (s : State) : Option State :=
  if !s.playing || s.paused then some s
  else
    (rotate s.matrix dir).bind fun rotated =>
    (kickLoop fuel s.arena rotated s.posY s.posX 1).bind fun out =>
      match out with
      | some x => some { s with matrix := rotated, posX := x }
      | none => (rotate rotated (-dir)).map fun back => { s with matrix := back, posX := s.posX }

/-- A grid of `h` rows of `w` cells. -/
def Rect (w h : Nat) (m : Matrix) : Prop :=
  m.length = h ∧ ∀ row ∈ m, row.length = w

instance (w h : Nat) (m : Matrix) : Decidable (Rect w h m) := by
  unfold Rect; infer_instance

/-- The `j`-th offset of the kick search, `+1, -2, +3, -4, ...` for `j = 1, 2, 3, 4, ...`. -/
def kickOffset (j : Nat) : Int := if j % 2 = 1 then (j : Int) else -(j : Int)

/-- The displacement of `player.pos.x` after `i` offsets were added: `0, 1, -1, 2, -2, ...`. -/
def kickPos : Nat → Int
  | 0 => 0
  | i + 1 => kickPos i + kickOffset (i + 1)

/-- The matrices reachable from `createPiece t` by calls of `rotate`. -/
inductive RotationOf (t : PieceType) : Matrix → Prop where
  | base : RotationOf t (createPiece t)
  | turn (m m' : Matrix) (dir : Int) : RotationOf t m → rotate m dir = some m' →
      RotationOf t m'

/-- The queued next piece, when there is one, is a matrix made by `createPiece` (the script
only ever stores the result of `randomPiece()` in `nextPiece`). -/
def NextQueued (s : State) : Prop :=
  ∀ p, s.nextPiece = some p → ∃ t, p = createPiece t

/-- A Running state at level 3 with 21 lines on a 4 x 3 board: the O piece sits at `(1, 0)`
above a two-column well, one row above its resting row. -/
def lockExample : State :=
  { arena := [[0, 0, 0, 0], [1, 0, 0, 1], [1, 0, 0, 1]], posX := 1, posY := 0,
    matrix := [[2, 2], [2, 2]], score := 500, lines := 21, level := 3,
    nextPiece := some (createPiece .T), dropCounter := 0, dropInterval := 608, lastTime := 0,
    playing := true, paused := false, difficulty := .normal }

/-- The state `lockExample` one row further down: the O piece rests in the well. -/
def restingExample : State := { lockExample with posY := 1 }

/-- A Running state on an empty 5 x 5 board: the T piece, turned once counter-clockwise, hugs
the left wall at `x = -1` (its empty first column is outside the board). -/
def kickExample : State :=
  { arena := List.replicate 5 (List.replicate 5 0), posX := -1, posY := 0,
    matrix := [[0, 1, 0], [0, 1, 1], [0, 1, 0]], score := 0, lines := 0, level := 1,
    nextPiece := some (createPiece .O), dropCounter := 0, dropInterval := 1000, lastTime := 0,
    playing := true, paused := false, difficulty := .normal }

/-- A Running state with the upright I piece in a well one column wide on a board three
columns wide: the piece lying flat fits nowhere. -/
def blockedExample : State :=
  { arena := [[1, 0, 1], [1, 0, 1], [1, 0, 1], [1, 0, 1]], posX := 0, posY := 0,
    matrix := createPiece .I, score := 70, lines := 4, level := 1,
    nextPiece := some (createPiece .S), dropCounter := 0, dropInterval := 1000, lastTime := 0,
    playing := true, paused := false, difficulty := .normal }

/-- The function `createMatrix(w, h)`: `h` rows of `w` zeros. -/
def createMatrix (w h : Nat) : Matrix := List.replicate h (List.replicate w 0)

/-- Rounding of a fraction to the nearest integer, a tie going to the even neighbour. -/
def roundHalfEven (x : ℚ) : Int :=
  if x - (Int.floor x : ℚ) < 1 / 2 then Int.floor x
  else if x - (Int.floor x : ℚ) > 1 / 2 then Int.floor x + 1
  else if Int.floor x % 2 = 0 then Int.floor x else Int.floor x + 1

/-- The rounding of IEEE 754 binary64 arithmetic (round to nearest, ties to even) on an exact
result `q`: with `e = floor (log2 |q|)`, not below the least normal exponent `-1022`, the
doubles near `q` are the multiples of `2 ^ (e - 52)`.  A result of magnitude `2 ^ 1024` or more
(`Infinity` in JavaScript) is outside the finite doubles held here. -/
def roundDouble (q : ℚ) : ℚ :=
  if q = 0 then 0
  else (roundHalfEven (q / 2 ^ (max (Int.log 2 |q|) (-1022) - 52)) : ℚ)
    * 2 ^ (max (Int.log 2 |q|) (-1022) - 52)

/-- The function `update(time)`: the state after the callback, together with the states that
`draw()` rendered during the callback, in order.  `requestAnimationFrame(update)` only books
the next callback.  The timestamp and the two timing variables are doubles: `time - lastTime`
is `rnd` of the exact difference and `dropCounter += deltaTime` stores `rnd` of the exact sum,
where `rnd` is the rounding of the double arithmetic (`roundDouble`). -/
def update (rnd : ℚ → ℚ) (fuel : Nat) (r0 r1 : Fin 7) (time : ℚ) (s : State) :
    Option (State × List State) :=
  if !s.playing then some ({ s with lastTime := time }, [])
  else
    let logic : Option State :=
      if !s.paused then
        let deltaTime := rnd (time - s.lastTime)
        let s1 : State :=
          { s with lastTime := time, dropCounter := rnd (s.dropCounter + deltaTime) }
        if s1.dropCounter > (s1.dropInterval : ℚ) then playerDrop fuel r0 r1 s1 else some s1
      else some { s with lastTime := time }
    logic.map fun s2 => (s2, [s2])

/-- The click handler of the start button (also reached by the key `R`): the arena rows are
filled with `0`, the scalars are reset, `nextPiece = randomPiece()` (index `r`), then
`playerReset()` (which draws the index `r1`; its first index is not used because a piece is
queued), `applySpeed()`, and the two flags.  `updateUI` and `beep` only touch the page. -/
def start (r r1 : Fin 7) (s : State) : Option State :=
  let s1 : State :=
    { s with arena := s.arena.map (fun row => row.map (fun _ => (0 : Int))),
             score := 0, lines := 0, level := 1, nextPiece := some (randomPiece r) }
  (playerReset r r1 s1).map fun s2 =>
    { applySpeed s2 with playing := true, paused := false }

/-- The click handler of the pause button and the key `P`: `paused = !paused` when
playing. -/
def togglePause (s : State) : State :=
  if s.playing then { s with paused := !s.paused } else s

/-- The change handler of the difficulty selector, whose new value is `d`: `applySpeed()`. -/
def changeDifficulty (d : Difficulty) (s : State) : State :=
  applySpeed { s with difficulty := d }

/-- The state at the end of the script: the globals as declared (the arena is
`createMatrix(12, 20)`, `player.matrix` is `null`, rendered as the empty matrix, and the
selector shows `d`), then `nextPiece = randomPiece()`, `playerReset()` and `applySpeed()`. -/
def initialState (d : Difficulty) (r r1 : Fin 7) : Option State :=
  (playerReset r r1
    { arena := createMatrix 12 20, posX := 0, posY := 0, matrix := [], score := 0, lines := 0,
      level := 1, nextPiece := some (randomPiece r), dropCounter := 0, dropInterval := 1000,
      lastTime := 0, playing := false, paused := false, difficulty := d }).map applySpeed

/-- The interval that `applySpeed` computes for a difficulty and a level. -/
def speedInterval (d : Difficulty) (level : Int) : Int :=
  max 80 (Int.floor (((preset d).1 : ℚ) * (preset d).2 ^ (level - 1) + 1 / 2))

/-- The inputs that drive the engine: the buttons and keys of the page, and the animation
frame callback with its timestamp.  The indices are the draws of `randomPiece`. -/
inductive Action where
  | start (r r1 : Fin 7)
  | pause
  | move (dir : Int)
  | rotate (dir : Int)
  | softDrop (r0 r1 : Fin 7)
  | hardDrop (r0 r1 : Fin 7)
  | tick (time : ℚ) (r0 r1 : Fin 7)
  | difficulty (d : Difficulty)

/-- The key handler passes `-1` or `1` to `playerMove` and to `playerRotate`. -/
def Action.Valid : Action → Prop
  | .move dir => dir = 1 ∨ dir = -1
  | .rotate dir => dir = 1 ∨ dir = -1
  | _ => True

/-- One input handled by the engine; `rnd` is the rounding of the double arithmetic in
`update`. -/
def step (rnd : ℚ → ℚ) (fuel : Nat) : Action → State → Option State
  | .start r r1, s => start r r1 s
  | .pause, s => some (togglePause s)
  | .move dir, s => some (playerMove dir s)
  | .rotate dir, s => playerRotate fuel dir s
  | .softDrop r0 r1, s => playerDrop fuel r0 r1 s
  | .hardDrop r0 r1, s => hardDrop fuel r0 r1 s
  | .tick time r0 r1, s => (update rnd fuel r0 r1 time s).map Prod.fst
  | .difficulty d, s => some (changeDifficulty d s)

/-- The states that the engine can be in: the state at the end of the script and every state
that a handled input leads to, whatever the rounding of the double arithmetic in the
callback. -/
inductive Reachable : State → Prop where
  | init (d : Difficulty) (r r1 : Fin 7) (s : State) :
      initialState d r r1 = some s → Reachable s
  | step (rnd : ℚ → ℚ) (fuel : Nat) (a : Action) (s s' : State) :
      Reachable s → a.Valid → step rnd fuel a s = some s' → Reachable s'

/-- The state `blockedExample` after a game over: not playing. -/
def idleExample : State := { blockedExample with playing := false }

/-- The invariant of the engine on the script's 12 x 20 board: the board keeps its
dimensions, its cells are colour indices `0 .. 7`, no row is full, the active matrix is a
catalog piece in some rotation state, a catalog piece is queued, the level is derived from the
lines, and the active piece does not collide with the board. -/
structure Inv (s : State) : Prop where
  rect : Rect 12 20 s.arena
  cells : ∀ row ∈ s.arena, ∀ c ∈ row, 0 ≤ c ∧ c ≤ 7
  noFull : ∀ row ∈ s.arena, isFull row = false
  piece : ∃ t, RotationOf t s.matrix
  next : NextQueued s
  level : s.level = s.lines / 10 + 1
  lines : 0 ≤ s.lines
  free : collide s.arena s.matrix s.posX s.posY = false

/-- The state at the end of the script when the selector shows normal and both draws of
`randomPiece` give the index `0` (the T piece). -/
def initExample : State :=
  { arena := createMatrix 12 20, posX := 4, posY := 0, matrix := createPiece .T, score := 0,
    lines := 0, level := 1, nextPiece := some (createPiece .T), dropCounter := 0,
    dropInterval := speedInterval .normal 1, lastTime := 0, playing := false, paused := false,
    difficulty := .normal }

/-- The state `initExample` after the start button (both draws give the T piece again). -/
def runningExample : State := { initExample with playing := true }

/-- A sequence of inputs handled one after the other. -/
def run (rnd : ℚ → ℚ) (fuel : Nat) : List Action → State → Option State
  | [], s => some s
  | a :: rest, s => (step rnd fuel a s).bind (run rnd fuel rest)

/-- Inputs that lay two I pieces flat on the bottom row, in columns 0 to 7, and carry a
third flat I piece over columns 8 to 11: start (every draw gives the I piece), then for each
piece a rotation, the moves to its columns and, for the first two, a hard drop. -/
def preClearInputs : List Action :=
  [.start 6 6, .rotate 1, .move (-1), .move (-1), .move (-1), .move (-1), .hardDrop 0 6,
   .rotate 1, .hardDrop 0 6, .rotate 1, .move 1, .move 1, .move 1, .move 1]

/-- The state that `preClearInputs` lead to from `initExample`: the bottom row lacks its last
four cells, and the flat I piece hangs above them. -/
def preClearExample : State :=
  { arena := List.replicate 19 (List.replicate 12 0) ++ [[5, 5, 5, 5, 5, 5, 5, 5, 0, 0, 0, 0]],
    posX := 8, posY := 0, matrix := [[0, 0, 0, 0], [5, 5, 5, 5], [0, 0, 0, 0], [0, 0, 0, 0]],
    score := 72, lines := 0, level := 1, nextPiece := some (createPiece .I), dropCounter := 0,
    dropInterval := speedInterval .normal 1, lastTime := 0, playing := true, paused := false,
    difficulty := .normal }

/-! ## Reading the arena -/

theorem jsGet_eq_some {α : Type} (a : List α) (i : Int) (v : α) :
    jsGet a i = some v ↔ 0 ≤ i ∧ a[i.toNat]? = some v := by
  unfold jsGet
  by_cases h : i < 0
  · simp [h]
  · simp [h]; intro _; omega

theorem jsGet_natCast {α : Type} (a : List α) (n : Nat) : jsGet a (n : Int) = a[n]? := by
  unfold jsGet
  have : ¬ ((n : Int) < 0) := by omega
  simp [this]

theorem arenaAt_eq_some (arena : Matrix) (r c : Int) (v : Int) :
    arenaAt arena r c = some v ↔
      ∃ row, 0 ≤ r ∧ arena[r.toNat]? = some row ∧ 0 ≤ c ∧ row[c.toNat]? = some v := by
  unfold arenaAt
  cases h : jsGet arena r with
  | none =>
    constructor
    · intro hn; cases hn
    · rintro ⟨row, hr, hrow, -, -⟩
      have := (jsGet_eq_some arena r row).2 ⟨hr, hrow⟩
      simp [h] at this
  | some row =>
    have hr := (jsGet_eq_some arena r row).1 h
    simp only [jsGet_eq_some]
    constructor
    · intro hc; exact ⟨row, hr.1, hr.2, hc.1, hc.2⟩
    · rintro ⟨row', _, hrow', hc0, hc⟩
      rw [hr.2] at hrow'
      cases hrow'
      exact ⟨hc0, hc⟩

theorem arenaAt_isSome_iff (arena : Matrix) (r c : Int) :
    (arenaAt arena r c).isSome = true ↔ InBounds arena r c := by
  rw [Option.isSome_iff_exists]
  simp only [arenaAt_eq_some, InBounds]
  constructor
  · rintro ⟨v, row, hr, hrow, hc, hv⟩
    have h1 := List.getElem?_eq_some.1 hrow
    have h2 := List.getElem?_eq_some.1 hv
    obtain ⟨h1, h1e⟩ := h1
    obtain ⟨h2, -⟩ := h2
    have : arena.getD r.toNat [] = row := by
      rw [List.getD_eq_getElem?_getD, hrow]; rfl
    rw [this]
    omega
  · rintro ⟨hr, hrl, hc, hcl⟩
    have h1 : r.toNat < arena.length := by omega
    have : arena.getD r.toNat [] = arena[r.toNat] := by
      rw [List.getD_eq_getElem?_getD, List.getElem?_eq_getElem h1]; rfl
    rw [this] at hcl
    have h2 : c.toNat < (arena[r.toNat]).length := by omega
    exact ⟨(arena[r.toNat])[c.toNat], arena[r.toNat], hr, List.getElem?_eq_getElem h1, hc,
      List.getElem?_eq_getElem h2⟩

/-! ## `collide` as a search for a blocked cell -/

theorem collideRow_eq_true (arena : Matrix) (ox oy : Int) (y : Nat) (row : List Int) (x : Nat) :
    collideRow arena ox oy y row x = true ↔
      ∃ i v, row[i]? = some v ∧ v ≠ 0 ∧
        arenaAt arena ((y : Int) + oy) (((x + i : Nat) : Int) + ox) ≠ some 0 := by
  induction row generalizing x with
  | nil => simp [collideRow]
  | cons v rest ih =>
    unfold collideRow
    by_cases h : v ≠ 0 ∧ arenaAt arena ((y : Int) + oy) ((x : Int) + ox) ≠ some 0
    · rw [if_pos h]
      simp only [true_iff]
      exact ⟨0, v, by simp, h.1, by simpa using h.2⟩
    · rw [if_neg h, ih]
      constructor
      · rintro ⟨i, w, hi, hw, hb⟩
        refine ⟨i + 1, w, by simpa using hi, hw, ?_⟩
        have : x + (i + 1) = x + 1 + i := by omega
        rw [this]; exact hb
      · rintro ⟨i, w, hi, hw, hb⟩
        cases i with
        | zero =>
          simp at hi
          subst hi
          exact absurd ⟨hw, by simpa using hb⟩ h
        | succ j =>
          refine ⟨j, w, by simpa using hi, hw, ?_⟩
          have : x + 1 + j = x + (j + 1) := by omega
          rw [this]; exact hb

theorem collideRows_eq_true (arena : Matrix) (ox oy : Int) (m : Matrix) (y : Nat) :
    collideRows arena ox oy m y = true ↔
      ∃ j i v, cellOf m j i = some v ∧ v ≠ 0 ∧
        arenaAt arena (((y + j : Nat) : Int) + oy) ((i : Int) + ox) ≠ some 0 := by
  induction m generalizing y with
  | nil => simp [collideRows, cellOf]
  | cons row rest ih =>
    unfold collideRows
    by_cases h : collideRow arena ox oy y row 0 = true
    · rw [if_pos h]
      simp only [true_iff]
      obtain ⟨i, v, hi, hv, hb⟩ := (collideRow_eq_true arena ox oy y row 0).1 h
      refine ⟨0, i, v, by simpa [cellOf] using hi, hv, ?_⟩
      simpa using hb
    · rw [if_neg h, ih]
      constructor
      · rintro ⟨j, i, v, hc, hv, hb⟩
        refine ⟨j + 1, i, v, by simpa [cellOf] using hc, hv, ?_⟩
        have : y + (j + 1) = y + 1 + j := by omega
        rw [this]; exact hb
      · rintro ⟨j, i, v, hc, hv, hb⟩
        cases j with
        | zero =>
          exfalso
          apply h
          rw [collideRow_eq_true]
          exact ⟨i, v, by simpa [cellOf] using hc, hv, by simpa using hb⟩
        | succ k =>
          refine ⟨k, i, v, by simpa [cellOf] using hc, hv, ?_⟩
          have : y + 1 + k = y + (k + 1) := by omega
          rw [this]; exact hb

/-- The function `collide` answers `true` exactly when a non-zero cell of the matrix sits on
an arena read that is not the number `0`. -/
theorem collide_eq_true_iff (arena m : Matrix) (ox oy : Int) :
    collide arena m ox oy = true ↔
      ∃ y x v, cellOf m y x = some v ∧ v ≠ 0 ∧
        arenaAt arena ((y : Int) + oy) ((x : Int) + ox) ≠ some 0 := by
  unfold collide
  rw [collideRows_eq_true]
  simp

theorem collide_eq_false_iff (arena m : Matrix) (ox oy : Int) :
    collide arena m ox oy = false ↔
      ∀ y x v, cellOf m y x = some v → v ≠ 0 →
        arenaAt arena ((y : Int) + oy) ((x : Int) + ox) = some 0 := by
  rw [← Bool.not_eq_true, collide_eq_true_iff]
  push_neg
  rfl


/-! ## `merge` -/

theorem arenaAt_setCell (a a' : Matrix) (r c v : Int) (h : setCell a r c v = some a')
    (r' c' : Int) :
    arenaAt a' r' c' = if r' = r ∧ c' = c then some v else arenaAt a r' c' := by
  unfold setCell at h
  cases hrow : jsGet a r with
  | none => simp [hrow] at h
  | some row =>
    simp only [hrow] at h
    split at h
    · rename_i hc
      cases h
      obtain ⟨hr0, hget⟩ := (jsGet_eq_some a r row).1 hrow
      have hrl : r.toNat < a.length := (List.getElem?_eq_some.1 hget).1
      unfold arenaAt jsGet
      by_cases hr' : r' < 0
      · have : ¬ (r' = r) := by omega
        simp [hr', this]
      · simp only [hr', if_false]
        by_cases hrr : r' = r
        · subst hrr
          simp only [List.getElem?_set_self hrl, hget, true_and]
          by_cases hc' : c' < 0
          · have : ¬ (c' = c) := by omega
            simp [hc', this]
          · simp only [hc', if_false]
            by_cases hcc : c' = c
            · subst hcc
              have : c'.toNat < row.length := by omega
              simp [List.getElem?_set_self this]
            · have : c.toNat ≠ c'.toNat := by omega
              simp [hcc, List.getElem?_set_ne this]
        · have : r.toNat ≠ r'.toNat := by omega
          simp [hrr, List.getElem?_set_ne this]
    · cases h

theorem setCell_of_inBounds (a : Matrix) (r c v : Int) (h : (arenaAt a r c).isSome = true) :
    ∃ a', setCell a r c v = some a' := by
  obtain ⟨w, hw⟩ := Option.isSome_iff_exists.1 h
  obtain ⟨row, hr, hrow, hc, hv⟩ := (arenaAt_eq_some a r c w).1 hw
  have hj : jsGet a r = some row := (jsGet_eq_some a r row).2 ⟨hr, hrow⟩
  have hcl : c.toNat < row.length := (List.getElem?_eq_some.1 hv).1
  unfold setCell
  rw [hj]
  have : 0 ≤ c ∧ c < (row.length : Int) := ⟨hc, by omega⟩
  simp [this]


theorem mergeRow_spec (ox oy : Int) (y : Nat) (row : List Int) (x : Nat) (a : Matrix)
    (h : ∀ i v, row[i]? = some v → v ≠ 0 →
      (arenaAt a ((y : Int) + oy) (((x + i : Nat) : Int) + ox)).isSome = true) :
    ∃ a', mergeRow ox oy y row x a = some a' ∧
      (∀ r c, (arenaAt a' r c).isSome = (arenaAt a r c).isSome) ∧
      (∀ r c, arenaAt a r c ≠ some 0 → arenaAt a' r c ≠ some 0) ∧
      (∀ i v, row[i]? = some v → v ≠ 0 →
        arenaAt a' ((y : Int) + oy) (((x + i : Nat) : Int) + ox) ≠ some 0) := by
  induction row generalizing x a with
  | nil => exact ⟨a, rfl, fun _ _ => rfl, fun _ _ h => h, by simp⟩
  | cons v rest ih =>
    have hrest : ∀ b : Matrix, (∀ r c, (arenaAt b r c).isSome = (arenaAt a r c).isSome) →
        ∀ i w, rest[i]? = some w → w ≠ 0 →
        (arenaAt b ((y : Int) + oy) (((x + 1 + i : Nat) : Int) + ox)).isSome = true := by
      intro b hb i w hi hw
      rw [hb]
      have := h (i + 1) w (by simpa using hi) hw
      have e : x + (i + 1) = x + 1 + i := by omega
      rw [e] at this; exact this
    unfold mergeRow
    by_cases hv : v ≠ 0
    · rw [if_pos hv]
      have h0 := h 0 v (by simp) hv
      simp only [Nat.add_zero] at h0
      obtain ⟨a1, ha1⟩ := setCell_of_inBounds a _ _ v h0
      have hat := arenaAt_setCell a a1 _ _ v ha1
      have hsome : ∀ r c, (arenaAt a1 r c).isSome = (arenaAt a r c).isSome := by
        intro r c
        rw [hat]
        split
        · rename_i hrc; rw [hrc.1, hrc.2, h0]; rfl
        · rfl
      have hmono : ∀ r c, arenaAt a r c ≠ some 0 → arenaAt a1 r c ≠ some 0 := by
        intro r c hrc
        rw [hat]
        split
        · intro hc; exact hv (Option.some.inj hc)
        · exact hrc
      obtain ⟨a2, ha2, hs2, hm2, hw2⟩ := ih (x + 1) a1 (hrest a1 hsome)
      refine ⟨a2, by rw [ha1]; exact ha2, fun r c => (hs2 r c).trans (hsome r c),
        fun r c hrc => hm2 r c (hmono r c hrc), ?_⟩
      intro i w hi hw
      cases i with
      | zero =>
        simp at hi
        subst hi
        apply hm2
        rw [hat]
        simp [hv]
      | succ j =>
        have := hw2 j w (by simpa using hi) hw
        have e : x + (j + 1) = x + 1 + j := by omega
        rw [e]; exact this
    · rw [if_neg hv]
      obtain ⟨a2, ha2, hs2, hm2, hw2⟩ := ih (x + 1) a (hrest a (fun _ _ => rfl))
      refine ⟨a2, ha2, hs2, hm2, ?_⟩
      intro i w hi hw
      cases i with
      | zero =>
        simp at hi
        subst hi
        exact absurd hw hv
      | succ j =>
        have := hw2 j w (by simpa using hi) hw
        have e : x + (j + 1) = x + 1 + j := by omega
        rw [e]; exact this

theorem mergeRows_spec (ox oy : Int) (m : Matrix) (y : Nat) (a : Matrix)
    (h : ∀ j i v, cellOf m j i = some v → v ≠ 0 →
      (arenaAt a (((y + j : Nat) : Int) + oy) ((i : Int) + ox)).isSome = true) :
    ∃ a', mergeRows ox oy m y a = some a' ∧
      (∀ r c, (arenaAt a' r c).isSome = (arenaAt a r c).isSome) ∧
      (∀ r c, arenaAt a r c ≠ some 0 → arenaAt a' r c ≠ some 0) ∧
      (∀ j i v, cellOf m j i = some v → v ≠ 0 →
        arenaAt a' (((y + j : Nat) : Int) + oy) ((i : Int) + ox) ≠ some 0) := by
  induction m generalizing y a with
  | nil => exact ⟨a, rfl, fun _ _ => rfl, fun _ _ h => h, by simp [cellOf]⟩
  | cons row rest ih =>
    unfold mergeRows
    have hrow : ∀ i v, row[i]? = some v → v ≠ 0 →
        (arenaAt a ((y : Int) + oy) (((0 + i : Nat) : Int) + ox)).isSome = true := by
      intro i v hi hv
      have := h 0 i v (by simpa [cellOf] using hi) hv
      simpa using this
    obtain ⟨a1, ha1, hs1, hm1, hw1⟩ := mergeRow_spec ox oy y row 0 a hrow
    have hrest : ∀ j i v, cellOf rest j i = some v → v ≠ 0 →
        (arenaAt a1 (((y + 1 + j : Nat) : Int) + oy) ((i : Int) + ox)).isSome = true := by
      intro j i v hc hv
      rw [hs1]
      have := h (j + 1) i v (by simpa [cellOf] using hc) hv
      have e : y + (j + 1) = y + 1 + j := by omega
      rw [e] at this; exact this
    obtain ⟨a2, ha2, hs2, hm2, hw2⟩ := ih (y + 1) a1 hrest
    refine ⟨a2, by rw [ha1]; exact ha2, fun r c => (hs2 r c).trans (hs1 r c),
      fun r c hrc => hm2 r c (hm1 r c hrc), ?_⟩
    intro j i v hc hv
    cases j with
    | zero =>
      apply hm2
      have := hw1 i v (by simpa [cellOf] using hc) hv
      simpa using this
    | succ k =>
      have := hw2 k i v (by simpa [cellOf] using hc) hv
      have e : y + (k + 1) = y + 1 + k := by omega
      rw [e]; exact this

/-- When the piece does not collide, `merge` returns an arena with the same cells in bounds,
in which every non-zero cell of the piece sits on a non-zero arena cell. -/
theorem merge_of_not_collide (arena m : Matrix) (ox oy : Int)
    (hfree : collide arena m ox oy = false) :
    ∃ a', merge arena m ox oy = some a' ∧
      (∀ r c, (arenaAt a' r c).isSome = (arenaAt arena r c).isSome) ∧
      (∀ r c, arenaAt arena r c ≠ some 0 → arenaAt a' r c ≠ some 0) ∧
      (∀ y x v, cellOf m y x = some v → v ≠ 0 →
        arenaAt a' ((y : Int) + oy) ((x : Int) + ox) ≠ some 0) := by
  have hf := (collide_eq_false_iff arena m ox oy).1 hfree
  have h : ∀ j i v, cellOf m j i = some v → v ≠ 0 →
      (arenaAt arena (((0 + j : Nat) : Int) + oy) ((i : Int) + ox)).isSome = true := by
    intro j i v hc hv
    have := hf j i v hc hv
    simp only [Nat.zero_add]
    rw [this]; rfl
  obtain ⟨a', ha, hs, hm, hw⟩ := mergeRows_spec ox oy m 0 arena h
  refine ⟨a', ha, hs, hm, ?_⟩
  intro y x v hc hv
  have := hw y x v hc hv
  simpa using this

/-- C1: `collide` is the occupied-or-out-of-bounds test. It returns `true` if some non-zero
cell of the shape maps (position plus local coordinate) to a coordinate outside the board or
to a board cell that is non-zero, and returns `false` if every non-zero cell of the shape maps
to an in-bounds board cell that holds `0`. -/
theorem collide_occupied_or_out_of_bounds (arena m : Matrix) (ox oy : Int) :
    ((∃ y x v, cellOf m y x = some v ∧ v ≠ 0 ∧
        (¬ InBounds arena ((y : Int) + oy) ((x : Int) + ox) ∨
          ∃ w, arenaAt arena ((y : Int) + oy) ((x : Int) + ox) = some w ∧ w ≠ 0)) →
      collide arena m ox oy = true) ∧
    ((∀ y x v, cellOf m y x = some v → v ≠ 0 →
        InBounds arena ((y : Int) + oy) ((x : Int) + ox) ∧
          arenaAt arena ((y : Int) + oy) ((x : Int) + ox) = some 0) →
      collide arena m ox oy = false) := by
  constructor
  · rintro ⟨y, x, v, hc, hv, hb⟩
    rw [collide_eq_true_iff]
    refine ⟨y, x, v, hc, hv, ?_⟩
    rcases hb with hb | ⟨w, hw, hw0⟩
    · intro h0
      apply hb
      rw [← arenaAt_isSome_iff, h0]; rfl
    · rw [hw]
      intro h0
      exact hw0 (Option.some.inj h0)
  · intro h
    rw [collide_eq_false_iff]
    intro y x v hc hv
    exact (h y x v hc hv).2

/-- Witness for C1: on the board `[[0, 0], [0, 5]]` the one-cell shape `[[1]]` collides at
`(1, 1)` (occupied) and at `(2, 0)` (outside), and does not collide at `(0, 0)`. -/
theorem collide_occupied_or_out_of_bounds_witness :
    collide [[0, 0], [0, 5]] [[1]] 1 1 = true ∧ collide [[0, 0], [0, 5]] [[1]] 2 0 = true ∧
      collide [[0, 0], [0, 5]] [[1]] 0 0 = false :=
  ⟨(collide_occupied_or_out_of_bounds [[0, 0], [0, 5]] [[1]] 1 1).1
      ⟨0, 0, 1, by decide, by decide, Or.inr ⟨5, by decide, by decide⟩⟩,
    (collide_occupied_or_out_of_bounds [[0, 0], [0, 5]] [[1]] 2 0).1
      ⟨0, 0, 1, by decide, by decide, Or.inl (by decide)⟩,
    (collide_occupied_or_out_of_bounds [[0, 0], [0, 5]] [[1]] 0 0).2 (by
      intro y x v hc hv
      match y, x, hc with
      | 0, 0, _ => exact ⟨by decide, by decide⟩
      | 0, x + 1, hc => simp [cellOf] at hc
      | y + 1, _, hc => simp [cellOf] at hc)⟩


/-- C2, the claim as stated fails: on the one-cell empty board the shape `[[1]]` placed at
`(0, -1)` has its only non-zero cell above the top row and inside the horizontal bounds, and
`collide` returns `true`. -/
theorem collide_above_top_counterexample :
    (∀ y x v, cellOf [[1]] y x = some v → v ≠ 0 →
      (InBounds [[0]] ((y : Int) + (-1)) ((x : Int) + 0) ∧
          arenaAt [[0]] ((y : Int) + (-1)) ((x : Int) + 0) = some 0) ∨
        ((y : Int) + (-1) < 0 ∧ 0 ≤ (x : Int) + 0 ∧
          (x : Int) + 0 < (boardWidth [[0]] : Int))) ∧
      collide [[0]] [[1]] 0 (-1) = true := by
  refine ⟨?_, by decide⟩
  intro y x v hc _
  match y, x, hc with
  | 0, 0, _ => exact Or.inr (by decide)
  | 0, x + 1, hc => simp [cellOf] at hc
  | y + 1, _, hc => simp [cellOf] at hc

/-- C2 as amended: a non-zero shape cell above the top of the board is a collision like any
other out-of-bounds cell, so `collide` returns `true` whenever some non-zero shape cell lies at
a row index below `0`; it returns `false` when every non-zero shape cell maps to an in-bounds
empty board cell. -/
theorem collide_above_top (arena m : Matrix) (ox oy : Int) :
    ((∃ y x v, cellOf m y x = some v ∧ v ≠ 0 ∧ (y : Int) + oy < 0) →
      collide arena m ox oy = true) ∧
    ((∀ y x v, cellOf m y x = some v → v ≠ 0 →
        InBounds arena ((y : Int) + oy) ((x : Int) + ox) ∧
          arenaAt arena ((y : Int) + oy) ((x : Int) + ox) = some 0) →
      collide arena m ox oy = false) := by
  constructor
  · rintro ⟨y, x, v, hc, hv, hneg⟩
    rw [collide_eq_true_iff]
    refine ⟨y, x, v, hc, hv, ?_⟩
    intro h0
    obtain ⟨_, hr, _⟩ := (arenaAt_eq_some arena _ _ 0).1 h0
    omega
  · intro h
    rw [collide_eq_false_iff]
    intro y x v hc hv
    exact (h y x v hc hv).2

/-- Witness for C2 as amended: the T piece one row above the top of an empty 3 x 3 board
collides, and `[[1]]` at the origin of that board does not. -/
theorem collide_above_top_witness :
    collide [[0, 0, 0], [0, 0, 0], [0, 0, 0]] [[0, 0, 0], [1, 1, 1], [0, 1, 0]] 0 (-2) = true ∧
      collide [[0, 0, 0], [0, 0, 0], [0, 0, 0]] [[1]] 0 0 = false :=
  ⟨(collide_above_top [[0, 0, 0], [0, 0, 0], [0, 0, 0]] [[0, 0, 0], [1, 1, 1], [0, 1, 0]]
      0 (-2)).1 ⟨1, 0, 1, by decide, by decide, by decide⟩,
    (collide_above_top [[0, 0, 0], [0, 0, 0], [0, 0, 0]] [[1]] 0 0).2 (by
      intro y x v hc hv
      match y, x, hc with
      | 0, 0, _ => exact ⟨by decide, by decide⟩
      | 0, x + 1, hc => simp [cellOf] at hc
      | y + 1, _, hc => simp [cellOf] at hc)⟩

/-- C3: for every board, every piece with at least one non-zero cell and every position at
which the piece does not collide, `merge` returns, and `collide` on the merged board at the
same position returns `true`. -/
theorem merge_then_collide (arena m : Matrix) (ox oy : Int)
    (hcell : ∃ y x v, cellOf m y x = some v ∧ v ≠ 0)
    (hfree : collide arena m ox oy = false) :
    ∃ arena', merge arena m ox oy = some arena' ∧ collide arena' m ox oy = true := by
  obtain ⟨a', ha, -, -, hw⟩ := merge_of_not_collide arena m ox oy hfree
  obtain ⟨y, x, v, hc, hv⟩ := hcell
  exact ⟨a', ha, (collide_eq_true_iff a' m ox oy).2 ⟨y, x, v, hc, hv, hw y x v hc hv⟩⟩

/-- Witness for C3: the O piece at `(1, 0)` on an empty 2 x 4 board. -/
theorem merge_then_collide_witness :
    ∃ arena', merge [[0, 0, 0, 0], [0, 0, 0, 0]] [[2, 2], [2, 2]] 1 0 = some arena' ∧
      collide arena' [[2, 2], [2, 2]] 1 0 = true :=
  merge_then_collide [[0, 0, 0, 0], [0, 0, 0, 0]] [[2, 2], [2, 2]] 1 0
    ⟨0, 0, 2, by decide, by decide⟩ (by decide)

/-! ## `rotate` -/

theorem arenaAt_natCast (m : Matrix) (i j : Nat) :
    arenaAt m (i : Int) (j : Int) = cellOf m i j := by
  unfold arenaAt cellOf
  rw [jsGet_natCast]
  cases m[i]? with
  | none => rfl
  | some row => exact jsGet_natCast row j

theorem cellOf_isSome_of_square {n : Nat} {m : Matrix} (h : Square n m) {i j : Nat}
    (hi : i < n) (hj : j < n) : ∃ v, cellOf m i j = some v := by
  obtain ⟨hl, hrows⟩ := h
  have hi' : i < m.length := by omega
  have hrow : (m[i]).length = n := hrows _ (List.getElem_mem hi')
  have hj' : j < (m[i]).length := by omega
  refine ⟨(m[i])[j], ?_⟩
  unfold cellOf
  rw [List.getElem?_eq_getElem hi']
  exact List.getElem?_eq_getElem hj'

theorem setCell_square {n : Nat} {m m' : Matrix} {r c v : Int} (h : Square n m)
    (hs : setCell m r c v = some m') : Square n m' := by
  unfold setCell at hs
  cases hrow : jsGet m r with
  | none => simp [hrow] at hs
  | some row =>
    simp only [hrow] at hs
    split at hs
    · cases hs
      obtain ⟨hr0, hget⟩ := (jsGet_eq_some m r row).1 hrow
      have hmem : row ∈ m := List.getElem?_mem hget
      refine ⟨by rw [List.length_set]; exact h.1, ?_⟩
      intro row' hrow'
      rcases List.mem_or_eq_of_mem_set hrow' with hin | heq
      · exact h.2 row' hin
      · rw [heq, List.length_set]; exact h.2 row hmem
    · cases hs

theorem square_ext {n : Nat} {m m' : Matrix} (h : Square n m) (h' : Square n m')
    (hc : ∀ i j, i < n → j < n → cellOf m i j = cellOf m' i j) : m = m' := by
  apply List.ext_getElem?
  intro i
  by_cases hi : i < n
  · have h1 : i < m.length := by rw [h.1]; exact hi
    have h2 : i < m'.length := by rw [h'.1]; exact hi
    rw [List.getElem?_eq_getElem h1, List.getElem?_eq_getElem h2]
    congr 1
    have l1 : (m[i]).length = n := h.2 _ (List.getElem_mem h1)
    have l2 : (m'[i]).length = n := h'.2 _ (List.getElem_mem h2)
    apply List.ext_getElem?
    intro j
    by_cases hj : j < n
    · have := hc i j hi hj
      unfold cellOf at this
      rw [List.getElem?_eq_getElem h1, List.getElem?_eq_getElem h2] at this
      exact this
    · rw [List.getElem?_eq_none (by omega), List.getElem?_eq_none (by omega)]
  · rw [List.getElem?_eq_none (by rw [h.1]; omega), List.getElem?_eq_none (by rw [h'.1]; omega)]

theorem swapCells_spec {n : Nat} {m : Matrix} (h : Square n m) {x y : Nat}
    (hx : x < n) (hy : y < n) :
    ∃ m', swapCells m x y = some m' ∧ Square n m' ∧
      ∀ i j, cellOf m' i j =
        if i = y ∧ j = x then cellOf m x y
        else if i = x ∧ j = y then cellOf m y x
        else cellOf m i j := by
  obtain ⟨a, ha⟩ := cellOf_isSome_of_square h hy hx
  obtain ⟨b, hb⟩ := cellOf_isSome_of_square h hx hy
  have hin1 : (arenaAt m (x : Int) (y : Int)).isSome = true := by
    rw [arenaAt_natCast, hb]; rfl
  obtain ⟨m1, hm1⟩ := setCell_of_inBounds m (x : Int) (y : Int) a hin1
  have hat1 := arenaAt_setCell m m1 _ _ a hm1
  have hin2 : (arenaAt m1 (y : Int) (x : Int)).isSome = true := by
    rw [hat1]
    split
    · rfl
    · rw [arenaAt_natCast, ha]; rfl
  obtain ⟨m2, hm2⟩ := setCell_of_inBounds m1 (y : Int) (x : Int) b hin2
  have hat2 := arenaAt_setCell m1 m2 _ _ b hm2
  refine ⟨m2, ?_, setCell_square (setCell_square h hm1) hm2, ?_⟩
  · unfold swapCells
    rw [ha, hb]
    simp only [hm1, Option.some_bind, hm2]
  · intro i j
    rw [← arenaAt_natCast, hat2, hat1, arenaAt_natCast, hb, ha]
    simp only [Nat.cast_inj]

theorem transposeInner_spec {n : Nat} {m : Matrix} (h : Square n m) {y : Nat} (hy : y < n)
    (k : Nat) (hk : k ≤ y) :
    ∃ m', (List.range k).foldlM (fun m1 x => swapCells m1 x y) m = some m' ∧ Square n m' ∧
      ∀ i j, cellOf m' i j =
        if (j = y ∧ i < k) ∨ (i = y ∧ j < k) then cellOf m j i else cellOf m i j := by
  induction k with
  | zero => exact ⟨m, rfl, h, by simp⟩
  | succ k ih =>
    obtain ⟨m1, hm1, hsq1, hc1⟩ := ih (by omega)
    obtain ⟨m2, hm2, hsq2, hc2⟩ := swapCells_spec hsq1 (x := k) (y := y) (by omega) hy
    refine ⟨m2, ?_, hsq2, ?_⟩
    · rw [List.range_succ, List.foldlM_append, hm1]
      simp [hm2]
    · intro i j
      rw [hc2, hc1, hc1, hc1]
      split_ifs <;> first | rfl | (congr 1 <;> omega)

theorem transposeOuter_spec {n : Nat} {m : Matrix} (h : Square n m) (k : Nat) (hk : k ≤ n) :
    ∃ m', (List.range k).foldlM
        (fun m0 y => (List.range y).foldlM (fun m1 x => swapCells m1 x y) m0) m = some m' ∧
      Square n m' ∧
      ∀ i j, cellOf m' i j = if i < k ∧ j < k then cellOf m j i else cellOf m i j := by
  induction k with
  | zero => exact ⟨m, rfl, h, by simp⟩
  | succ k ih =>
    obtain ⟨m1, hm1, hsq1, hc1⟩ := ih (by omega)
    obtain ⟨m2, hm2, hsq2, hc2⟩ := transposeInner_spec hsq1 (y := k) (by omega) k (le_refl k)
    refine ⟨m2, ?_, hsq2, ?_⟩
    · rw [List.range_succ, List.foldlM_append, hm1]
      simp [hm2]
    · intro i j
      rw [hc2, hc1, hc1]
      split_ifs <;> first | rfl | (congr 1 <;> omega)

/-- On a square matrix the swap loops of `rotate` return the transpose. -/
theorem transposeInPlace_spec {n : Nat} {m : Matrix} (h : Square n m) :
    ∃ t, transposeInPlace m = some t ∧ Square n t ∧
      ∀ i j, i < n → j < n → cellOf t i j = cellOf m j i := by
  obtain ⟨t, ht, hsq, hc⟩ := transposeOuter_spec h n (le_refl n)
  refine ⟨t, ?_, hsq, ?_⟩
  · unfold transposeInPlace
    rw [h.1]; exact ht
  · intro i j hi hj
    rw [hc]
    simp [hi, hj]

theorem square_map_reverse {n : Nat} {t : Matrix} (h : Square n t) :
    Square n (t.map List.reverse) ∧
      ∀ i j, i < n → j < n → cellOf (t.map List.reverse) i j = cellOf t i (n - 1 - j) := by
  refine ⟨⟨by rw [List.length_map]; exact h.1, ?_⟩, ?_⟩
  · intro row hrow
    obtain ⟨row0, hmem, rfl⟩ := List.mem_map.1 hrow
    rw [List.length_reverse]; exact h.2 row0 hmem
  · intro i j hi hj
    have hi' : i < t.length := by rw [h.1]; exact hi
    have hl : (t[i]).length = n := h.2 _ (List.getElem_mem hi')
    unfold cellOf
    rw [List.getElem?_map, List.getElem?_eq_getElem hi']
    simp only [Option.map_some']
    rw [List.getElem?_reverse (by omega), hl]

theorem square_reverse {n : Nat} {t : Matrix} (h : Square n t) :
    Square n t.reverse ∧
      ∀ i j, i < n → j < n → cellOf t.reverse i j = cellOf t (n - 1 - i) j := by
  refine ⟨⟨by rw [List.length_reverse]; exact h.1, ?_⟩, ?_⟩
  · intro row hrow
    exact h.2 row (List.mem_reverse.1 hrow)
  · intro i j hi _
    unfold cellOf
    rw [List.getElem?_reverse (by rw [h.1]; exact hi), h.1]

/-- On a square matrix of side `n`, `rotate` returns a square matrix of side `n` whose cell
`(i, j)` is the cell `(n - 1 - j, i)` of the argument when `dir > 0` and the cell
`(j, n - 1 - i)` otherwise. -/
theorem rotate_spec {n : Nat} {m : Matrix} (h : Square n m) (dir : Int) :
    ∃ r, rotate m dir = some r ∧ Square n r ∧
      ∀ i j, i < n → j < n →
        cellOf r i j = if dir > 0 then cellOf m (n - 1 - j) i else cellOf m j (n - 1 - i) := by
  obtain ⟨t, ht, hsq, hc⟩ := transposeInPlace_spec h
  unfold rotate
  rw [ht]
  simp only [Option.map_some']
  by_cases hd : dir > 0
  · simp only [hd, if_true]
    obtain ⟨hsq', hc'⟩ := square_map_reverse hsq
    refine ⟨_, rfl, hsq', ?_⟩
    intro i j hi hj
    rw [hc' i j hi hj, hc i (n - 1 - j) hi (by omega)]
  · simp only [hd, if_false]
    obtain ⟨hsq', hc'⟩ := square_reverse hsq
    refine ⟨_, rfl, hsq', ?_⟩
    intro i j hi hj
    rw [hc' i j hi hj, hc (n - 1 - i) j (by omega) hj]

/-- Rotating a square matrix by `dir` and then by the opposite sign gives the matrix back,
for `dir` positive or negative. -/
theorem rotate_back {n : Nat} {m r : Matrix} (h : Square n m) {dir : Int} (hd : dir ≠ 0)
    (hr : rotate m dir = some r) : rotate r (-dir) = some m := by
  obtain ⟨r1, hr1, hsq1, hc1⟩ := rotate_spec h dir
  rw [hr] at hr1
  cases hr1
  obtain ⟨r2, hr2, hsq2, hc2⟩ := rotate_spec hsq1 (-dir)
  rw [hr2]
  congr 1
  apply square_ext hsq2 h
  intro i j hi hj
  rw [hc2 i j hi hj]
  by_cases hpos : dir > 0
  · have hneg : ¬ (-dir > 0) := by omega
    rw [if_neg hneg, hc1 j (n - 1 - i) hj (by omega), if_pos hpos]
    congr 1
    omega
  · have hneg : -dir > 0 := by omega
    rw [if_pos hneg, hc1 (n - 1 - j) i (by omega) hi, if_neg hpos]
    congr 1
    omega

/-- C5: on a square matrix `m` of side `n`, `rotate` returns a matrix `r` of side `n`; for
`dir > 0` it satisfies `r[y][x] = m[n-1-x][y]` (clockwise) and for `dir < 0` it satisfies
`r[y][x] = m[x][n-1-y]` (counter-clockwise); for `dir` equal to `1` or `-1`, rotating `r` by
`-dir` gives `m` back. -/
theorem rotate_quarter_turn (n : Nat) (m : Matrix) (dir : Int) (h : Square n m) :
    ∃ r, rotate m dir = some r ∧ Square n r ∧
      (dir > 0 → ∀ y x, y < n → x < n → cellOf r y x = cellOf m (n - 1 - x) y) ∧
      (dir < 0 → ∀ y x, y < n → x < n → cellOf r y x = cellOf m x (n - 1 - y)) ∧
      (dir = 1 ∨ dir = -1 → rotate r (-dir) = some m) := by
  obtain ⟨r, hr, hsq, hc⟩ := rotate_spec h dir
  refine ⟨r, hr, hsq, ?_, ?_, ?_⟩
  · intro hd y x hy hx
    rw [hc y x hy hx, if_pos hd]
  · intro hd y x hy hx
    rw [hc y x hy hx, if_neg (by omega)]
  · intro hd
    exact rotate_back h (by omega) hr

/-- Witness for C5: the T piece turned clockwise and back. -/
theorem rotate_quarter_turn_witness :
    ∃ r, rotate [[0, 0, 0], [1, 1, 1], [0, 1, 0]] 1 = some r ∧ Square 3 r ∧
      (((1 : Int) > 0) → ∀ y x, y < 3 → x < 3 →
        cellOf r y x = cellOf [[0, 0, 0], [1, 1, 1], [0, 1, 0]] (3 - 1 - x) y) ∧
      (((1 : Int) < 0) → ∀ y x, y < 3 → x < 3 →
        cellOf r y x = cellOf [[0, 0, 0], [1, 1, 1], [0, 1, 0]] x (3 - 1 - y)) ∧
      ((1 : Int) = 1 ∨ (1 : Int) = -1 →
        rotate r (-1) = some [[0, 0, 0], [1, 1, 1], [0, 1, 0]]) :=
  rotate_quarter_turn 3 [[0, 0, 0], [1, 1, 1], [0, 1, 0]] 1 (by decide)

/-- C4: for every square matrix and every direction `dir` (positive or not), four calls of
`rotate` with the same `dir` return, and give back the matrix they started from. -/
theorem rotate_four_times (n : Nat) (m : Matrix) (dir : Int) (h : Square n m) :
    (((rotate m dir).bind (fun a => rotate a dir)).bind (fun a => rotate a dir)).bind
      (fun a => rotate a dir) = some m := by
  obtain ⟨r1, hr1, hsq1, hc1⟩ := rotate_spec h dir
  obtain ⟨r2, hr2, hsq2, hc2⟩ := rotate_spec hsq1 dir
  obtain ⟨r3, hr3, hsq3, hc3⟩ := rotate_spec hsq2 dir
  obtain ⟨r4, hr4, hsq4, hc4⟩ := rotate_spec hsq3 dir
  simp only [hr1, Option.some_bind, hr2, hr3, hr4]
  congr 1
  apply square_ext hsq4 h
  intro i j hi hj
  rw [hc4 i j hi hj]
  by_cases hpos : dir > 0
  · simp only [hpos, if_true] at hc1 hc2 hc3 ⊢
    rw [hc3 _ _ (by omega) hi, hc2 _ _ (by omega) (by omega), hc1 _ _ (by omega) (by omega)]
    congr 1 <;> omega
  · simp only [hpos, if_false] at hc1 hc2 hc3 ⊢
    rw [hc3 _ _ hj (by omega), hc2 _ _ (by omega) (by omega), hc1 _ _ (by omega) (by omega)]
    congr 1 <;> omega

/-- Witness for C4: four counter-clockwise turns of the S piece (`dir = -1`). -/
theorem rotate_four_times_witness :
    (((rotate [[0, 6, 6], [6, 6, 0], [0, 0, 0]] (-1)).bind (fun a => rotate a (-1))).bind
      (fun a => rotate a (-1))).bind (fun a => rotate a (-1))
      = some [[0, 6, 6], [6, 6, 0], [0, 0, 0]] :=
  rotate_four_times 3 [[0, 6, 6], [6, 6, 0], [0, 0, 0]] (-1) (by decide)

/-! ## `arenaSweep` -/

theorem any_zero_eq (row : List Int) : row.any (fun c => c == 0) = !isFull row := by
  unfold isFull
  induction row with
  | nil => rfl
  | cons a rest ih =>
    rw [List.any_cons, ih]
    by_cases h : a = 0
    · simp [h]
    · have h' : ¬ (0 = a) := fun e => h e.symm
      simp [h, h', isFull]

theorem isFull_zeroed (row : List Int) (h : row ≠ []) :
    isFull (row.map (fun _ => (0 : Int))) = false := by
  cases row with
  | nil => exact absurd rfl h
  | cons a rest => simp [isFull]

/-- The sweep loop started on the last row of `top`, with the rows `rest` below it already
visited: it returns once the fuel covers one step per row of `top` and one more per full
row, with the full rows of `top` zeroed and moved to the front. -/
theorem sweepLoop_spec (fuel : Nat) (top rest : Matrix) (c : Nat)
    (hne : ∀ row ∈ top, row ≠ [])
    (hfuel : top.length + (top.filter isFull).length + 1 ≤ fuel) :
    sweepLoop fuel (top ++ rest) ((top.length : Int) - 1) c =
      some ((top.filter isFull).map (fun row => row.map (fun _ => (0 : Int))) ++
        top.filter (fun row => !isFull row) ++ rest, c + (top.filter isFull).length) := by
  induction fuel generalizing top rest c with
  | zero => omega
  | succ fuel ih =>
    rcases List.eq_nil_or_concat top with rfl | ⟨init, r, htop⟩
    · simp [sweepLoop]
    · rw [List.concat_eq_append] at htop
      subst htop
      have hy : ((init ++ [r]).length : Int) - 1 = (init.length : Int) := by
        simp
      have hget : (init ++ [r] ++ rest)[(init.length : Int).toNat]? = some r := by
        rw [List.append_assoc, Int.toNat_ofNat, List.getElem?_append_right (le_refl _)]
        simp
      have hnn : (init.length : Int) ≥ 0 := by omega
      rw [hy]
      unfold sweepLoop
      rw [if_pos hnn]
      simp only [hget]
      rw [any_zero_eq]
      have hr : r ≠ [] := hne r (by simp)
      have hinit : ∀ row ∈ init, row ≠ [] := fun row hrow => hne row (by simp [hrow])
      by_cases hfull : isFull r = true
      · simp only [hfull, Bool.not_true, Bool.false_eq_true, if_false]
        have herase : (init ++ [r] ++ rest).eraseIdx (init.length : Int).toNat = init ++ rest := by
          simp [List.eraseIdx_append_of_length_le]
        rw [herase]
        have hz := isFull_zeroed r hr
        have hzne : r.map (fun _ => (0 : Int)) ≠ [] := by
          intro h0; exact hr (List.map_eq_nil_iff.1 h0)
        generalize hzr : r.map (fun _ => (0 : Int)) = zr at hz hzne ⊢
        have hf0 : List.filter isFull (zr :: init) = List.filter isFull init := by
          rw [List.filter_cons, hz]; rfl
        have hf1 : List.filter (fun row => !isFull row) (zr :: init)
            = zr :: List.filter (fun row => !isFull row) init := by
          rw [List.filter_cons]; simp [hz]
        have hf2 : List.filter isFull (init ++ [r]) = List.filter isFull init ++ [r] := by
          rw [List.filter_append]; simp [List.filter_cons, hfull]
        have hf3 : List.filter (fun row => !isFull row) (init ++ [r])
            = List.filter (fun row => !isFull row) init := by
          rw [List.filter_append]; simp [List.filter_cons, hfull]
        have key := ih (zr :: init) rest (c + 1)
          (by
            intro row hrow
            rcases List.mem_cons.1 hrow with rfl | hin
            · exact hzne
            · exact hinit row hin)
          (by
            rw [hf0, List.length_cons]
            rw [hf2] at hfuel
            simp only [List.length_append, List.length_singleton] at hfuel
            omega)
        have e1 : ((init.length : Int) + 1 - 1) = (((zr :: init).length : Int) - 1) := by
          simp
        rw [e1]
        have e2 : zr :: (init ++ rest) = (zr :: init) ++ rest := rfl
        rw [e2, key, hf0, hf1, hf2, hf3]
        subst hzr
        simp only [List.map_append, List.map_cons, List.map_nil, List.length_append,
          List.length_singleton, List.append_assoc, List.singleton_append, List.cons_append,
          List.nil_append, Nat.add_assoc, Nat.add_comm 1]
      · have hfull' : isFull r = false := by simpa using hfull
        simp only [hfull', Bool.not_false, if_true]
        have key := ih init (r :: rest) c hinit
          (by
            simp only [List.length_append, List.length_singleton, List.filter_append,
              List.filter_cons, hfull', Bool.false_eq_true, if_false, List.filter_nil,
              List.append_nil] at hfuel
            omega)
        have e2 : init ++ [r] ++ rest = init ++ r :: rest := by simp
        rw [e2, key]
        simp [List.filter_append, List.filter_cons, hfull']

/-- On a board whose rows are all non-empty, `arenaSweep` returns with fuel `2 * rows + 1`
or more. -/
theorem arenaSweep_spec (fuel : Nat) (arena : Matrix) (hne : ∀ row ∈ arena, row ≠ [])
    (hfuel : 2 * arena.length + 1 ≤ fuel) :
    arenaSweep fuel arena =
      some ((arena.filter isFull).map (fun row => row.map (fun _ => (0 : Int))) ++
        arena.filter (fun row => !isFull row), (arena.filter isFull).length) := by
  have hle : (arena.filter isFull).length ≤ arena.length := List.length_filter_le _ _
  have := sweepLoop_spec fuel arena [] 0 hne (by omega)
  simp only [List.append_nil, Nat.zero_add] at this
  exact this

theorem length_filter_add (p : List Int → Bool) (l : Matrix) :
    (l.filter p).length + (l.filter (fun row => !p row)).length = l.length := by
  induction l with
  | nil => rfl
  | cons a rest ih =>
    by_cases h : p a = true
    · simp [List.filter_cons, h]; omega
    · simp [List.filter_cons, h]; omega

theorem zeroed_eq_replicate (w : Nat) (l : Matrix) (h : ∀ row ∈ l, row.length = w) :
    l.map (fun row => row.map (fun _ => (0 : Int)))
      = List.replicate l.length (List.replicate w 0) := by
  induction l with
  | nil => rfl
  | cons a rest ih =>
    have ha : a.length = w := h a (by simp)
    have hrest : ∀ row ∈ rest, row.length = w := fun row hrow => h row (by simp [hrow])
    rw [List.map_cons, ih hrest, List.length_cons, List.replicate_succ]
    congr 1
    rw [← ha]
    exact List.eq_replicate_iff.2 ⟨by simp, by simp⟩

/-! ## Board dimensions through `merge` and `arenaSweep` -/

theorem setCell_rect {w h : Nat} {m m' : Matrix} {r c v : Int} (hm : Rect w h m)
    (hs : setCell m r c v = some m') : Rect w h m' := by
  unfold setCell at hs
  cases hrow : jsGet m r with
  | none => simp [hrow] at hs
  | some row =>
    simp only [hrow] at hs
    split at hs
    · cases hs
      obtain ⟨hr0, hget⟩ := (jsGet_eq_some m r row).1 hrow
      have hmem : row ∈ m := List.getElem?_mem hget
      refine ⟨by rw [List.length_set]; exact hm.1, ?_⟩
      intro row' hrow'
      rcases List.mem_or_eq_of_mem_set hrow' with hin | heq
      · exact hm.2 row' hin
      · rw [heq, List.length_set]; exact hm.2 row hmem
    · cases hs

theorem mergeRow_rect {w h : Nat} (ox oy : Int) (y : Nat) (row : List Int) (x : Nat)
    (a a' : Matrix) (ha : Rect w h a) (hm : mergeRow ox oy y row x a = some a') :
    Rect w h a' := by
  induction row generalizing x a with
  | nil => simp [mergeRow] at hm; subst hm; exact ha
  | cons v rest ih =>
    unfold mergeRow at hm
    split at hm
    · cases hs : setCell a ((y : Int) + oy) ((x : Int) + ox) v with
      | none => simp [hs] at hm
      | some a1 =>
        rw [hs] at hm
        exact ih (x + 1) a1 (setCell_rect ha hs) hm
    · exact ih (x + 1) a ha hm

theorem mergeRows_rect {w h : Nat} (ox oy : Int) (m : Matrix) (y : Nat)
    (a a' : Matrix) (ha : Rect w h a) (hm : mergeRows ox oy m y a = some a') :
    Rect w h a' := by
  induction m generalizing y a with
  | nil => simp [mergeRows] at hm; subst hm; exact ha
  | cons row rest ih =>
    unfold mergeRows at hm
    cases hs : mergeRow ox oy y row 0 a with
    | none => simp [hs] at hm
    | some a1 =>
      rw [hs] at hm
      exact ih (y + 1) a1 (mergeRow_rect ox oy y row 0 a a1 ha hs) hm

/-- The function `merge` keeps the number of rows and the width of every row. -/
theorem merge_rect {w h : Nat} {arena m merged : Matrix} {ox oy : Int} (ha : Rect w h arena)
    (hm : merge arena m ox oy = some merged) : Rect w h merged :=
  mergeRows_rect ox oy m 0 arena merged ha hm

/-- The sweep of a `w` x `h` board with `w ≥ 1`: it returns with fuel `2 * h + 1` or more, the
count is the number of full rows, and the board is again `w` x `h`. -/
theorem arenaSweep_rect {w h : Nat} (arena : Matrix) (hw : 1 ≤ w) (hrect : Rect w h arena)
    (fuel : Nat) (hfuel : 2 * h + 1 ≤ fuel) :
    ∃ arena', arenaSweep fuel arena = some (arena', arena.countP isFull) ∧
      arena' = List.replicate (arena.countP isFull) (List.replicate w 0) ++
        arena.filter (fun row => !isFull row) ∧
      Rect w h arena' := by
  have hne : ∀ row ∈ arena, row ≠ [] := by
    intro row hrow h0
    have := hrect.2 row hrow
    rw [h0] at this
    simp at this
    omega
  have hspec := arenaSweep_spec fuel arena hne (by rw [hrect.1]; exact hfuel)
  have hcount : arena.countP isFull = (arena.filter isFull).length :=
    List.countP_eq_length_filter _ _
  have hz := zeroed_eq_replicate w (arena.filter isFull)
    (fun row hrow => hrect.2 row (List.mem_of_mem_filter hrow))
  rw [hz, ← hcount] at hspec
  refine ⟨_, hspec, rfl, ?_, ?_⟩
  · rw [List.length_append, List.length_replicate, hcount, ← hrect.1]
    exact length_filter_add isFull arena
  · intro row hrow
    rcases List.mem_append.1 hrow with h1 | h2
    · rw [(List.mem_replicate.1 h1).2, List.length_replicate]
    · exact hrect.2 row (List.mem_of_mem_filter h2)

/-- C6: on a board with at least one column (every row has the same width `w ≥ 1`),
`arenaSweep` returns once the fuel reaches `2 * rows + 1`; it returns the number `n` of rows
of the input that contain no `0` cell and leaves the board equal to `n` all-zero rows followed
by the rows of the input that are not full, in their original order; the row count and the
row width are unchanged. -/
theorem arenaSweep_removes_full_rows (arena : Matrix) (w : Nat) (hw : 1 ≤ w)
    (hrect : ∀ row ∈ arena, row.length = w) (fuel : Nat)
    (hfuel : 2 * arena.length + 1 ≤ fuel) :
    ∃ arena', arenaSweep fuel arena = some (arena', arena.countP isFull) ∧
      arena' = List.replicate (arena.countP isFull) (List.replicate w 0) ++
        arena.filter (fun row => !isFull row) ∧
      arena'.length = arena.length ∧ ∀ row ∈ arena', row.length = w := by
  obtain ⟨arena', hs, he, hr⟩ :=
    arenaSweep_rect (h := arena.length) arena hw ⟨rfl, hrect⟩ fuel hfuel
  exact ⟨arena', hs, he, hr.1, hr.2⟩

/-- Witness for C6: the 12 x 20 board `sweepExample` has its full rows at 2, 5 and 6; the
sweep returns `3` with fuel `41`. -/
theorem arenaSweep_removes_full_rows_witness :
    sweepExample.countP isFull = 3 ∧
    ∃ arena', arenaSweep 41 sweepExample = some (arena', sweepExample.countP isFull) ∧
      arena' = List.replicate (sweepExample.countP isFull) (List.replicate 12 0) ++
        sweepExample.filter (fun row => !isFull row) ∧
      arena'.length = sweepExample.length ∧ ∀ row ∈ arena', row.length = 12 :=
  ⟨by decide, arenaSweep_removes_full_rows sweepExample 12 (by decide) (by decide) 41
    (by decide)⟩

/-! ## Spawning and locking -/

theorem randomPiece_head (r : Fin 7) : ∃ row, (randomPiece r).head? = some row := by
  fin_cases r <;> exact ⟨_, rfl⟩

theorem createPiece_head (t : PieceType) : ∃ row, (createPiece t).head? = some row := by
  cases t <;> exact ⟨_, rfl⟩

/-- On a board with a first row and with a well-formed queue, `playerReset` returns and
leaves the score, the line count and the level as they were; the board keeps its dimensions
and a next piece is queued. -/
theorem playerReset_spec (r0 r1 : Fin 7) (s : State) {w h : Nat} (hh : 1 ≤ h)
    (hrect : Rect w h s.arena) (hnext : NextQueued s) :
    ∃ s', playerReset r0 r1 s = some s' ∧ s'.score = s.score ∧ s'.lines = s.lines ∧
      s'.level = s.level ∧ Rect w h s'.arena ∧ NextQueued s' ∧
      s'.dropInterval = s.dropInterval ∧ s'.difficulty = s.difficulty := by
  have harena : ∃ row, s.arena.head? = some row := by
    cases hs : s.arena with
    | nil => rw [hs] at hrect; have := hrect.1; simp at this; omega
    | cons a rest => exact ⟨a, rfl⟩
  obtain ⟨arenaRow, harow⟩ := harena
  have hq : ∃ row, (match s.nextPiece with
      | none => randomPiece r0
      | some p => p).head? = some row := by
    cases hn : s.nextPiece with
    | none => exact randomPiece_head r0
    | some p =>
      obtain ⟨t, rfl⟩ := hnext p hn
      exact createPiece_head t
  obtain ⟨pieceRow, hprow⟩ := hq
  have hnq : ∀ t : State, t.nextPiece = some (randomPiece r1) → NextQueued t := by
    intro t ht p hp
    rw [ht] at hp
    cases hp
    fin_cases r1
    · exact ⟨.T, rfl⟩
    · exact ⟨.J, rfl⟩
    · exact ⟨.L, rfl⟩
    · exact ⟨.O, rfl⟩
    · exact ⟨.S, rfl⟩
    · exact ⟨.Z, rfl⟩
    · exact ⟨.I, rfl⟩
  unfold playerReset
  simp only [harow, hprow]
  split
  · refine ⟨_, rfl, rfl, rfl, rfl, ?_, hnq _ rfl, rfl, rfl⟩
    refine ⟨by simp [hrect.1], ?_⟩
    intro row hrow
    simp only [List.mem_map] at hrow
    obtain ⟨row0, hmem, rfl⟩ := hrow
    rw [List.length_map]; exact hrect.2 row0 hmem
  · exact ⟨_, rfl, rfl, rfl, rfl, hrect, hnq _ rfl, rfl, rfl⟩

/-- The points for `n` cleared lines at level `L`, as the scoring block of the lock computes
them: nothing for `n = 0`, the table entry times the level otherwise. -/
theorem lockPiece_spec (fuel : Nat) (r0 r1 : Fin 7) (s : State) {w h : Nat} (hw : 1 ≤ w)
    (hh : 1 ≤ h) (hrect : Rect w h s.arena) (hnext : NextQueued s)
    (hfree : collide s.arena s.matrix s.posX s.posY = false) (hfuel : 2 * h + 1 ≤ fuel) :
    ∃ merged s', merge s.arena s.matrix s.posX s.posY = some merged ∧
      lockPiece fuel r0 r1 s = some s' ∧
      s'.lines = s.lines + (merged.countP isFull : Int) ∧
      s'.score = s.score +
        (if merged.countP isFull > 0 then
          lineScoreBase.getD (merged.countP isFull) 0 * s.level else 0) ∧
      s'.level = (if merged.countP isFull > 0 then
          (s.lines + (merged.countP isFull : Int)) / 10 + 1 else s.level) ∧
      Rect w h s'.arena ∧ NextQueued s' := by
  obtain ⟨merged, hmerge, -, -, -⟩ := merge_of_not_collide s.arena s.matrix s.posX s.posY hfree
  have hrm : Rect w h merged := merge_rect hrect hmerge
  obtain ⟨swept, hsweep, -, hrs⟩ := arenaSweep_rect merged hw hrm fuel hfuel
  refine ⟨merged, ?_⟩
  have key : ∀ s2 : State, s2.arena = swept → s2.nextPiece = s.nextPiece →
      ∀ A B C : Int, s2.lines = A → s2.score = B → s2.level = C →
      ∃ s', playerReset r0 r1 s2 = some s' ∧ s'.lines = A ∧ s'.score = B ∧
        s'.level = C ∧ Rect w h s'.arena ∧ NextQueued s' := by
    intro s2 ha hq A B C hA hB hC
    obtain ⟨s', hs', h1, h2, h3, h4, h5, -, -⟩ :=
      playerReset_spec r0 r1 s2 hh (by rw [ha]; exact hrs)
        (fun p hp => hnext p (by rw [← hq]; exact hp))
    exact ⟨s', hs', by rw [h2, hA], by rw [h1, hB], by rw [h3, hC], h4, h5⟩
  have goal : ∃ s', lockPiece fuel r0 r1 s = some s' ∧
      s'.lines = s.lines + (merged.countP isFull : Int) ∧
      s'.score = s.score +
        (if merged.countP isFull > 0 then
          lineScoreBase.getD (merged.countP isFull) 0 * s.level else 0) ∧
      s'.level = (if merged.countP isFull > 0 then
          (s.lines + (merged.countP isFull : Int)) / 10 + 1 else s.level) ∧
      Rect w h s'.arena ∧ NextQueued s' := by
    unfold lockPiece
    simp only [hmerge, Option.some_bind, hsweep]
    by_cases hn : merged.countP isFull > 0
    · simp only [hn, if_true]
      split
      · refine key _ ?_ ?_ _ _ _ ?_ ?_ ?_ <;> rfl
      · refine key _ ?_ ?_ _ _ _ ?_ ?_ ?_ <;> rfl
    · have h0 : merged.countP isFull = 0 := by omega
      simp only [h0, gt_iff_lt, lt_self_iff_false, if_false, Nat.cast_zero, add_zero]
      refine key _ ?_ ?_ _ _ _ ?_ ?_ ?_ <;> rfl
  obtain ⟨s', h1, h2, h3, h4, h5, h6⟩ := goal
  exact ⟨s', hmerge, h1, h2, h3, h4, h5, h6⟩

/-! ## The descent of `hardDrop` -/

theorem dropLoop_step (fuel : Nat) (arena m : Matrix) (x y d : Int) :
    dropLoop (fuel + 1) arena m x y d =
      if !collide arena m x y then dropLoop fuel arena m x (y + 1) (d + 1)
      else some (y, d) := rfl

theorem running_guard (s : State) (hplay : s.playing = true) (hpause : s.paused = false) :
    (!s.playing || s.paused) = false := by
  rw [hplay, hpause]; rfl

theorem dropLoop_advance (arena m : Matrix) (x : Int) (k : Nat) (fuel : Nat) (y d : Int)
    (hclear : ∀ j : Nat, j < k → collide arena m x (y + (j : Int)) = false) :
    dropLoop (fuel + k) arena m x y d =
      dropLoop fuel arena m x (y + (k : Int)) (d + (k : Int)) := by
  induction k generalizing y d with
  | zero => simp
  | succ k ih =>
    have h0 : collide arena m x y = false := by
      have := hclear 0 (by omega)
      simpa using this
    have e : fuel + (k + 1) = (fuel + k) + 1 := by omega
    rw [e, dropLoop_step]
    simp only [h0, Bool.not_false, if_true]
    rw [ih (y + 1) (d + 1)]
    · congr 1 <;> push_cast <;> ring
    · intro j hj
      have := hclear (j + 1) (by omega)
      have e2 : y + 1 + (j : Int) = y + ((j + 1 : Nat) : Int) := by push_cast; ring
      rw [e2]; exact this

/-- When the piece is free on the rows `y .. y + k` and collides on row `y + k + 1`, the loop
of `hardDrop` leaves with `player.pos.y = y + k + 1` and `drop` raised by `k + 1`. -/
theorem dropLoop_spec (arena m : Matrix) (x : Int) (k : Nat) (fuel : Nat) (y d : Int)
    (hclear : ∀ j : Nat, j ≤ k → collide arena m x (y + (j : Int)) = false)
    (hland : collide arena m x (y + (k : Int) + 1) = true) (hfuel : k + 2 ≤ fuel) :
    dropLoop fuel arena m x y d = some (y + (k : Int) + 1, d + (k : Int) + 1) := by
  obtain ⟨f, rfl⟩ : ∃ f, fuel = (f + 1) + (k + 1) := ⟨fuel - (k + 2), by omega⟩
  rw [dropLoop_advance arena m x (k + 1) (f + 1) y d
    (fun j hj => hclear j (by omega))]
  rw [dropLoop_step]
  have e : y + ((k + 1 : Nat) : Int) = y + (k : Int) + 1 := by push_cast; ring
  have e' : d + ((k + 1 : Nat) : Int) = d + (k : Int) + 1 := by push_cast; ring
  rw [e, e']
  simp [hland]

/-- A piece with a non-zero cell that is free at row `y` comes to rest: there is a least
`k`, below the number of rows of the board, with a collision at row `y + k + 1`. -/
theorem landing_exists (arena m : Matrix) (x y : Int)
    (hcell : ∃ r c v, cellOf m r c = some v ∧ v ≠ 0)
    (hfree : collide arena m x y = false) :
    ∃ k : Nat, k < arena.length ∧
      (∀ j : Nat, j ≤ k → collide arena m x (y + (j : Int)) = false) ∧
      collide arena m x (y + (k : Int) + 1) = true := by
  obtain ⟨r, c, v, hc, hv⟩ := hcell
  have hf := (collide_eq_false_iff arena m x y).1 hfree r c v hc hv
  obtain ⟨row, hr0, hrow, -, -⟩ := (arenaAt_eq_some arena _ _ 0).1 hf
  have hlt : ((r : Int) + y).toNat < arena.length := (List.getElem?_eq_some.1 hrow).1
  have hex : ∃ j : Nat, collide arena m x (y + (j : Int) + 1) = true := by
    refine ⟨arena.length - 1, ?_⟩
    rw [collide_eq_true_iff]
    refine ⟨r, c, v, hc, hv, ?_⟩
    intro h0
    obtain ⟨row', hr', hrow', -, -⟩ := (arenaAt_eq_some arena _ _ 0).1 h0
    have := (List.getElem?_eq_some.1 hrow').1
    omega
  classical
  refine ⟨Nat.find hex, ?_, ?_, Nat.find_spec hex⟩
  · have hle : Nat.find hex ≤ arena.length - 1 := by
      apply Nat.find_min'
      rw [collide_eq_true_iff]
      refine ⟨r, c, v, hc, hv, ?_⟩
      intro h0
      obtain ⟨row', hr', hrow', -, -⟩ := (arenaAt_eq_some arena _ _ 0).1 h0
      have := (List.getElem?_eq_some.1 hrow').1
      omega
    omega
  · intro j hj
    cases j with
    | zero => simpa using hfree
    | succ i =>
      have hmin := Nat.find_min hex (m := i) (by omega)
      have e : y + ((i + 1 : Nat) : Int) = y + (i : Int) + 1 := by push_cast; ring
      rw [e]
      simpa using hmin

/-- While Running, a hard drop of a piece that is free on the rows `y .. y + k` and collides on
row `y + k + 1` is the lock sequence run at row `y + k` with `2 * k` points added first,
followed by `dropCounter = 0`. -/
theorem hardDrop_eq (fuel : Nat) (r0 r1 : Fin 7) (s : State) (k : Nat)
    (hplay : s.playing = true) (hpause : s.paused = false)
    (hclear : ∀ j : Nat, j ≤ k → collide s.arena s.matrix s.posX (s.posY + (j : Int)) = false)
    (hland : collide s.arena s.matrix s.posX (s.posY + (k : Int) + 1) = true)
    (hfuel : k + 2 ≤ fuel) :
    hardDrop fuel r0 r1 s =
      (lockPiece fuel r0 r1
        { s with posY := s.posY + (k : Int), score := s.score + 2 * (k : Int) }).map
        (fun t => { t with dropCounter := 0 }) := by
  unfold hardDrop
  rw [dropLoop_spec s.arena s.matrix s.posX k fuel s.posY 0 hclear hland hfuel]
  simp only [running_guard s hplay hpause, Bool.false_eq_true, if_false, Option.some_bind]
  have e1 : s.posY + (k : Int) + 1 - 1 = s.posY + (k : Int) := by ring
  have e2 : (if (0 : Int) + (k : Int) + 1 - 1 > 0 then s.score + ((0 : Int) + (k : Int) + 1 - 1) * 2
      else s.score) = s.score + 2 * (k : Int) := by
    split
    · ring
    · have : (k : Int) = 0 := by omega
      rw [this]; ring
  rw [e1, e2]

/-- While Running, a soft drop whose probe one row down collides is the lock sequence run at
the current position, followed by `dropCounter = 0`. -/
theorem playerDrop_lock_eq (fuel : Nat) (r0 r1 : Fin 7) (s : State)
    (hplay : s.playing = true) (hpause : s.paused = false)
    (hland : collide s.arena s.matrix s.posX (s.posY + 1) = true) :
    playerDrop fuel r0 r1 s =
      (lockPiece fuel r0 r1 s).map (fun t => { t with dropCounter := 0 }) := by
  unfold playerDrop
  simp only [running_guard s hplay hpause, Bool.false_eq_true, if_false, hland, if_true]
  have e : s.posY + 1 - 1 = s.posY := by ring
  rw [e]

/-- A board on which some piece with a non-zero cell is free has a row and a column. -/
theorem rect_pos_of_free {w h : Nat} {arena m : Matrix} {x y : Int} (hrect : Rect w h arena)
    (hcell : ∃ r c v, cellOf m r c = some v ∧ v ≠ 0)
    (hfree : collide arena m x y = false) : 1 ≤ w ∧ 1 ≤ h := by
  obtain ⟨r, c, v, hc, hv⟩ := hcell
  have h0 := (collide_eq_false_iff arena m x y).1 hfree r c v hc hv
  obtain ⟨row, -, hrow, -, hcol⟩ := (arenaAt_eq_some arena _ _ 0).1 h0
  have h1 := (List.getElem?_eq_some.1 hrow).1
  have h2 := (List.getElem?_eq_some.1 hcol).1
  have h3 := hrect.2 row (List.getElem?_mem hrow)
  have h4 := hrect.1
  omega

theorem landing_bound (arena m : Matrix) (x y : Int) (k : Nat)
    (hclear : ∀ j : Nat, j ≤ k → collide arena m x (y + (j : Int)) = false)
    (hland : collide arena m x (y + (k : Int) + 1) = true) : k < arena.length := by
  obtain ⟨r, c, v, hc, hv, -⟩ := (collide_eq_true_iff arena m x _).1 hland
  have h0 := (collide_eq_false_iff arena m x _).1 (hclear 0 (by omega)) r c v hc hv
  have hk := (collide_eq_false_iff arena m x _).1 (hclear k (le_refl k)) r c v hc hv
  obtain ⟨_, hr0, -, -, -⟩ := (arenaAt_eq_some arena _ _ 0).1 h0
  obtain ⟨_, -, hrow, -, -⟩ := (arenaAt_eq_some arena _ _ 0).1 hk
  have := (List.getElem?_eq_some.1 hrow).1
  simp only [Nat.cast_zero, add_zero] at hr0
  omega

theorem lineScoreBase_table (n : Nat) (h1 : 1 ≤ n) (h4 : n ≤ 4) :
    lineScoreBase.getD n 0 = ([40, 100, 300, 1200] : List Int).getD (n - 1) 0 := by
  interval_cases n <;> rfl

theorem lockExample_next : NextQueued lockExample := by
  intro p hp
  cases hp
  exact ⟨.T, rfl⟩

theorem restingExample_next : NextQueued restingExample := by
  intro p hp
  cases hp
  exact ⟨.T, rfl⟩

theorem restingExample_clear :
    ∀ j : Nat, j ≤ 0 → collide restingExample.arena restingExample.matrix restingExample.posX
      (restingExample.posY + (j : Int)) = false := by
  intro j hj
  interval_cases j
  decide

/-- C7: take a Running state on a board of `h` rows of `w` cells whose piece is free on the
rows `y .. y + k` and collides on row `y + k + 1`, and let `n` be the number of full rows of
the board after the merge at row `y + k`.  Then `hardDrop` returns with `lines` raised by `n`;
its score is raised, on top of the hard-drop bonus `2 * k`, by `[40, 100, 300, 1200][n-1]`
times the level before the lock when `1 ≤ n ≤ 4`, and by nothing when `n = 0`.  For `k = 0`
(the probe of `playerDrop` collides) `playerDrop` returns with the same line-clear points and
`lines` raised by `n`. -/
theorem lock_line_score (fuel : Nat) (r0 r1 : Fin 7) (s : State) (w h k : Nat)
    (hrect : Rect w h s.arena) (hnext : NextQueued s)
    (hplay : s.playing = true) (hpause : s.paused = false)
    (hclear : ∀ j : Nat, j ≤ k → collide s.arena s.matrix s.posX (s.posY + (j : Int)) = false)
    (hland : collide s.arena s.matrix s.posX (s.posY + (k : Int) + 1) = true)
    (hfuel : 2 * h + 1 ≤ fuel) :
    ∃ merged, merge s.arena s.matrix s.posX (s.posY + (k : Int)) = some merged ∧
      (∃ s', hardDrop fuel r0 r1 s = some s' ∧
        s'.lines = s.lines + (merged.countP isFull : Int) ∧
        (1 ≤ merged.countP isFull ∧ merged.countP isFull ≤ 4 →
          s'.score = s.score + 2 * (k : Int) +
            ([40, 100, 300, 1200] : List Int).getD (merged.countP isFull - 1) 0 * s.level) ∧
        (merged.countP isFull = 0 → s'.score = s.score + 2 * (k : Int))) ∧
      (k = 0 → ∃ s', playerDrop fuel r0 r1 s = some s' ∧
        s'.lines = s.lines + (merged.countP isFull : Int) ∧
        (1 ≤ merged.countP isFull ∧ merged.countP isFull ≤ 4 →
          s'.score = s.score +
            ([40, 100, 300, 1200] : List Int).getD (merged.countP isFull - 1) 0 * s.level) ∧
        (merged.countP isFull = 0 → s'.score = s.score)) := by
  have hk : k < h := by
    have := landing_bound s.arena s.matrix s.posX s.posY k hclear hland
    rw [hrect.1] at this; exact this
  have hcell : ∃ r c v, cellOf s.matrix r c = some v ∧ v ≠ 0 := by
    obtain ⟨r, c, v, hc, hv, -⟩ := (collide_eq_true_iff s.arena s.matrix s.posX _).1 hland
    exact ⟨r, c, v, hc, hv⟩
  obtain ⟨hw, hh⟩ := rect_pos_of_free hrect hcell (hclear k (le_refl k))
  obtain ⟨merged, t, hmerge, hlock, hlines, hscore, -, -, -⟩ :=
    lockPiece_spec fuel r0 r1
      ({ s with posY := s.posY + (k : Int), score := s.score + 2 * (k : Int) } : State)
      hw hh hrect hnext (hclear k (le_refl k)) hfuel
  refine ⟨merged, hmerge, ?_, ?_⟩
  · refine ⟨{ t with dropCounter := 0 }, ?_, hlines, ?_, ?_⟩
    · rw [hardDrop_eq fuel r0 r1 s k hplay hpause hclear hland (by omega), hlock]
      rfl
    · rintro ⟨h1, h4⟩
      show t.score = _
      rw [hscore, if_pos (by omega), lineScoreBase_table _ h1 h4]
    · intro h0
      show t.score = _
      rw [hscore, if_neg (by omega)]
      simp
  · intro hk0
    subst hk0
    have hland' : collide s.arena s.matrix s.posX (s.posY + 1) = true := by
      simpa using hland
    have hfree : collide s.arena s.matrix s.posX s.posY = false := by
      simpa using hclear 0 (le_refl 0)
    obtain ⟨merged', t', hmerge', hlock', hlines', hscore', -, -, -⟩ :=
      lockPiece_spec fuel r0 r1 s hw hh hrect hnext hfree hfuel
    have hm : merged' = merged := by
      have e : s.posY + ((0 : Nat) : Int) = s.posY := by simp
      have hmerge0 : merge s.arena s.matrix s.posX (s.posY + ((0 : Nat) : Int)) = some merged :=
        hmerge
      rw [e, hmerge'] at hmerge0
      exact Option.some.inj hmerge0
    subst hm
    refine ⟨{ t' with dropCounter := 0 }, ?_, hlines', ?_, ?_⟩
    · rw [playerDrop_lock_eq fuel r0 r1 s hplay hpause hland', hlock']
      rfl
    · rintro ⟨h1, h4⟩
      show t'.score = _
      rw [hscore', if_pos (by omega), lineScoreBase_table _ h1 h4]
    · intro h0
      show t'.score = _
      rw [hscore', if_neg (by omega)]
      simp

/-- Witness for C7: `restingExample` (level 3, the O piece resting in a well that it fills),
with `k = 0`; both the hard drop and the soft drop lock it. -/
theorem lock_line_score_witness :
    ∃ merged, merge restingExample.arena restingExample.matrix restingExample.posX
        (restingExample.posY + ((0 : Nat) : Int)) = some merged ∧
      (∃ s', hardDrop 7 0 0 restingExample = some s' ∧
        s'.lines = restingExample.lines + (merged.countP isFull : Int) ∧
        (1 ≤ merged.countP isFull ∧ merged.countP isFull ≤ 4 →
          s'.score = restingExample.score + 2 * ((0 : Nat) : Int) +
            ([40, 100, 300, 1200] : List Int).getD (merged.countP isFull - 1) 0 *
              restingExample.level) ∧
        (merged.countP isFull = 0 →
          s'.score = restingExample.score + 2 * ((0 : Nat) : Int))) ∧
      (0 = 0 → ∃ s', playerDrop 7 0 0 restingExample = some s' ∧
        s'.lines = restingExample.lines + (merged.countP isFull : Int) ∧
        (1 ≤ merged.countP isFull ∧ merged.countP isFull ≤ 4 →
          s'.score = restingExample.score +
            ([40, 100, 300, 1200] : List Int).getD (merged.countP isFull - 1) 0 *
              restingExample.level) ∧
        (merged.countP isFull = 0 → s'.score = restingExample.score)) :=
  lock_line_score 7 0 0 restingExample 4 3 0 (by decide) restingExample_next rfl rfl
    restingExample_clear (by decide) (by decide)

/-- C8: for a Running state on a board of `h` rows of `w` cells whose piece has a non-zero
cell and does not collide at `(x, y0)`, `hardDrop` returns (with fuel `2 * h + 1` or more).
There is a `k ≥ 0`, the least number with a collision at `(x, y0 + k + 1)`, such that the
piece is merged at `(x, y0 + k)`: the call is the lock sequence run from row `y0 + k` with
exactly `2 * k` points added to the score beforehand, so the final score is the old one plus
`2 * k` plus the line-clear points. -/
theorem hardDrop_lands (fuel : Nat) (r0 r1 : Fin 7) (s : State) (w h : Nat)
    (hrect : Rect w h s.arena) (hnext : NextQueued s)
    (hplay : s.playing = true) (hpause : s.paused = false)
    (hcell : ∃ r c v, cellOf s.matrix r c = some v ∧ v ≠ 0)
    (hfree : collide s.arena s.matrix s.posX s.posY = false)
    (hfuel : 2 * h + 1 ≤ fuel) :
    ∃ k : Nat,
      (∀ j : Nat, j < k → collide s.arena s.matrix s.posX (s.posY + (j : Int) + 1) = false) ∧
      collide s.arena s.matrix s.posX (s.posY + (k : Int) + 1) = true ∧
      ∃ merged s', merge s.arena s.matrix s.posX (s.posY + (k : Int)) = some merged ∧
        hardDrop fuel r0 r1 s = some s' ∧
        hardDrop fuel r0 r1 s =
          (lockPiece fuel r0 r1
            { s with posY := s.posY + (k : Int), score := s.score + 2 * (k : Int) }).map
            (fun t => { t with dropCounter := 0 }) ∧
        s'.score = s.score + 2 * (k : Int) +
          (if merged.countP isFull > 0 then
            lineScoreBase.getD (merged.countP isFull) 0 * s.level else 0) := by
  obtain ⟨k, hk, hclear, hland⟩ := landing_exists s.arena s.matrix s.posX s.posY hcell hfree
  rw [hrect.1] at hk
  obtain ⟨hw, hh⟩ := rect_pos_of_free hrect hcell hfree
  obtain ⟨merged, t, hmerge, hlock, -, hscore, -, -, -⟩ :=
    lockPiece_spec fuel r0 r1
      ({ s with posY := s.posY + (k : Int), score := s.score + 2 * (k : Int) } : State)
      hw hh hrect hnext (hclear k (le_refl k)) hfuel
  have heq := hardDrop_eq fuel r0 r1 s k hplay hpause hclear hland (by omega)
  refine ⟨k, ?_, hland, merged, { t with dropCounter := 0 }, hmerge, ?_, heq, hscore⟩
  · intro j hj
    have := hclear (j + 1) (by omega)
    have e : s.posY + ((j + 1 : Nat) : Int) = s.posY + (j : Int) + 1 := by push_cast; ring
    rw [e] at this; exact this
  · rw [heq, hlock]; rfl

/-- Witness for C8: the hard drop of `lockExample`. -/
theorem hardDrop_lands_witness :
    ∃ k : Nat,
      (∀ j : Nat, j < k → collide lockExample.arena lockExample.matrix lockExample.posX
        (lockExample.posY + (j : Int) + 1) = false) ∧
      collide lockExample.arena lockExample.matrix lockExample.posX
        (lockExample.posY + (k : Int) + 1) = true ∧
      ∃ merged s', merge lockExample.arena lockExample.matrix lockExample.posX
          (lockExample.posY + (k : Int)) = some merged ∧
        hardDrop 7 2 5 lockExample = some s' ∧
        hardDrop 7 2 5 lockExample =
          (lockPiece 7 2 5
            { lockExample with posY := lockExample.posY + (k : Int),
                               score := lockExample.score + 2 * (k : Int) }).map
            (fun t => { t with dropCounter := 0 }) ∧
        s'.score = lockExample.score + 2 * (k : Int) +
          (if merged.countP isFull > 0 then
            lineScoreBase.getD (merged.countP isFull) 0 * lockExample.level else 0) :=
  hardDrop_lands 7 2 5 lockExample 4 3 (by decide)
    lockExample_next rfl rfl ⟨0, 0, 2, by decide, by decide⟩ (by decide) (by decide)

/-! ## The kick search of `playerRotate` -/

theorem kickLoop_step (fuel : Nat) (arena m : Matrix) (y x offset : Int) :
    kickLoop (fuel + 1) arena m y x offset =
      if collide arena m x y then
        match m.head? with
        | none => none
        | some row0 =>
          if (-(offset + (if offset > 0 then 1 else -1))).natAbs > row0.length then some none
          else kickLoop fuel arena m y (x + offset) (-(offset + (if offset > 0 then 1 else -1)))
      else some (some x) := rfl

theorem kickOffset_next (i : Nat) :
    -(kickOffset (i + 1) + (if kickOffset (i + 1) > 0 then 1 else -1)) = kickOffset (i + 2) := by
  unfold kickOffset
  rcases Nat.mod_two_eq_zero_or_one i with h | h
  · have h1 : (i + 1) % 2 = 1 := by omega
    have h2 : ¬ ((i + 2) % 2 = 1) := by omega
    have hpos : ((i + 1 : Nat) : Int) > 0 := by omega
    rw [if_pos h1, if_neg h2, if_pos hpos]
    push_cast; ring
  · have h1 : ¬ ((i + 1) % 2 = 1) := by omega
    have h2 : (i + 2) % 2 = 1 := by omega
    have hneg : ¬ (-((i + 1 : Nat) : Int) > 0) := by omega
    rw [if_neg h1, if_pos h2, if_neg hneg]
    push_cast; ring

theorem kickOffset_natAbs (j : Nat) : (kickOffset j).natAbs = j := by
  unfold kickOffset
  split <;> simp

theorem collide_nil (arena : Matrix) (x y : Int) : collide arena [] x y = false := rfl

/-- The kick search entered for the `i`-th time (`player.pos.x` is `x0 + kickPos i`, the
offset is the `(i+1)`-th) on a square matrix of side `n`: it returns, either with a column at
which the piece is free, or giving up after a collision at each of the displacements
`kickPos i, ..., kickPos (n - 1)`. -/
theorem kickLoop_spec (arena m : Matrix) (y x0 : Int) (n : Nat) (hsq : Square n m)
    (fuel i : Nat) (hi : i ≤ n) (hfuel : n + 1 ≤ fuel + i) :
    ∃ out, kickLoop fuel arena m y (x0 + kickPos i) (kickOffset (i + 1)) = some out ∧
      match out with
      | some x => collide arena m x y = false
      | none => ∀ j, i ≤ j → j < n → collide arena m (x0 + kickPos j) y = true := by
  induction fuel generalizing i with
  | zero => omega
  | succ fuel ih =>
    rw [kickLoop_step]
    by_cases hc : collide arena m (x0 + kickPos i) y = true
    · rw [if_pos hc]
      cases m with
      | nil => rw [collide_nil] at hc; cases hc
      | cons row0 rest =>
        have hlen : row0.length = n := hsq.2 row0 (by simp)
        simp only [List.head?_cons, kickOffset_next, kickOffset_natAbs, hlen]
        by_cases hg : i + 2 > n
        · rw [if_pos hg]
          refine ⟨none, rfl, ?_⟩
          intro j hij hjn
          have : j = i := by omega
          rw [this]; exact hc
        · rw [if_neg hg]
          have e : x0 + kickPos i + kickOffset (i + 1) = x0 + kickPos (i + 1) := by
            rw [add_assoc]; rfl
          rw [e]
          obtain ⟨out, hout, hprop⟩ := ih (i + 1) (by omega) (by omega)
          refine ⟨out, hout, ?_⟩
          cases out with
          | some x => exact hprop
          | none =>
            intro j hij hjn
            by_cases hji : j = i
            · rw [hji]; exact hc
            · exact hprop j (by omega) hjn
    · rw [if_neg hc]
      exact ⟨some (x0 + kickPos i), rfl, by simpa using hc⟩

theorem rotationOf_square (t : PieceType) (m : Matrix) (h : RotationOf t m) :
    ∃ n, 2 ≤ n ∧ Square n m := by
  induction h with
  | base =>
    cases t
    · exact ⟨3, by decide, by decide⟩
    · exact ⟨2, by decide, by decide⟩
    · exact ⟨3, by decide, by decide⟩
    · exact ⟨3, by decide, by decide⟩
    · exact ⟨4, by decide, by decide⟩
    · exact ⟨3, by decide, by decide⟩
    · exact ⟨3, by decide, by decide⟩
  | turn m m' dir _ hrot ih =>
    obtain ⟨n, hn, hsq⟩ := ih
    obtain ⟨r, hr, hsq', -⟩ := rotate_spec hsq dir
    rw [hrot] at hr
    cases hr
    exact ⟨n, hn, hsq'⟩

/-- C9: for a Running state with a square active shape and `dir` equal to `1` or `-1`,
`playerRotate` returns (with fuel `n + 1` or more); either the shape is the rotated shape and
it does not collide at the final position, or the rotated shape collided at every
displacement `0, 1, -1, 2, -2, ...` that the kick search tried (`n` of them for a shape of
width `n`) and the shape and `x` are exactly as before the call.  In both cases `y`, the
board, the score, the lines and the level are unchanged. -/
theorem playerRotate_atomic (fuel : Nat) (dir : Int) (s : State) (n : Nat)
    (hplay : s.playing = true) (hpause : s.paused = false) (hsq : Square n s.matrix)
    (hdir : dir = 1 ∨ dir = -1) (hfuel : n + 1 ≤ fuel) :
    ∃ rotated s', rotate s.matrix dir = some rotated ∧ playerRotate fuel dir s = some s' ∧
      ((s'.matrix = rotated ∧ collide s'.arena s'.matrix s'.posX s'.posY = false) ∨
        ((∀ j, j < n → collide s.arena rotated (s.posX + kickPos j) s.posY = true) ∧
          s'.matrix = s.matrix ∧ s'.posX = s.posX)) ∧
      s'.posY = s.posY ∧ s'.arena = s.arena ∧ s'.score = s.score ∧ s'.lines = s.lines ∧
      s'.level = s.level := by
  obtain ⟨rotated, hrot, hsq', -⟩ := rotate_spec hsq dir
  have hback : rotate rotated (-dir) = some s.matrix := rotate_back hsq (by omega) hrot
  obtain ⟨out, hout, hprop⟩ :=
    kickLoop_spec s.arena rotated s.posY s.posX n hsq' fuel 0 (by omega) (by omega)
  have e0 : s.posX + kickPos 0 = s.posX := by simp [kickPos]
  have e1 : kickOffset (0 + 1) = 1 := by decide
  rw [e0, e1] at hout
  refine ⟨rotated, ?_⟩
  unfold playerRotate
  simp only [running_guard s hplay hpause, Bool.false_eq_true, if_false, hrot,
    Option.some_bind, hout]
  cases out with
  | some x =>
    exact ⟨_, trivial, rfl, Or.inl ⟨rfl, hprop⟩, rfl, rfl, rfl, rfl, rfl⟩
  | none =>
    simp only [hback, Option.map_some']
    exact ⟨_, trivial, rfl, Or.inr ⟨fun j hj => hprop j (by omega) hj, rfl, rfl⟩, rfl, rfl,
      rfl, rfl, rfl⟩

/-- C10: for a Running state whose active piece is a catalog piece in any rotation state, at
`(x, y)`, and every `dir` (in particular `1` and `-1`): the rotation returns a matrix, and if
that rotated shape collides at `(x, y)` and does not collide at `(x + 1, y)`, then
`playerRotate` (with fuel `2` or more) ends with the rotated shape at `(x + 1, y)` and
nothing else changed. -/
theorem playerRotate_first_kick (fuel : Nat) (dir : Int) (s : State) (t : PieceType)
    (hplay : s.playing = true) (hpause : s.paused = false)
    (hpiece : RotationOf t s.matrix) (hfuel : 2 ≤ fuel) :
    ∃ rotated, rotate s.matrix dir = some rotated ∧
      (collide s.arena rotated s.posX s.posY = true →
        collide s.arena rotated (s.posX + 1) s.posY = false →
        playerRotate fuel dir s = some { s with matrix := rotated, posX := s.posX + 1 }) := by
  obtain ⟨n, hn, hsq⟩ := rotationOf_square t s.matrix hpiece
  obtain ⟨rotated, hrot, hsq', -⟩ := rotate_spec hsq dir
  refine ⟨rotated, hrot, ?_⟩
  intro h0 h1
  obtain ⟨f, rfl⟩ : ∃ f, fuel = f + 1 + 1 := ⟨fuel - 2, by omega⟩
  unfold playerRotate
  simp only [running_guard s hplay hpause, Bool.false_eq_true, if_false, hrot,
    Option.some_bind]
  cases hr : rotated with
  | nil => rw [hr, collide_nil] at h0; cases h0
  | cons row0 rest =>
    have hlen : row0.length = n := hsq'.2 row0 (by rw [hr]; simp)
    rw [← hr, kickLoop_step, if_pos h0, hr]
    simp only [List.head?_cons]
    have hoff : (-((1 : Int) + (if (1 : Int) > 0 then 1 else -1))) = -2 := by decide
    rw [hoff]
    have hng : ¬ ((-2 : Int).natAbs > row0.length) := by
      rw [hlen]
      have : (-2 : Int).natAbs = 2 := by decide
      omega
    rw [if_neg hng, ← hr, kickLoop_step]
    simp [h1]

/-- Witness for C9: the I piece of `blockedExample` cannot lie flat, so the clockwise turn is
undone. -/
theorem playerRotate_atomic_witness :
    ∃ rotated s', rotate blockedExample.matrix 1 = some rotated ∧
      playerRotate 5 1 blockedExample = some s' ∧
      ((s'.matrix = rotated ∧ collide s'.arena s'.matrix s'.posX s'.posY = false) ∨
        ((∀ j, j < 4 →
            collide blockedExample.arena rotated (blockedExample.posX + kickPos j)
              blockedExample.posY = true) ∧
          s'.matrix = blockedExample.matrix ∧ s'.posX = blockedExample.posX)) ∧
      s'.posY = blockedExample.posY ∧ s'.arena = blockedExample.arena ∧
      s'.score = blockedExample.score ∧ s'.lines = blockedExample.lines ∧
      s'.level = blockedExample.level :=
  playerRotate_atomic 5 1 blockedExample 4 rfl rfl (by decide) (Or.inl rfl) (by decide)

/-- Witness for C10: the clockwise turn of the T piece of `kickExample` collides with the
left wall at `x = -1` and is free at `x = 0`. -/
theorem playerRotate_first_kick_witness :
    ∃ rotated, rotate kickExample.matrix 1 = some rotated ∧
      (collide kickExample.arena rotated kickExample.posX kickExample.posY = true →
        collide kickExample.arena rotated (kickExample.posX + 1) kickExample.posY = false →
        playerRotate 2 1 kickExample =
          some { kickExample with matrix := rotated, posX := kickExample.posX + 1 }) :=
  playerRotate_first_kick 2 1 kickExample .T rfl rfl
    (RotationOf.turn (createPiece .T) _ (-1) RotationOf.base (by decide)) (by decide)

/-! ## Spawn, idle states and the scheduler callback -/

/-- The spawn column `Math.floor(W / 2 - w / 2)` is the integer quotient of `W - w` by `2`. -/
theorem spawn_column (W w : Nat) :
    Int.floor ((W : ℚ) / 2 - (w : ℚ) / 2) = ((W : Int) - (w : Int)) / 2 := by
  have e : (W : ℚ) / 2 - (w : ℚ) / 2
      = (((W : Int) - (w : Int) : Int) : ℚ) / ((2 : Nat) : ℚ) := by
    push_cast; ring
  rw [e, Rat.floor_intCast_div_natCast]
  rfl

/-- What `playerReset` leaves alone: the timing variables, the difficulty and the scalars. -/
theorem playerReset_frame (r0 r1 : Fin 7) (s s' : State) (h : playerReset r0 r1 s = some s') :
    s'.lastTime = s.lastTime ∧ s'.dropCounter = s.dropCounter ∧
      s'.dropInterval = s.dropInterval ∧ s'.difficulty = s.difficulty ∧
      s'.score = s.score ∧ s'.lines = s.lines ∧ s'.level = s.level := by
  unfold playerReset at h
  generalize (match s.nextPiece with
    | none => randomPiece r0
    | some p => p) = queued at h
  cases ha : s.arena.head? with
  | none => simp [ha] at h
  | some arenaRow =>
    cases hq : queued.head? with
    | none => simp [ha, hq] at h
    | some pieceRow =>
      simp only [ha, hq] at h
      split at h <;> (cases h; exact ⟨rfl, rfl, rfl, rfl, rfl, rfl, rfl⟩)

/-- What the lock sequence leaves alone: the timing variables other than the interval, and
the difficulty. -/
theorem lockPiece_frame (fuel : Nat) (r0 r1 : Fin 7) (s s' : State)
    (h : lockPiece fuel r0 r1 s = some s') :
    s'.lastTime = s.lastTime ∧ s'.dropCounter = s.dropCounter ∧
      s'.difficulty = s.difficulty := by
  unfold lockPiece at h
  cases hm : merge s.arena s.matrix s.posX s.posY with
  | none => simp [hm] at h
  | some merged =>
    cases hsw : arenaSweep fuel merged with
    | none => simp [hm, hsw] at h
    | some swept =>
      simp only [hm, hsw, Option.some_bind] at h
      obtain ⟨h1, h2, -, h4, -, -, -⟩ := playerReset_frame r0 r1 _ s' h
      rw [h1, h2, h4]
      split
      · split <;> exact ⟨rfl, rfl, rfl⟩
      · exact ⟨rfl, rfl, rfl⟩

/-- While Running on a rectangular board with a well-formed queue and a free piece,
`playerDrop` returns; it leaves `dropCounter` at `0` and does not touch `lastTime`. -/
theorem playerDrop_total (fuel : Nat) (r0 r1 : Fin 7) (s : State) {w h : Nat}
    (hrect : Rect w h s.arena) (hnext : NextQueued s)
    (hplay : s.playing = true) (hpause : s.paused = false)
    (hfree : collide s.arena s.matrix s.posX s.posY = false) (hfuel : 2 * h + 1 ≤ fuel) :
    ∃ s', playerDrop fuel r0 r1 s = some s' ∧ s'.dropCounter = 0 ∧
      s'.lastTime = s.lastTime := by
  by_cases hland : collide s.arena s.matrix s.posX (s.posY + 1) = true
  · have hcell : ∃ r c v, cellOf s.matrix r c = some v ∧ v ≠ 0 := by
      obtain ⟨r, c, v, hc, hv, -⟩ := (collide_eq_true_iff s.arena s.matrix s.posX _).1 hland
      exact ⟨r, c, v, hc, hv⟩
    obtain ⟨hw, hh⟩ := rect_pos_of_free hrect hcell hfree
    obtain ⟨merged, t, -, hlock, -, -, -, -, -⟩ :=
      lockPiece_spec fuel r0 r1 s hw hh hrect hnext hfree hfuel
    obtain ⟨hlt, -, -⟩ := lockPiece_frame fuel r0 r1 s t hlock
    refine ⟨{ t with dropCounter := 0 }, ?_, rfl, hlt⟩
    rw [playerDrop_lock_eq fuel r0 r1 s hplay hpause hland, hlock]
    rfl
  · refine ⟨{ s with posY := s.posY + 1, dropCounter := 0 }, ?_, rfl, rfl⟩
    unfold playerDrop
    simp only [running_guard s hplay hpause, Bool.false_eq_true, if_false, hland]

/-- C11: on a board with a first row and a well-formed queue, `playerReset` promotes the
queued piece to `y = 0` and `x = floor(boardWidth / 2 - shapeWidth / 2)` and keeps `score`,
`lines` and `level`.  If the piece collides there, the result has `playing = false`,
`paused = false` and every board cell `0`; if it does not collide, `playing`, `paused` and the
board are as before. -/
theorem playerReset_spawn (r0 r1 : Fin 7) (s : State) (w h : Nat) (hh : 1 ≤ h)
    (hrect : Rect w h s.arena) (hnext : NextQueued s) :
    ∃ s' pieceRow, playerReset r0 r1 s = some s' ∧
      s'.matrix = (match s.nextPiece with
        | none => randomPiece r0
        | some p => p) ∧
      s'.matrix.head? = some pieceRow ∧ s'.posY = 0 ∧
      s'.posX = Int.floor ((w : ℚ) / 2 - (pieceRow.length : ℚ) / 2) ∧
      s'.score = s.score ∧ s'.lines = s.lines ∧ s'.level = s.level ∧
      (collide s.arena s'.matrix s'.posX s'.posY = true →
        s'.playing = false ∧ s'.paused = false ∧ ∀ row ∈ s'.arena, ∀ c ∈ row, c = 0) ∧
      (collide s.arena s'.matrix s'.posX s'.posY = false →
        s'.playing = s.playing ∧ s'.paused = s.paused ∧ s'.arena = s.arena) := by
  have harena : ∃ row, s.arena.head? = some row ∧ row.length = w := by
    cases hs : s.arena with
    | nil => rw [hs] at hrect; have := hrect.1; simp at this; omega
    | cons a rest => exact ⟨a, rfl, hrect.2 a (by rw [hs]; simp)⟩
  obtain ⟨arenaRow, harow, hwidth⟩ := harena
  have hq : ∃ row, (match s.nextPiece with
      | none => randomPiece r0
      | some p => p).head? = some row := by
    cases hn : s.nextPiece with
    | none => exact randomPiece_head r0
    | some p =>
      obtain ⟨t, rfl⟩ := hnext p hn
      exact createPiece_head t
  obtain ⟨pieceRow, hprow⟩ := hq
  have hx : ((arenaRow.length : Int) - (pieceRow.length : Int)) / 2
      = Int.floor ((w : ℚ) / 2 - (pieceRow.length : ℚ) / 2) := by
    rw [spawn_column, hwidth]
  unfold playerReset
  simp only [harow, hprow]
  split
  · rename_i hc
    refine ⟨_, pieceRow, rfl, rfl, hprow, rfl, hx, rfl, rfl, rfl, ?_, ?_⟩
    · intro _
      refine ⟨rfl, rfl, ?_⟩
      intro row hrow c hcell
      simp only [List.mem_map] at hrow
      obtain ⟨row0, -, rfl⟩ := hrow
      simp only [List.mem_map] at hcell
      obtain ⟨_, -, rfl⟩ := hcell
      rfl
    · intro hfree
      simp only at hfree hc
      rw [hfree] at hc
      cases hc
  · rename_i hc
    refine ⟨_, pieceRow, rfl, rfl, hprow, rfl, hx, rfl, rfl, rfl, ?_, ?_⟩
    · intro hcol
      simp only at hcol
      exact absurd hcol hc
    · intro _
      exact ⟨rfl, rfl, rfl⟩

theorem lockExample_rect : Rect 4 3 lockExample.arena := by decide

/-- Witness for C11: in `lockExample` the queued T piece spawns onto occupied cells. -/
theorem playerReset_spawn_witness :
    ∃ s' pieceRow, playerReset 0 0 lockExample = some s' ∧
      s'.matrix = (match lockExample.nextPiece with
        | none => randomPiece 0
        | some p => p) ∧
      s'.matrix.head? = some pieceRow ∧ s'.posY = 0 ∧
      s'.posX = Int.floor (((4 : Nat) : ℚ) / 2 - (pieceRow.length : ℚ) / 2) ∧
      s'.score = lockExample.score ∧ s'.lines = lockExample.lines ∧
      s'.level = lockExample.level ∧
      (collide lockExample.arena s'.matrix s'.posX s'.posY = true →
        s'.playing = false ∧ s'.paused = false ∧ ∀ row ∈ s'.arena, ∀ c ∈ row, c = 0) ∧
      (collide lockExample.arena s'.matrix s'.posX s'.posY = false →
        s'.playing = lockExample.playing ∧ s'.paused = lockExample.paused ∧
          s'.arena = lockExample.arena) :=
  playerReset_spawn 0 0 lockExample 4 3 (by decide) lockExample_rect lockExample_next

/-- C15: in a state with `playing = false` or `paused = true`, `playerMove`, `playerDrop`,
`hardDrop` and `playerRotate` return the state as it is, and `update(time)` returns it with
only `lastTime` set to `time`, for every timestamp (whole or fractional) and whatever the
rounding of the double arithmetic. -/
theorem not_running_noop (rnd : ℚ → ℚ) (fuel : Nat) (r0 r1 : Fin 7) (dir : Int) (time : ℚ)
    (s : State) (hidle : s.playing = false ∨ s.paused = true) :
    playerMove dir s = s ∧ playerDrop fuel r0 r1 s = some s ∧
      hardDrop fuel r0 r1 s = some s ∧ playerRotate fuel dir s = some s ∧
      ∃ drawn, update rnd fuel r0 r1 time s = some ({ s with lastTime := time }, drawn) := by
  have hg : (!s.playing || s.paused) = true := by
    rcases hidle with h | h <;> simp [h]
  refine ⟨?_, ?_, ?_, ?_, ?_⟩
  · unfold playerMove; rw [if_pos hg]
  · unfold playerDrop; rw [if_pos hg]
  · unfold hardDrop; rw [if_pos hg]
  · unfold playerRotate; rw [if_pos hg]
  · unfold update
    by_cases hp : s.playing = true
    · have hpa : s.paused = true := by
        rcases hidle with h | h
        · rw [h] at hp; cases hp
        · exact h
      refine ⟨[{ s with lastTime := time }], ?_⟩
      simp [hp, hpa]
    · refine ⟨[], ?_⟩
      simp [hp]

/-- Witness for C15: the paused `lockExample`, with a callback at 16.7 ms. -/
theorem not_running_noop_witness :
    playerMove 1 { lockExample with paused := true } = { lockExample with paused := true } ∧
      playerDrop 7 0 0 { lockExample with paused := true }
        = some { lockExample with paused := true } ∧
      hardDrop 7 0 0 { lockExample with paused := true }
        = some { lockExample with paused := true } ∧
      playerRotate 7 1 { lockExample with paused := true }
        = some { lockExample with paused := true } ∧
      ∃ drawn, update roundDouble 7 0 0 (167 / 10) { lockExample with paused := true }
        = some ({ { lockExample with paused := true } with lastTime := 167 / 10 }, drawn) :=
  not_running_noop roundDouble 7 0 0 1 (167 / 10) { lockExample with paused := true }
    (Or.inr rfl)

theorem roundHalfEven_near (x : ℚ) (n : Int) (h1 : (n : ℚ) - 1 / 2 < x)
    (h2 : x < (n : ℚ) + 1 / 2) : roundHalfEven x = n := by
  unfold roundHalfEven
  by_cases hn : (n : ℚ) ≤ x
  · have hf : Int.floor x = n := by
      rw [Int.floor_eq_iff]
      exact ⟨hn, by linarith⟩
    rw [hf, if_pos (by linarith)]
  · have hf : Int.floor x = n - 1 := by
      rw [Int.floor_eq_iff]
      push_cast
      exact ⟨by linarith, by linarith⟩
    rw [hf]
    push_cast
    rw [if_neg (by linarith), if_pos (by linarith)]
    ring

/-- The rounding of a result whose binary exponent is `e`, in the normal range. -/
theorem roundDouble_of_exponent (q : ℚ) (e : Int) (h1 : (2 : ℚ) ^ e ≤ |q|)
    (h2 : |q| < (2 : ℚ) ^ (e + 1)) (he : -1022 ≤ e) :
    roundDouble q = (roundHalfEven (q / 2 ^ (e - 52)) : ℚ) * 2 ^ (e - 52) := by
  have hpos : (0 : ℚ) < |q| := lt_of_lt_of_le (by positivity) h1
  have hq : q ≠ 0 := by
    intro h
    rw [h] at hpos
    simp at hpos
  have hlog : Int.log 2 |q| = e := by
    have ha : e ≤ Int.log 2 |q| :=
      (Int.zpow_le_iff_le_log (by norm_num) hpos).1 (by exact_mod_cast h1)
    have hb : Int.log 2 |q| < e + 1 :=
      (Int.lt_zpow_iff_log_lt (by norm_num) hpos).1 (by exact_mod_cast h2)
    omega
  unfold roundDouble
  rw [if_neg hq, hlog, max_eq_left he]

/-- A normal double, `m * 2 ^ (e - 52)` with binary exponent `e`, is its own rounding: an
operation whose exact result is a double is exact. -/
theorem roundDouble_exact (q : ℚ) (e m : Int) (h1 : (2 : ℚ) ^ e ≤ |q|)
    (h2 : |q| < (2 : ℚ) ^ (e + 1)) (he : -1022 ≤ e) (hm : q = (m : ℚ) * 2 ^ (e - 52)) :
    roundDouble q = q := by
  rw [roundDouble_of_exponent q e h1 h2 he]
  have hx : q / 2 ^ (e - 52) = (m : ℚ) := by
    rw [hm]
    field_simp
  rw [hx, roundHalfEven_near (m : ℚ) m (by linarith) (by linarith), ← hm]

/-- A whole number below `2 ^ 53` in magnitude is a double: an operation with such a result is
exact. -/
theorem roundDouble_intCast (n : Int) (h : |n| < 2 ^ 53) : roundDouble (n : ℚ) = (n : ℚ) := by
  by_cases hn : n = 0
  · subst hn
    simp [roundDouble]
  · have hpos : (0 : ℚ) < |(n : ℚ)| := abs_pos.2 (by exact_mod_cast hn)
    have h1 : (2 : ℚ) ^ Int.log 2 |(n : ℚ)| ≤ |(n : ℚ)| := by
      have := Int.zpow_log_le_self (b := 2) (by norm_num) hpos
      exact_mod_cast this
    have h2 : |(n : ℚ)| < (2 : ℚ) ^ (Int.log 2 |(n : ℚ)| + 1) := by
      have := Int.lt_zpow_succ_log_self (b := 2) (by norm_num) |(n : ℚ)|
      exact_mod_cast this
    have hone : (1 : ℚ) ≤ |(n : ℚ)| := by
      have : (1 : Int) ≤ |n| := Int.one_le_abs hn
      exact_mod_cast this
    have he0 : 0 ≤ Int.log 2 |(n : ℚ)| := by
      have := (Int.zpow_le_iff_le_log (b := 2) (by norm_num) hpos (x := 0)).1 (by simpa using hone)
      exact this
    have hlt : |(n : ℚ)| < (2 : ℚ) ^ (53 : Int) := by
      have : ((|n| : Int) : ℚ) < ((2 ^ 53 : Int) : ℚ) := by exact_mod_cast h
      push_cast at this
      exact_mod_cast this
    have he52 : Int.log 2 |(n : ℚ)| ≤ 52 := by
      have := (Int.lt_zpow_iff_log_lt (b := 2) (by norm_num) hpos (x := 53)).1 (by exact_mod_cast hlt)
      omega
    generalize Int.log 2 |(n : ℚ)| = e at h1 h2 he0 he52
    obtain ⟨d, hd⟩ : ∃ d : Nat, e = 52 - (d : Int) := ⟨(52 - e).toNat, by omega⟩
    refine roundDouble_exact (n : ℚ) e (n * 2 ^ d) h1 h2 (by omega) ?_
    have : e - 52 = -(d : Int) := by omega
    rw [this, zpow_neg, zpow_natCast]
    push_cast
    field_simp

/-- The double sum `608 + 2 ^ -47` is `608`: the doubles next to `608` are `2 ^ -43` apart. -/
theorem roundDouble_608 : roundDouble (608 + roundDouble (1 / 2 ^ 47 - 0)) = 608 := by
  have hd : roundDouble (1 / 2 ^ 47 - 0) = 1 / 2 ^ 47 :=
    (roundDouble_exact _ (-47) (2 ^ 52) (by norm_num [abs_of_pos]) (by norm_num [abs_of_pos])
      (by norm_num) (by norm_num)).trans (sub_zero _)
  rw [hd, roundDouble_of_exponent _ 9 (by norm_num [abs_of_pos]) (by norm_num [abs_of_pos])
    (by norm_num), roundHalfEven_near _ (608 * 2 ^ 43) (by norm_num) (by norm_num)]
  norm_num

/-- The double sum `608 + 16.7` is above `608`. -/
theorem roundDouble_624 : roundDouble (608 + roundDouble (167 / 10 - 0)) > ((608 : Int) : ℚ) := by
  have hd : roundDouble (167 / 10 - 0) = 4700632111067955 / 2 ^ 48 := by
    rw [roundDouble_of_exponent _ 4 (by norm_num [abs_of_pos]) (by norm_num [abs_of_pos])
      (by norm_num), roundHalfEven_near _ 4700632111067955 (by norm_num) (by norm_num)]
    norm_num
  rw [hd, roundDouble_of_exponent _ 9 (by norm_num [abs_of_pos]) (by norm_num [abs_of_pos])
    (by norm_num), roundHalfEven_near _ (608 * 2 ^ 43 + 146894753470874) (by norm_num)
      (by norm_num)]
  norm_num

/-- C17: while Running (on a rectangular board, with a well-formed queue and a free piece),
`update(t)` with accumulator `a` and previous timestamp `t0` sets `lastTime = t`; if
`a + (t - t0) > dropInterval` it is exactly one `playerDrop`, run on the state with the
accumulator advanced, and it leaves the accumulator at `0`; otherwise it returns the state
with the accumulator at `a + (t - t0)` and nothing else changed.  The timestamps and the
accumulator are doubles, whole or fractional, and `a + (t - t0)` is the double that the
script computes, `rnd (a + rnd (t - t0))` for the rounding `rnd` of the arithmetic; this holds
for every rounding, and where the subtraction and the addition are exact the sum is the
fraction `a + (t - t0)` itself.  The order of `t` and `t0` plays no part. -/
theorem update_running (rnd : ℚ → ℚ) (fuel : Nat) (r0 r1 : Fin 7) (time : ℚ) (s : State)
    (w h : Nat) (hrect : Rect w h s.arena) (hnext : NextQueued s)
    (hplay : s.playing = true) (hpause : s.paused = false)
    (hfree : collide s.arena s.matrix s.posX s.posY = false) (hfuel : 2 * h + 1 ≤ fuel) :
    ((rnd (s.dropCounter + rnd (time - s.lastTime)) > (s.dropInterval : ℚ) →
      ∃ s', playerDrop fuel r0 r1
          { s with lastTime := time,
                   dropCounter := rnd (s.dropCounter + rnd (time - s.lastTime)) }
            = some s' ∧
        update rnd fuel r0 r1 time s = some (s', [s']) ∧ s'.dropCounter = 0 ∧
        s'.lastTime = time) ∧
    (¬ rnd (s.dropCounter + rnd (time - s.lastTime)) > (s.dropInterval : ℚ) →
      update rnd fuel r0 r1 time s =
        some ({ s with lastTime := time,
                       dropCounter := rnd (s.dropCounter + rnd (time - s.lastTime)) },
          [{ s with lastTime := time,
                    dropCounter := rnd (s.dropCounter + rnd (time - s.lastTime)) }]))) ∧
    (rnd (time - s.lastTime) = time - s.lastTime →
      rnd (s.dropCounter + (time - s.lastTime)) = s.dropCounter + (time - s.lastTime) →
      (s.dropCounter + (time - s.lastTime) > (s.dropInterval : ℚ) →
        ∃ s', playerDrop fuel r0 r1
            { s with lastTime := time, dropCounter := s.dropCounter + (time - s.lastTime) }
              = some s' ∧
          update rnd fuel r0 r1 time s = some (s', [s']) ∧ s'.dropCounter = 0 ∧
          s'.lastTime = time) ∧
      (¬ s.dropCounter + (time - s.lastTime) > (s.dropInterval : ℚ) →
        update rnd fuel r0 r1 time s =
          some ({ s with lastTime := time, dropCounter := s.dropCounter + (time - s.lastTime) },
            [{ s with lastTime := time,
                      dropCounter := s.dropCounter + (time - s.lastTime) }]))) := by
  have hnp : (!s.playing) = false := by rw [hplay]; rfl
  have hnq : (!s.paused) = true := by rw [hpause]; rfl
  have key : (rnd (s.dropCounter + rnd (time - s.lastTime)) > (s.dropInterval : ℚ) →
      ∃ s', playerDrop fuel r0 r1
          { s with lastTime := time,
                   dropCounter := rnd (s.dropCounter + rnd (time - s.lastTime)) }
            = some s' ∧
        update rnd fuel r0 r1 time s = some (s', [s']) ∧ s'.dropCounter = 0 ∧
        s'.lastTime = time) ∧
    (¬ rnd (s.dropCounter + rnd (time - s.lastTime)) > (s.dropInterval : ℚ) →
      update rnd fuel r0 r1 time s =
        some ({ s with lastTime := time,
                       dropCounter := rnd (s.dropCounter + rnd (time - s.lastTime)) },
          [{ s with lastTime := time,
                    dropCounter := rnd (s.dropCounter + rnd (time - s.lastTime)) }])) := by
    constructor
    · intro hgt
      obtain ⟨s', hs', hdc, hlt⟩ := playerDrop_total fuel r0 r1
        ({ s with lastTime := time,
                  dropCounter := rnd (s.dropCounter + rnd (time - s.lastTime)) } : State)
        hrect hnext hplay hpause hfree hfuel
      refine ⟨s', hs', ?_, hdc, hlt⟩
      unfold update
      simp only [hnp, hnq, Bool.false_eq_true, if_false, if_true, hgt, hs', Option.map_some']
    · intro hle
      unfold update
      simp only [hnp, hnq, Bool.false_eq_true, if_false, if_true, hle, Option.map_some']
  refine ⟨key, ?_⟩
  intro hsub hadd
  rw [hsub, hadd] at key
  exact key

/-- Witness for C17: `lockExample` with 608 ms on the accumulator, equal to the interval.  A
callback `2 ^ -47` ms later adds an amount that the double sum loses, so that nothing drops and
the accumulator stays at `608`; a callback 16.7 ms later is one `playerDrop`, which moves the
piece one row down. -/
theorem update_running_witness :
    roundDouble (608 + roundDouble (1 / 2 ^ 47 - 0)) = 608 ∧
    update roundDouble 7 0 0 (1 / 2 ^ 47) { lockExample with dropCounter := 608 } =
      some ({ lockExample with dropCounter := 608, lastTime := 1 / 2 ^ 47 },
        [{ lockExample with dropCounter := 608, lastTime := 1 / 2 ^ 47 }]) ∧
    ∃ s', update roundDouble 7 0 0 (167 / 10) { lockExample with dropCounter := 608 }
        = some (s', [s']) ∧
      s'.dropCounter = 0 ∧ s'.lastTime = 167 / 10 ∧ s'.posY = 1 ∧
      s'.arena = lockExample.arena := by
  refine ⟨roundDouble_608, ?_, ?_⟩
  · have hno : ¬ roundDouble (({ lockExample with dropCounter := 608 } : State).dropCounter
        + roundDouble (1 / 2 ^ 47 - ({ lockExample with dropCounter := 608 } : State).lastTime))
        > ((({ lockExample with dropCounter := 608 } : State).dropInterval : Int) : ℚ) := by
      show ¬ roundDouble (608 + roundDouble (1 / 2 ^ 47 - 0)) > ((608 : Int) : ℚ)
      rw [roundDouble_608]
      norm_num
    have hu := (update_running roundDouble 7 0 0 (1 / 2 ^ 47)
      { lockExample with dropCounter := 608 } 4 3 lockExample_rect lockExample_next rfl rfl
      (by decide) (by decide)).1.2 hno
    rw [show roundDouble (({ lockExample with dropCounter := 608 } : State).dropCounter
        + roundDouble (1 / 2 ^ 47 - ({ lockExample with dropCounter := 608 } : State).lastTime))
        = 608 from roundDouble_608] at hu
    exact hu
  · obtain ⟨s', hs', hu, hdc, hlt⟩ := (update_running roundDouble 7 0 0 (167 / 10)
      { lockExample with dropCounter := 608 } 4 3 lockExample_rect lockExample_next rfl rfl
      (by decide) (by decide)).1.1 roundDouble_624
    have hs2 : playerDrop 7 0 0
        { ({ lockExample with dropCounter := 608 } : State) with
            lastTime := 167 / 10,
            dropCounter := roundDouble
              (({ lockExample with dropCounter := 608 } : State).dropCounter
                + roundDouble
                  (167 / 10 - ({ lockExample with dropCounter := 608 } : State).lastTime)) }
        = some { lockExample with posY := 1, lastTime := 167 / 10 } := rfl
    rw [hs2] at hs'
    cases hs'
    exact ⟨_, hu, rfl, rfl, rfl, rfl⟩

/-- C18, the claim as stated fails: in the idle state `idleExample` the callback `update(16)`
returns without a single call of `draw()`. -/
theorem update_draw_counterexample :
    idleExample.playing = false ∧
      (update roundDouble 7 0 0 16 idleExample).map (fun out => out.2.length) = some 0 := by
  constructor
  · rfl
  · decide

/-- C18 as amended: one call of `update(time)` invokes `draw()` exactly once, after the logic
step (it renders the state that the callback returns), whenever `playing` is true at entry,
paused or not; when `playing` is false the callback only refreshes `lastTime` and returns
without invoking `draw()`. -/
theorem update_draw (rnd : ℚ → ℚ) (fuel : Nat) (r0 r1 : Fin 7) (time : ℚ) (s : State) :
    (s.playing = false →
      update rnd fuel r0 r1 time s = some ({ s with lastTime := time }, [])) ∧
    (s.playing = true → s.paused = true →
      update rnd fuel r0 r1 time s =
        some ({ s with lastTime := time }, [{ s with lastTime := time }])) ∧
    (s.playing = true → s.paused = false →
      (∀ s' drawn, update rnd fuel r0 r1 time s = some (s', drawn) → drawn = [s']) ∧
      ∀ w h, Rect w h s.arena → NextQueued s →
        collide s.arena s.matrix s.posX s.posY = false → 2 * h + 1 ≤ fuel →
        ∃ s', update rnd fuel r0 r1 time s = some (s', [s'])) := by
  refine ⟨?_, ?_, ?_⟩
  · intro hp
    unfold update
    simp [hp]
  · intro hp hpa
    unfold update
    simp [hp, hpa]
  · intro hp hpa
    have hnp : (!s.playing) = false := by rw [hp]; rfl
    have hnq : (!s.paused) = true := by rw [hpa]; rfl
    constructor
    · intro s' drawn hu
      unfold update at hu
      simp only [hnp, hnq, Bool.false_eq_true, if_false, if_true] at hu
      split at hu
      · cases hd : playerDrop fuel r0 r1
            { s with lastTime := time, dropCounter := rnd (s.dropCounter + rnd (time - s.lastTime)) } with
        | none => rw [hd] at hu; cases hu
        | some t => rw [hd] at hu; cases hu; rfl
      · cases hu; rfl
    · intro w h hrect hnext hfree hfuel
      by_cases hgt : rnd (s.dropCounter + rnd (time - s.lastTime)) > (s.dropInterval : ℚ)
      · obtain ⟨s', hs', -, -⟩ := playerDrop_total fuel r0 r1
          ({ s with lastTime := time,
                    dropCounter := rnd (s.dropCounter + rnd (time - s.lastTime)) } : State)
          hrect hnext hp hpa hfree hfuel
        refine ⟨s', ?_⟩
        unfold update
        simp only [hnp, hnq, Bool.false_eq_true, if_false, if_true, hgt, hs', Option.map_some']
      · refine ⟨{ s with lastTime := time,
                         dropCounter := rnd (s.dropCounter + rnd (time - s.lastTime)) }, ?_⟩
        unfold update
        simp only [hnp, hnq, Bool.false_eq_true, if_false, if_true, hgt, Option.map_some']

/-- Witness for C18 as amended: the Running state `lockExample` with a full accumulator. -/
theorem update_draw_witness :
    ∃ s', update roundDouble 7 0 0 17 { lockExample with dropCounter := 608 }
      = some (s', [s']) :=
  ((update_draw roundDouble 7 0 0 17 { lockExample with dropCounter := 608 }).2.2 rfl rfl).2 4 3
    lockExample_rect lockExample_next (by decide) (by decide)

/-! ## The speed curve -/

theorem applySpeed_interval (s : State) :
    (applySpeed s).dropInterval = speedInterval s.difficulty s.level := rfl

/-- Every preset has a positive base and a speed factor between `0` and `85 / 100`. -/
theorem preset_bounds (d : Difficulty) :
    (0 : ℚ) < ((preset d).1 : ℚ) ∧ (0 : ℚ) < (preset d).2 ∧
      (preset d).2 ≤ 85 / 100 := by
  cases d <;> simp only [preset] <;> norm_num

theorem speedInterval_floor (d : Difficulty) (level : Int)
    (h : ((preset d).1 : ℚ) * (preset d).2 ^ (level - 1) + 1 / 2 < 81) :
    speedInterval d level = 80 := by
  unfold speedInterval
  apply max_eq_left
  have := Int.floor_lt.2 (show ((preset d).1 : ℚ) * (preset d).2 ^ (level - 1) + 1 / 2
    < ((81 : Int) : ℚ) by exact_mod_cast h)
  omega

/-- From one level to the next the interval does not grow, and it shrinks while it is above
the floor of `80`. -/
theorem speedInterval_step (d : Difficulty) (L : Int) :
    speedInterval d (L + 1) ≤ speedInterval d L ∧
      (80 < speedInterval d L → speedInterval d (L + 1) < speedInterval d L) := by
  obtain ⟨hb, hf0, hf85⟩ := preset_bounds d
  unfold speedInterval
  generalize ((preset d).1 : ℚ) = b at hb ⊢
  generalize (preset d).2 = f at hf0 hf85 ⊢
  have hxy : b * f ^ (L + 1 - 1) = (b * f ^ (L - 1)) * f := by
    have e : L + 1 - 1 = (L - 1) + 1 := by ring
    rw [e, zpow_add_one₀ (ne_of_gt hf0)]
    ring
  have hx0 : 0 ≤ b * f ^ (L - 1) := le_of_lt (mul_pos hb (zpow_pos hf0 _))
  rw [hxy]
  generalize b * f ^ (L - 1) = x at hx0 ⊢
  have hle : x * f ≤ x := by nlinarith
  have hfl : Int.floor (x * f + 1 / 2) ≤ Int.floor (x + 1 / 2) :=
    Int.floor_mono (by linarith)
  refine ⟨max_le_max (le_refl _) hfl, ?_⟩
  intro h80
  have h81 : 80 < Int.floor (x + 1 / 2) := by
    rcases lt_max_iff.1 h80 with h | h
    · exact absurd h (lt_irrefl _)
    · exact h
  have hx : (81 : ℚ) ≤ x + 1 / 2 := by
    have := Int.le_floor.1 (show (81 : Int) ≤ Int.floor (x + 1 / 2) by omega)
    exact_mod_cast this
  have hmul : x * f ≤ x * (85 / 100) := mul_le_mul_of_nonneg_left hf85 hx0
  have hlt : Int.floor (x * f + 1 / 2) < Int.floor (x + 1 / 2) := by
    rw [Int.floor_lt]
    have := Int.lt_floor_add_one (x + 1 / 2)
    linarith
  rw [max_eq_right (le_of_lt h81)]
  exact max_lt h81 hlt

/-- C14, the claim as stated fails: with the preset normal the interval is `80` at level 12
and still `80` at level 13, so it does not strictly decrease from level 12 to level 13. -/
theorem applySpeed_floor_counterexample :
    (1 : Int) ≤ 12 ∧
      (applySpeed { lockExample with level := 12 }).dropInterval = 80 ∧
      (applySpeed { lockExample with level := 12 + 1 }).dropInterval = 80 ∧
      ¬ ((applySpeed { lockExample with level := 12 + 1 }).dropInterval
          < (applySpeed { lockExample with level := 12 }).dropInterval) := by
  have h12 : (applySpeed { lockExample with level := 12 }).dropInterval = 80 := by
    rw [applySpeed_interval]
    apply speedInterval_floor
    simp only [preset, lockExample]
    norm_num
  have h13 : (applySpeed { lockExample with level := 12 + 1 }).dropInterval = 80 := by
    rw [applySpeed_interval]
    apply speedInterval_floor
    simp only [preset, lockExample]
    norm_num
  refine ⟨by decide, h12, h13, ?_⟩
  rw [h12, h13]
  decide

/-- C14 as amended: for each difficulty preset and every level `L` (in particular `L ≥ 1`),
the interval that `applySpeed` computes at level `L + 1` is at most the one at level `L`, and
it is strictly smaller whenever the interval at level `L` is above the floor of `80`.  The
arithmetic is exact (fractions in place of doubles). -/
theorem applySpeed_interval_decreases (s : State) (L : Int) :
    (applySpeed { s with level := L + 1 }).dropInterval
        ≤ (applySpeed { s with level := L }).dropInterval ∧
      (80 < (applySpeed { s with level := L }).dropInterval →
        (applySpeed { s with level := L + 1 }).dropInterval
          < (applySpeed { s with level := L }).dropInterval) := by
  simp only [applySpeed_interval]
  exact speedInterval_step s.difficulty L

/-- Witness for C14 as amended: the preset normal at levels 3 and 4. -/
theorem applySpeed_interval_decreases_witness :
    (applySpeed { lockExample with level := 3 + 1 }).dropInterval
      < (applySpeed { lockExample with level := 3 }).dropInterval :=
  (applySpeed_interval_decreases lockExample 3).2 (by
    rw [applySpeed_interval]
    unfold speedInterval
    apply lt_max_of_lt_right
    apply lt_of_lt_of_le (by decide : (80 : Int) < 81)
    rw [Int.le_floor]
    simp only [preset, lockExample]
    norm_num)

/-! ## A fresh board -/

theorem cellOf_lt_of_square {n : Nat} {m : Matrix} (h : Square n m) {y x : Nat} {v : Int}
    (hc : cellOf m y x = some v) : y < n ∧ x < n := by
  unfold cellOf at hc
  cases hrow : m[y]? with
  | none => rw [hrow] at hc; cases hc
  | some row =>
    rw [hrow] at hc
    have h1 := (List.getElem?_eq_some.1 hrow).1
    have h2 := (List.getElem?_eq_some.1 hc).1
    have h3 := h.2 row (List.getElem?_mem hrow)
    have h4 := h.1
    omega

theorem arenaAt_createMatrix (w h : Nat) (r c : Int) (hr0 : 0 ≤ r) (hr : r < h)
    (hc0 : 0 ≤ c) (hc : c < w) : arenaAt (createMatrix w h) r c = some 0 := by
  rw [arenaAt_eq_some]
  refine ⟨List.replicate w 0, hr0, ?_, hc0, ?_⟩
  · unfold createMatrix
    rw [List.getElem?_replicate]
    have : r.toNat < h := by omega
    simp [this]
  · rw [List.getElem?_replicate]
    have : c.toNat < w := by omega
    simp [this]

/-- A square piece that fits into the board does not collide at the spawn position of an
all-zero board. -/
theorem spawn_free (w h n : Nat) (m : Matrix) (hsq : Square n m) (hw : n ≤ w) (hh : n ≤ h) :
    collide (createMatrix w h) m (((w : Int) - (n : Int)) / 2) 0 = false := by
  rw [collide_eq_false_iff]
  intro y x v hc _
  obtain ⟨hy, hx⟩ := cellOf_lt_of_square hsq hc
  apply arenaAt_createMatrix <;> omega

theorem createPiece_square (t : PieceType) :
    ∃ n row, 2 ≤ n ∧ n ≤ 4 ∧ Square n (createPiece t) ∧
      (createPiece t).head? = some row ∧ row.length = n := by
  cases t
  · exact ⟨3, _, by decide, by decide, by decide, rfl, rfl⟩
  · exact ⟨2, _, by decide, by decide, by decide, rfl, rfl⟩
  · exact ⟨3, _, by decide, by decide, by decide, rfl, rfl⟩
  · exact ⟨3, _, by decide, by decide, by decide, rfl, rfl⟩
  · exact ⟨4, _, by decide, by decide, by decide, rfl, rfl⟩
  · exact ⟨3, _, by decide, by decide, by decide, rfl, rfl⟩
  · exact ⟨3, _, by decide, by decide, by decide, rfl, rfl⟩

theorem randomPiece_catalog (r : Fin 7) : ∃ t, randomPiece r = createPiece t := by
  fin_cases r
  · exact ⟨.T, rfl⟩
  · exact ⟨.J, rfl⟩
  · exact ⟨.L, rfl⟩
  · exact ⟨.O, rfl⟩
  · exact ⟨.S, rfl⟩
  · exact ⟨.Z, rfl⟩
  · exact ⟨.I, rfl⟩

theorem zeroed_eq_createMatrix {w h : Nat} {arena : Matrix} (hrect : Rect w h arena) :
    arena.map (fun row => row.map (fun _ => (0 : Int))) = createMatrix w h := by
  rw [zeroed_eq_replicate w arena hrect.2, hrect.1]
  rfl

/-- On an all-zero board of at least 4 x 4 cells with a catalog piece queued, `playerReset`
takes the branch without collision: the piece is promoted to the spawn position and the
flags and the board stay. -/
theorem playerReset_fresh (r0 r1 : Fin 7) (s : State) (w h : Nat) (hw : 4 ≤ w) (hh : 4 ≤ h)
    (harena : s.arena = createMatrix w h) (t : PieceType)
    (hq : s.nextPiece = some (createPiece t)) :
    ∃ row, (createPiece t).head? = some row ∧
      collide s.arena (createPiece t) (((w : Int) - (row.length : Int)) / 2) 0 = false ∧
      playerReset r0 r1 s =
        some { s with matrix := createPiece t, nextPiece := some (randomPiece r1), posY := 0,
                      posX := ((w : Int) - (row.length : Int)) / 2 } := by
  obtain ⟨n, row, hn2, hn4, hsq, hhead, hlen⟩ := createPiece_square t
  have hfree : collide s.arena (createPiece t) (((w : Int) - (row.length : Int)) / 2) 0
      = false := by
    rw [harena, hlen]
    exact spawn_free w h n _ hsq (by omega) (by omega)
  refine ⟨row, hhead, hfree, ?_⟩
  have hah : s.arena.head? = some (List.replicate w 0) := by
    rw [harena]
    unfold createMatrix
    obtain ⟨k, rfl⟩ : ∃ k, h = k + 1 := ⟨h - 1, by omega⟩
    rfl
  unfold playerReset
  simp only [hq, hah, hhead, List.length_replicate, hfree, Bool.false_eq_true, if_false]

/-- The start handler on a board of at least 4 x 4 cells: the state it returns, field by
field. -/
theorem start_spec (r r1 : Fin 7) (s : State) (w h : Nat) (hw : 4 ≤ w) (hh : 4 ≤ h)
    (hrect : Rect w h s.arena) :
    ∃ s' t row, start r r1 s = some s' ∧ randomPiece r = createPiece t ∧
      (createPiece t).head? = some row ∧
      s'.arena = createMatrix w h ∧ s'.matrix = createPiece t ∧
      s'.nextPiece = some (randomPiece r1) ∧ s'.posY = 0 ∧
      s'.posX = ((w : Int) - (row.length : Int)) / 2 ∧
      s'.score = 0 ∧ s'.lines = 0 ∧ s'.level = 1 ∧ s'.playing = true ∧ s'.paused = false ∧
      collide s'.arena s'.matrix s'.posX s'.posY = false := by
  obtain ⟨t, ht⟩ := randomPiece_catalog r
  have hz := zeroed_eq_createMatrix hrect
  obtain ⟨row, hhead, hfree, hreset⟩ := playerReset_fresh r r1
    ({ s with arena := s.arena.map (fun row => row.map (fun _ => (0 : Int))),
              score := 0, lines := 0, level := 1, nextPiece := some (randomPiece r) } : State)
    w h hw hh hz t (by rw [← ht])
  have hst : ∃ s', start r r1 s = some s' := by
    simp only [start, hreset, Option.map_some']
    exact ⟨_, rfl⟩
  obtain ⟨s', hs'⟩ := hst
  have hval := hs'
  simp only [start, hreset, Option.map_some', Option.some.injEq] at hval
  subst hval
  exact ⟨_, t, row, hs', ht, hhead, hz, rfl, rfl, rfl, rfl, rfl, rfl, rfl, rfl, rfl, hfree⟩

theorem createMatrix_zero (w h : Nat) : ∀ row ∈ createMatrix w h, ∀ c ∈ row, c = 0 := by
  intro row hrow c hc
  unfold createMatrix at hrow
  rw [(List.mem_replicate.1 hrow).2] at hc
  exact (List.mem_replicate.1 hc).2

/-- C16: from every state whose board has the dimensions `w` x `h` with at least 4 columns and
4 rows (the script's board is 12 x 20), the start action returns a state with every board
cell `0`, `score = 0`, `lines = 0`, `level = 1`, `playing = true`, `paused = false` and an
active catalog piece at `y = 0`, `x = floor(boardWidth / 2 - shapeWidth / 2)` that does not
collide with the board. -/
theorem start_fresh_session (r r1 : Fin 7) (s : State) (w h : Nat) (hw : 4 ≤ w) (hh : 4 ≤ h)
    (hrect : Rect w h s.arena) :
    ∃ s' t row, start r r1 s = some s' ∧
      Rect w h s'.arena ∧ (∀ arenaRow ∈ s'.arena, ∀ c ∈ arenaRow, c = 0) ∧
      s'.score = 0 ∧ s'.lines = 0 ∧ s'.level = 1 ∧ s'.playing = true ∧ s'.paused = false ∧
      s'.matrix = createPiece t ∧ s'.matrix.head? = some row ∧ s'.posY = 0 ∧
      s'.posX = Int.floor ((w : ℚ) / 2 - (row.length : ℚ) / 2) ∧
      collide s'.arena s'.matrix s'.posX s'.posY = false := by
  obtain ⟨s', t, row, hs, -, hhead, ha, hm, -, hy, hx, h1, h2, h3, h4, h5, h6⟩ :=
    start_spec r r1 s w h hw hh hrect
  refine ⟨s', t, row, hs, ?_, ?_, h1, h2, h3, h4, h5, hm, by rw [hm]; exact hhead, hy, ?_, h6⟩
  · rw [ha]
    exact ⟨by simp [createMatrix], fun arenaRow hr => by
      rw [(List.mem_replicate.1 hr).2, List.length_replicate]⟩
  · rw [ha]; exact createMatrix_zero w h
  · rw [hx, spawn_column]

/-- Witness for C16: a restart out of the Running state `kickExample` (a 5 x 5 board). -/
theorem start_fresh_session_witness :
    ∃ s' t row, start 3 6 kickExample = some s' ∧
      Rect 5 5 s'.arena ∧ (∀ arenaRow ∈ s'.arena, ∀ c ∈ arenaRow, c = 0) ∧
      s'.score = 0 ∧ s'.lines = 0 ∧ s'.level = 1 ∧ s'.playing = true ∧ s'.paused = false ∧
      s'.matrix = createPiece t ∧ s'.matrix.head? = some row ∧ s'.posY = 0 ∧
      s'.posX = Int.floor (((5 : Nat) : ℚ) / 2 - (row.length : ℚ) / 2) ∧
      collide s'.arena s'.matrix s'.posX s'.posY = false :=
  start_fresh_session 3 6 kickExample 5 5 (by decide) (by decide) (by decide)

/-! ## More fuel changes nothing -/

theorem fuel_mono_of_succ {α : Type} (F : Nat → Option α)
    (hsucc : ∀ fuel r, F fuel = some r → F (fuel + 1) = some r)
    {fuel fuel' : Nat} (hle : fuel ≤ fuel') {r : α} (h : F fuel = some r) :
    F fuel' = some r := by
  induction hle with
  | refl => exact h
  | step _ ih => exact hsucc _ _ ih

theorem sweepLoop_step (fuel : Nat) (arena : Matrix) (y : Int) (rowCount : Nat) :
    sweepLoop (fuel + 1) arena y rowCount =
      if y ≥ 0 then
        match arena[y.toNat]? with
        | none => none
        | some row =>
          if row.any (fun c => c == 0) then sweepLoop fuel arena (y - 1) rowCount
          else
            sweepLoop fuel ((row.map (fun _ => (0 : Int))) :: arena.eraseIdx y.toNat)
              (y + 1 - 1) (rowCount + 1)
      else some (arena, rowCount) := rfl

theorem sweepLoop_succ (fuel : Nat) (arena : Matrix) (y : Int) (rowCount : Nat)
    (r : Matrix × Nat) (h : sweepLoop fuel arena y rowCount = some r) :
    sweepLoop (fuel + 1) arena y rowCount = some r := by
  induction fuel generalizing arena y rowCount with
  | zero => cases h
  | succ fuel ih =>
    rw [sweepLoop_step] at h
    rw [sweepLoop_step]
    by_cases hy : y ≥ 0
    · rw [if_pos hy] at h ⊢
      cases hrow : arena[y.toNat]? with
      | none => simp only [hrow] at h; cases h
      | some row =>
        simp only [hrow] at h ⊢
        by_cases ha : row.any (fun c => c == 0) = true
        · rw [if_pos ha] at h ⊢; exact ih _ _ _ h
        · rw [if_neg ha] at h ⊢; exact ih _ _ _ h
    · rw [if_neg hy] at h ⊢; exact h

theorem arenaSweep_mono {fuel fuel' : Nat} (hle : fuel ≤ fuel') (arena : Matrix)
    (r : Matrix × Nat) (h : arenaSweep fuel arena = some r) :
    arenaSweep fuel' arena = some r :=
  fuel_mono_of_succ (fun f => arenaSweep f arena)
    (fun f r hr => sweepLoop_succ f arena _ 0 r hr) hle h

theorem dropLoop_succ (fuel : Nat) (arena m : Matrix) (x y d : Int) (r : Int × Int)
    (h : dropLoop fuel arena m x y d = some r) :
    dropLoop (fuel + 1) arena m x y d = some r := by
  induction fuel generalizing y d with
  | zero => cases h
  | succ fuel ih =>
    rw [dropLoop_step] at h
    rw [dropLoop_step]
    by_cases hc : (!collide arena m x y) = true
    · rw [if_pos hc] at h ⊢; exact ih _ _ h
    · rw [if_neg hc] at h ⊢; exact h

theorem dropLoop_mono {fuel fuel' : Nat} (hle : fuel ≤ fuel') (arena m : Matrix)
    (x y d : Int) (r : Int × Int) (h : dropLoop fuel arena m x y d = some r) :
    dropLoop fuel' arena m x y d = some r :=
  fuel_mono_of_succ (fun f => dropLoop f arena m x y d)
    (fun f r hr => dropLoop_succ f arena m x y d r hr) hle h

theorem kickLoop_succ (fuel : Nat) (arena m : Matrix) (y x offset : Int) (r : Option Int)
    (h : kickLoop fuel arena m y x offset = some r) :
    kickLoop (fuel + 1) arena m y x offset = some r := by
  induction fuel generalizing x offset with
  | zero => cases h
  | succ fuel ih =>
    rw [kickLoop_step] at h
    rw [kickLoop_step]
    by_cases hc : collide arena m x y = true
    · rw [if_pos hc] at h ⊢
      cases hhead : m.head? with
      | none => simp only [hhead] at h; cases h
      | some row0 =>
        simp only [hhead] at h ⊢
        by_cases hg : (-(offset + (if offset > 0 then 1 else -1))).natAbs > row0.length
        · rw [if_pos hg] at h ⊢; exact h
        · rw [if_neg hg] at h ⊢; exact ih _ _ h
    · rw [if_neg hc] at h ⊢; exact h

theorem kickLoop_mono {fuel fuel' : Nat} (hle : fuel ≤ fuel') (arena m : Matrix)
    (y x offset : Int) (r : Option Int) (h : kickLoop fuel arena m y x offset = some r) :
    kickLoop fuel' arena m y x offset = some r :=
  fuel_mono_of_succ (fun f => kickLoop f arena m y x offset)
    (fun f r hr => kickLoop_succ f arena m y x offset r hr) hle h

theorem lockPiece_mono {fuel fuel' : Nat} (hle : fuel ≤ fuel') (r0 r1 : Fin 7) (s s' : State)
    (h : lockPiece fuel r0 r1 s = some s') : lockPiece fuel' r0 r1 s = some s' := by
  unfold lockPiece at h ⊢
  rw [Option.bind_eq_some] at h ⊢
  obtain ⟨merged, hm, h2⟩ := h
  refine ⟨merged, hm, ?_⟩
  rw [Option.bind_eq_some] at h2 ⊢
  obtain ⟨swept, hsw, h3⟩ := h2
  exact ⟨swept, arenaSweep_mono hle merged swept hsw, h3⟩

theorem playerDrop_mono {fuel fuel' : Nat} (hle : fuel ≤ fuel') (r0 r1 : Fin 7) (s s' : State)
    (h : playerDrop fuel r0 r1 s = some s') : playerDrop fuel' r0 r1 s = some s' := by
  unfold playerDrop at h ⊢
  by_cases hg : (!s.playing || s.paused) = true
  · rw [if_pos hg] at h ⊢; exact h
  · rw [if_neg hg] at h ⊢
    by_cases hc : collide s.arena s.matrix s.posX (s.posY + 1) = true
    · simp only [hc, if_true] at h ⊢
      rw [Option.map_eq_some'] at h ⊢
      obtain ⟨t, ht, h2⟩ := h
      exact ⟨t, lockPiece_mono hle r0 r1 _ t ht, h2⟩
    · simp only [hc, if_false] at h ⊢
      exact h

theorem hardDrop_mono {fuel fuel' : Nat} (hle : fuel ≤ fuel') (r0 r1 : Fin 7) (s s' : State)
    (h : hardDrop fuel r0 r1 s = some s') : hardDrop fuel' r0 r1 s = some s' := by
  unfold hardDrop at h ⊢
  by_cases hg : (!s.playing || s.paused) = true
  · rw [if_pos hg] at h ⊢; exact h
  · rw [if_neg hg] at h ⊢
    rw [Option.bind_eq_some] at h ⊢
    obtain ⟨out, hd, h2⟩ := h
    refine ⟨out, dropLoop_mono hle _ _ _ _ _ out hd, ?_⟩
    simp only at h2 ⊢
    rw [Option.map_eq_some'] at h2 ⊢
    obtain ⟨t, ht, h3⟩ := h2
    exact ⟨t, lockPiece_mono hle r0 r1 _ t ht, h3⟩

theorem playerRotate_mono {fuel fuel' : Nat} (hle : fuel ≤ fuel') (dir : Int) (s s' : State)
    (h : playerRotate fuel dir s = some s') : playerRotate fuel' dir s = some s' := by
  unfold playerRotate at h ⊢
  by_cases hg : (!s.playing || s.paused) = true
  · rw [if_pos hg] at h ⊢; exact h
  · rw [if_neg hg] at h ⊢
    rw [Option.bind_eq_some] at h ⊢
    obtain ⟨rotated, hr, h2⟩ := h
    refine ⟨rotated, hr, ?_⟩
    rw [Option.bind_eq_some] at h2 ⊢
    obtain ⟨out, hk, h3⟩ := h2
    exact ⟨out, kickLoop_mono hle _ _ _ _ _ out hk, h3⟩

theorem update_mono (rnd : ℚ → ℚ) {fuel fuel' : Nat} (hle : fuel ≤ fuel') (r0 r1 : Fin 7)
    (time : ℚ) (s : State) (out : State × List State)
    (h : update rnd fuel r0 r1 time s = some out) :
    update rnd fuel' r0 r1 time s = some out := by
  unfold update at h ⊢
  by_cases hg : (!s.playing) = true
  · rw [if_pos hg] at h ⊢; exact h
  · rw [if_neg hg] at h ⊢
    simp only at h ⊢
    rw [Option.map_eq_some'] at h ⊢
    obtain ⟨t, ht, h2⟩ := h
    refine ⟨t, ?_, h2⟩
    by_cases hp : (!s.paused) = true
    · rw [if_pos hp] at ht ⊢
      by_cases hgt : rnd (s.dropCounter + rnd (time - s.lastTime)) > (s.dropInterval : ℚ)
      · rw [if_pos hgt] at ht ⊢
        exact playerDrop_mono hle r0 r1 _ t ht
      · rw [if_neg hgt] at ht ⊢
        exact ht
    · rw [if_neg hp] at ht ⊢
      exact ht

theorem step_mono (rnd : ℚ → ℚ) {fuel fuel' : Nat} (hle : fuel ≤ fuel') (a : Action)
    (s s' : State) (h : step rnd fuel a s = some s') : step rnd fuel' a s = some s' := by
  cases a with
  | start r r1 => exact h
  | pause => exact h
  | move dir => exact h
  | rotate dir => exact playerRotate_mono hle dir s s' h
  | softDrop r0 r1 => exact playerDrop_mono hle r0 r1 s s' h
  | hardDrop r0 r1 => exact hardDrop_mono hle r0 r1 s s' h
  | tick time r0 r1 =>
    unfold step at h ⊢
    rw [Option.map_eq_some'] at h ⊢
    obtain ⟨out, hu, h2⟩ := h
    exact ⟨out, update_mono rnd hle r0 r1 time s out hu, h2⟩
  | difficulty d => exact h

/-! ## What `merge` and `arenaSweep` do to the rows -/

theorem setCell_forall (P : Int → Prop) {a a' : Matrix} {r c v : Int}
    (ha : ∀ row ∈ a, ∀ x ∈ row, P x) (hv : P v) (hs : setCell a r c v = some a') :
    ∀ row ∈ a', ∀ x ∈ row, P x := by
  unfold setCell at hs
  cases hrow : jsGet a r with
  | none => simp [hrow] at hs
  | some row =>
    simp only [hrow] at hs
    split at hs
    · cases hs
      obtain ⟨-, hget⟩ := (jsGet_eq_some a r row).1 hrow
      have hmem : row ∈ a := List.getElem?_mem hget
      intro row' hrow' x hx
      rcases List.mem_or_eq_of_mem_set hrow' with hin | heq
      · exact ha row' hin x hx
      · rw [heq] at hx
        rcases List.mem_or_eq_of_mem_set hx with hin | heq'
        · exact ha row hmem x hin
        · rw [heq']; exact hv
    · cases hs

theorem mergeRow_forall (P : Int → Prop) (ox oy : Int) (y : Nat) (row : List Int) (x : Nat)
    (a a' : Matrix) (ha : ∀ r ∈ a, ∀ c ∈ r, P c) (hrow : ∀ v ∈ row, P v)
    (hm : mergeRow ox oy y row x a = some a') : ∀ r ∈ a', ∀ c ∈ r, P c := by
  induction row generalizing x a with
  | nil => simp [mergeRow] at hm; subst hm; exact ha
  | cons v rest ih =>
    have hrest : ∀ u ∈ rest, P u := fun u hu => hrow u (by simp [hu])
    unfold mergeRow at hm
    split at hm
    · cases hs : setCell a ((y : Int) + oy) ((x : Int) + ox) v with
      | none => simp [hs] at hm
      | some a1 =>
        rw [hs] at hm
        exact ih (x + 1) a1 (setCell_forall P ha (hrow v (by simp)) hs) hrest hm
    · exact ih (x + 1) a ha hrest hm

theorem mergeRows_forall (P : Int → Prop) (ox oy : Int) (m : Matrix) (y : Nat)
    (a a' : Matrix) (ha : ∀ r ∈ a, ∀ c ∈ r, P c) (hpiece : ∀ r ∈ m, ∀ v ∈ r, P v)
    (hm : mergeRows ox oy m y a = some a') : ∀ r ∈ a', ∀ c ∈ r, P c := by
  induction m generalizing y a with
  | nil => simp [mergeRows] at hm; subst hm; exact ha
  | cons row rest ih =>
    unfold mergeRows at hm
    cases hs : mergeRow ox oy y row 0 a with
    | none => simp [hs] at hm
    | some a1 =>
      rw [hs] at hm
      exact ih (y + 1) a1
        (mergeRow_forall P ox oy y row 0 a a1 ha (hpiece row (by simp)) hs)
        (fun r hr => hpiece r (by simp [hr])) hm

/-- Every cell of the merged board satisfies a property that the cells of the board and of
the piece satisfy. -/
theorem merge_forall (P : Int → Prop) {arena m merged : Matrix} {ox oy : Int}
    (ha : ∀ r ∈ arena, ∀ c ∈ r, P c) (hpiece : ∀ r ∈ m, ∀ v ∈ r, P v)
    (hm : merge arena m ox oy = some merged) : ∀ r ∈ merged, ∀ c ∈ r, P c :=
  mergeRows_forall P ox oy m 0 arena merged ha hpiece hm

theorem setCell_getElem_ne {a a' : Matrix} {r c v : Int} (hs : setCell a r c v = some a')
    (i : Nat) (hi : (i : Int) ≠ r) : a'[i]? = a[i]? := by
  unfold setCell at hs
  cases hrow : jsGet a r with
  | none => simp [hrow] at hs
  | some row =>
    simp only [hrow] at hs
    split at hs
    · cases hs
      obtain ⟨hr0, -⟩ := (jsGet_eq_some a r row).1 hrow
      have : r.toNat ≠ i := by omega
      rw [List.getElem?_set_ne this]
    · cases hs

theorem mergeRow_getElem_ne (ox oy : Int) (y : Nat) (row : List Int) (x : Nat)
    (a a' : Matrix) (hm : mergeRow ox oy y row x a = some a')
    (i : Nat) (hi : (i : Int) ≠ (y : Int) + oy) : a'[i]? = a[i]? := by
  induction row generalizing x a with
  | nil => simp [mergeRow] at hm; subst hm; rfl
  | cons v rest ih =>
    unfold mergeRow at hm
    split at hm
    · cases hs : setCell a ((y : Int) + oy) ((x : Int) + ox) v with
      | none => simp [hs] at hm
      | some a1 =>
        rw [hs] at hm
        rw [ih (x + 1) a1 hm, setCell_getElem_ne hs i hi]
    · exact ih (x + 1) a hm

theorem mergeRows_getElem_out (ox oy : Int) (m : Matrix) (y : Nat)
    (a a' : Matrix) (hm : mergeRows ox oy m y a = some a')
    (i : Nat)
    (hi : (i : Int) < (y : Int) + oy ∨ (y : Int) + (m.length : Int) + oy ≤ (i : Int)) :
    a'[i]? = a[i]? := by
  induction m generalizing y a with
  | nil => simp [mergeRows] at hm; subst hm; rfl
  | cons row rest ih =>
    unfold mergeRows at hm
    cases hs : mergeRow ox oy y row 0 a with
    | none => simp [hs] at hm
    | some a1 =>
      rw [hs] at hm
      have hlen : ((row :: rest).length : Int) = (rest.length : Int) + 1 := by simp
      rw [hlen] at hi
      rw [ih (y + 1) a1 hm (by push_cast; omega),
        mergeRow_getElem_ne ox oy y row 0 a a1 hs i (by omega)]

theorem countP_window {α : Type} (p : α → Bool) :
    ∀ (l l' : List α) (lo n : Nat), l.length = l'.length →
      (∀ i : Nat, i < lo ∨ lo + n ≤ i → l'[i]? = l[i]?) →
      l'.countP p ≤ l.countP p + n
  | [], [], _, _, _, _ => by simp
  | [], _ :: _, _, _, h, _ => by simp at h
  | _ :: _, [], _, _, h, _ => by simp at h
  | a :: t, a' :: t', 0, 0, _, h => by
    have e : a' :: t' = a :: t := List.ext_getElem? (fun i => h i (Or.inr (by omega)))
    rw [e]; omega
  | a :: t, a' :: t', 0, n + 1, hl, h => by
    have ih := countP_window p t t' 0 n (by simpa using hl) (fun i hi => by
      have := h (i + 1) (by omega)
      simpa using this)
    rw [List.countP_cons, List.countP_cons]
    split <;> split <;> omega
  | a :: t, a' :: t', lo + 1, n, hl, h => by
    have h0 : a' = a := by
      have := h 0 (Or.inl (by omega))
      simpa using this
    have ih := countP_window p t t' lo n (by simpa using hl) (fun i hi => by
      have := h (i + 1) (by omega)
      simpa using this)
    rw [h0, List.countP_cons, List.countP_cons]
    omega

/-- A merge fills at most as many rows as the piece matrix has: the count of full rows grows
by at most the number of rows of the matrix. -/
theorem merge_countP_le {w h : Nat} {arena m merged : Matrix} {ox oy : Int}
    (hrect : Rect w h arena) (hm : merge arena m ox oy = some merged) :
    merged.countP isFull ≤ arena.countP isFull + m.length := by
  have hr2 := merge_rect hrect hm
  apply countP_window isFull arena merged oy.toNat m.length (by rw [hrect.1, hr2.1])
  intro i hi
  apply mergeRows_getElem_out ox oy m 0 arena merged hm i
  push_cast
  omega

theorem countP_eq_zero_of_noFull {arena : Matrix} (h : ∀ row ∈ arena, isFull row = false) :
    arena.countP isFull = 0 := by
  rw [List.countP_eq_zero]
  intro row hrow
  rw [h row hrow]
  decide

theorem isFull_replicate_zero (w : Nat) (hw : 1 ≤ w) :
    isFull (List.replicate w (0 : Int)) = false := by
  obtain ⟨k, rfl⟩ : ∃ k, w = k + 1 := ⟨w - 1, by omega⟩
  simp [isFull, List.replicate_succ]

/-- After the sweep no row is full, and the cells are zeros or cells of the board before. -/
theorem arenaSweep_clean {w h : Nat} (P : Int → Prop) (arena : Matrix) (hw : 1 ≤ w)
    (hrect : Rect w h arena) (fuel : Nat) (hfuel : 2 * h + 1 ≤ fuel)
    (hP : ∀ r ∈ arena, ∀ c ∈ r, P c) (h0 : P 0) :
    ∃ swept, arenaSweep fuel arena = some (swept, arena.countP isFull) ∧ Rect w h swept ∧
      (∀ row ∈ swept, isFull row = false) ∧ ∀ r ∈ swept, ∀ c ∈ r, P c := by
  obtain ⟨swept, hs, he, hr⟩ := arenaSweep_rect arena hw hrect fuel hfuel
  refine ⟨swept, hs, hr, ?_, ?_⟩
  · intro row hrow
    rw [he] at hrow
    rcases List.mem_append.1 hrow with h1 | h2
    · rw [(List.mem_replicate.1 h1).2]; exact isFull_replicate_zero w hw
    · have := (List.mem_filter.1 h2).2
      simpa using this
  · intro row hrow c hc
    rw [he] at hrow
    rcases List.mem_append.1 hrow with h1 | h2
    · rw [(List.mem_replicate.1 h1).2] at hc
      rw [(List.mem_replicate.1 hc).2]; exact h0
    · exact hP row (List.mem_of_mem_filter h2) c hc

/-! ## Rotation states of the catalog pieces -/

theorem mem_cells {m : Matrix} {row : List Int} {c : Int} (hrow : row ∈ m) (hc : c ∈ row) :
    ∃ i j, cellOf m i j = some c := by
  obtain ⟨i, hi⟩ := List.mem_iff_getElem?.1 hrow
  obtain ⟨j, hj⟩ := List.mem_iff_getElem?.1 hc
  refine ⟨i, j, ?_⟩
  unfold cellOf
  rw [hi]
  exact hj

theorem createPiece_cells (t : PieceType) :
    ∀ row ∈ createPiece t, ∀ c ∈ row, (0 : Int) ≤ c ∧ c ≤ 7 := by
  cases t <;> decide

theorem createPiece_nonzero (t : PieceType) :
    ∃ r c v, cellOf (createPiece t) r c = some v ∧ v ≠ 0 := by
  cases t
  · exact ⟨1, 0, 1, by decide, by decide⟩
  · exact ⟨0, 0, 2, by decide, by decide⟩
  · exact ⟨0, 1, 3, by decide, by decide⟩
  · exact ⟨0, 1, 4, by decide, by decide⟩
  · exact ⟨0, 1, 5, by decide, by decide⟩
  · exact ⟨0, 1, 6, by decide, by decide⟩
  · exact ⟨0, 0, 7, by decide, by decide⟩

/-- A catalog piece in any rotation state is a square matrix of side 2, 3 or 4 with cells in
`0 .. 7`, one of them non-zero. -/
theorem rotationOf_facts (t : PieceType) (m : Matrix) (h : RotationOf t m) :
    ∃ n, 2 ≤ n ∧ n ≤ 4 ∧ Square n m ∧
      (∀ i j v, cellOf m i j = some v → 0 ≤ v ∧ v ≤ 7) ∧
      ∃ r c v, cellOf m r c = some v ∧ v ≠ 0 := by
  induction h with
  | base =>
    obtain ⟨n, row, h2, h4, hsq, -, -⟩ := createPiece_square t
    refine ⟨n, h2, h4, hsq, ?_, createPiece_nonzero t⟩
    intro i j v hc
    unfold cellOf at hc
    cases hrow : (createPiece t)[i]? with
    | none => rw [hrow] at hc; cases hc
    | some row =>
      rw [hrow] at hc
      exact createPiece_cells t row (List.getElem?_mem hrow) v (List.getElem?_mem hc)
  | turn m m' dir _ hrot ih =>
    obtain ⟨n, h2, h4, hsq, hcells, r, c, v, hc, hv⟩ := ih
    obtain ⟨m2, hr, hsq', hspec⟩ := rotate_spec hsq dir
    rw [hrot] at hr
    cases hr
    refine ⟨n, h2, h4, hsq', ?_, ?_⟩
    · intro i j u hu
      obtain ⟨hi, hj⟩ := cellOf_lt_of_square hsq' hu
      rw [hspec i j hi hj] at hu
      split at hu
      · exact hcells _ _ u hu
      · exact hcells _ _ u hu
    · obtain ⟨hr', hc'⟩ := cellOf_lt_of_square hsq hc
      by_cases hd : dir > 0
      · refine ⟨c, n - 1 - r, v, ?_, hv⟩
        rw [hspec c (n - 1 - r) hc' (by omega), if_pos hd]
        have e : n - 1 - (n - 1 - r) = r := by omega
        rw [e]; exact hc
      · refine ⟨n - 1 - c, r, v, ?_, hv⟩
        rw [hspec (n - 1 - c) r (by omega) hr', if_neg hd]
        have e : n - 1 - (n - 1 - c) = c := by omega
        rw [e]; exact hc

theorem rotationOf_cells (t : PieceType) (m : Matrix) (h : RotationOf t m) :
    ∀ row ∈ m, ∀ c ∈ row, (0 : Int) ≤ c ∧ c ≤ 7 := by
  obtain ⟨n, -, -, -, hcells, -⟩ := rotationOf_facts t m h
  intro row hrow c hc
  obtain ⟨i, j, hij⟩ := mem_cells hrow hc
  exact hcells i j c hij

/-! ## The invariant through the actions -/

theorem Inv.transfer {s s' : State} (hinv : Inv s) (ha : s'.arena = s.arena)
    (hm : s'.matrix = s.matrix) (hn : s'.nextPiece = s.nextPiece) (hl : s'.level = s.level)
    (hli : s'.lines = s.lines)
    (hfree : collide s'.arena s'.matrix s'.posX s'.posY = false) : Inv s' where
  rect := by rw [ha]; exact hinv.rect
  cells := by rw [ha]; exact hinv.cells
  noFull := by rw [ha]; exact hinv.noFull
  piece := by rw [hm]; exact hinv.piece
  next := fun p hp => hinv.next p (by rw [← hn]; exact hp)
  level := by rw [hl, hli]; exact hinv.level
  lines := by rw [hli]; exact hinv.lines
  free := hfree

theorem Inv.same {s s' : State} (hinv : Inv s) (ha : s'.arena = s.arena)
    (hm : s'.matrix = s.matrix) (hn : s'.nextPiece = s.nextPiece) (hl : s'.level = s.level)
    (hli : s'.lines = s.lines) (hx : s'.posX = s.posX) (hy : s'.posY = s.posY) : Inv s' :=
  hinv.transfer ha hm hn hl hli (by rw [ha, hm, hx, hy]; exact hinv.free)

theorem createMatrix_rect (w h : Nat) : Rect w h (createMatrix w h) :=
  ⟨by simp [createMatrix], fun row hr => by
    unfold createMatrix at hr
    rw [(List.mem_replicate.1 hr).2, List.length_replicate]⟩

theorem createMatrix_noFull (w h : Nat) (hw : 1 ≤ w) :
    ∀ row ∈ createMatrix w h, isFull row = false := by
  intro row hr
  unfold createMatrix at hr
  rw [(List.mem_replicate.1 hr).2]
  exact isFull_replicate_zero w hw

/-- The spawn keeps the invariant: from a 12 x 20 board without full rows, with a catalog
piece queued and the level derived from the lines, `playerReset` leads to a state that
satisfies the invariant, whichever branch it takes. -/
theorem playerReset_inv (r0 r1 : Fin 7) (s s' : State) (hrect : Rect 12 20 s.arena)
    (hcells : ∀ row ∈ s.arena, ∀ c ∈ row, 0 ≤ c ∧ c ≤ 7)
    (hnoFull : ∀ row ∈ s.arena, isFull row = false) (hnext : NextQueued s)
    (hlevel : s.level = s.lines / 10 + 1) (hlines : 0 ≤ s.lines)
    (h : playerReset r0 r1 s = some s') : Inv s' := by
  have hq : ∃ t, (match s.nextPiece with
      | none => randomPiece r0
      | some p => p) = createPiece t := by
    cases hn : s.nextPiece with
    | none => exact randomPiece_catalog r0
    | some p => exact hnext p hn
  obtain ⟨t, hq⟩ := hq
  obtain ⟨n, row, hn2, hn4, hsq, hhead, hlen⟩ := createPiece_square t
  have hah : s.arena.head? = some (s.arena.headD []) ∧ (s.arena.headD []).length = 12 := by
    cases hs : s.arena with
    | nil => rw [hs] at hrect; have := hrect.1; simp at this
    | cons a rest => exact ⟨rfl, hrect.2 a (by rw [hs]; simp)⟩
  have hnq : NextQueued
      ({ s with nextPiece := some (randomPiece r1) } : State) := by
    intro p hp
    cases hp
    exact randomPiece_catalog r1
  unfold playerReset at h
  simp only [hq, hah.1, hhead, hah.2, hlen] at h
  split at h
  · cases h
    have hz := zeroed_eq_createMatrix hrect
    exact
      { rect := by rw [hz]; exact createMatrix_rect 12 20
        cells := by
          intro r hr c hc
          rw [hz] at hr
          rw [createMatrix_zero 12 20 r hr c hc]
          decide
        noFull := by rw [hz]; exact createMatrix_noFull 12 20 (by decide)
        piece := ⟨t, RotationOf.base⟩
        next := hnq
        level := hlevel
        lines := hlines
        free := by
          show collide (List.map _ s.arena) (createPiece t) _ 0 = false
          rw [hz]
          exact spawn_free 12 20 n _ hsq (by omega) (by omega) }
  · rename_i hc
    cases h
    exact
      { rect := hrect
        cells := hcells
        noFull := hnoFull
        piece := ⟨t, RotationOf.base⟩
        next := hnq
        level := hlevel
        lines := hlines
        free := by simpa using hc }

/-- The lock sequence from a state that satisfies the invariant (the piece rests at its
position): the merge returns, at most 4 rows are full after it, the sweep and the lock return
for fuel 41 or more, the line count grows by the number of full rows, the score by the table
entry times the level, and the state after the lock satisfies the invariant again. -/
theorem lockPiece_inv (fuel : Nat) (r0 r1 : Fin 7) (s : State) (hinv : Inv s)
    (hfuel : 41 ≤ fuel) :
    ∃ merged swept s', merge s.arena s.matrix s.posX s.posY = some merged ∧
      arenaSweep fuel merged = some (swept, merged.countP isFull) ∧
      merged.countP isFull ≤ 4 ∧
      lockPiece fuel r0 r1 s = some s' ∧ Inv s' ∧
      s'.lines = s.lines + (merged.countP isFull : Int) ∧
      s'.score = s.score +
        (if merged.countP isFull > 0 then
          lineScoreBase.getD (merged.countP isFull) 0 * s.level else 0) := by
  obtain ⟨t, hrot⟩ := hinv.piece
  obtain ⟨n, -, hn4, hsq, -, -⟩ := rotationOf_facts t s.matrix hrot
  obtain ⟨merged, s', hmerge, hlock, hlines, hscore, -, -, -⟩ :=
    lockPiece_spec fuel r0 r1 s (w := 12) (h := 20) (by decide) (by decide) hinv.rect
      hinv.next hinv.free (by omega)
  have hrm : Rect 12 20 merged := merge_rect hinv.rect hmerge
  have hcm : ∀ r ∈ merged, ∀ c ∈ r, (0 : Int) ≤ c ∧ c ≤ 7 :=
    merge_forall (fun c => (0 : Int) ≤ c ∧ c ≤ 7) hinv.cells
      (rotationOf_cells t s.matrix hrot) hmerge
  have hcount : merged.countP isFull ≤ 4 := by
    have h1 := merge_countP_le hinv.rect hmerge
    rw [countP_eq_zero_of_noFull hinv.noFull, hsq.1] at h1
    omega
  obtain ⟨swept, hsweep, hrs, hnf, hcs⟩ :=
    arenaSweep_clean (fun c => (0 : Int) ≤ c ∧ c ≤ 7) merged (by decide) hrm fuel
      (by omega) hcm (by decide)
  have key : ∀ s2 : State, s2.arena = swept → s2.nextPiece = s.nextPiece →
      s2.level = s2.lines / 10 + 1 → 0 ≤ s2.lines →
      ∀ s3, playerReset r0 r1 s2 = some s3 → Inv s3 := by
    intro s2 ha hq hl hli s3 hs3
    exact playerReset_inv r0 r1 s2 s3 (by rw [ha]; exact hrs) (by rw [ha]; exact hcs)
      (by rw [ha]; exact hnf) (fun p hp => hinv.next p (by rw [← hq]; exact hp)) hl hli hs3
  refine ⟨merged, swept, s', hmerge, hsweep, hcount, hlock, ?_, hlines, hscore⟩
  have hlock' := hlock
  unfold lockPiece at hlock'
  simp only [hmerge, Option.some_bind, hsweep] at hlock'
  have hl0 := hinv.lines
  by_cases hn : merged.countP isFull > 0
  · simp only [hn, if_true] at hlock'
    by_cases hlv : (s.lines + (merged.countP isFull : Int)) / 10 + 1 > s.level
    · simp only [hlv, if_true] at hlock'
      refine key _ ?_ ?_ ?_ ?_ s' hlock'
      · rfl
      · rfl
      · rfl
      · show 0 ≤ s.lines + (merged.countP isFull : Int)
        omega
    · simp only [hlv, if_false] at hlock'
      refine key _ ?_ ?_ ?_ ?_ s' hlock'
      · rfl
      · rfl
      · rfl
      · show 0 ≤ s.lines + (merged.countP isFull : Int)
        omega
  · simp only [hn, if_false] at hlock'
    refine key _ ?_ ?_ ?_ ?_ s' hlock'
    · rfl
    · rfl
    · exact hinv.level
    · exact hl0

theorem playerMove_inv (dir : Int) (s : State) (hinv : Inv s) : Inv (playerMove dir s) := by
  unfold playerMove
  by_cases hg : (!s.playing || s.paused) = true
  · rw [if_pos hg]; exact hinv
  · rw [if_neg hg]
    by_cases hc : collide s.arena s.matrix (s.posX + dir) s.posY = true
    · simp only [hc, if_true]
      exact hinv.transfer rfl rfl rfl rfl rfl (by
        show collide s.arena s.matrix (s.posX + dir - dir) s.posY = false
        have e : s.posX + dir - dir = s.posX := by ring
        rw [e]; exact hinv.free)
    · simp only [hc, if_false]
      exact hinv.transfer rfl rfl rfl rfl rfl (by simpa using hc)

/-- The outcome of `playerRotate` while Running on a square matrix of side `n`, for `dir`
equal to `1` or `-1` and fuel `n + 1` or more. -/
theorem playerRotate_outcome (fuel : Nat) (dir : Int) (s : State) (n : Nat)
    (hplay : s.playing = true) (hpause : s.paused = false) (hsq : Square n s.matrix)
    (hdir : dir = 1 ∨ dir = -1) (hfuel : n + 1 ≤ fuel) :
    ∃ rotated, rotate s.matrix dir = some rotated ∧
      ((∃ x, collide s.arena rotated x s.posY = false ∧
          playerRotate fuel dir s = some { s with matrix := rotated, posX := x }) ∨
        playerRotate fuel dir s = some { s with matrix := s.matrix, posX := s.posX }) := by
  obtain ⟨rotated, hrot, hsq', -⟩ := rotate_spec hsq dir
  have hback : rotate rotated (-dir) = some s.matrix := rotate_back hsq (by omega) hrot
  obtain ⟨out, hout, hprop⟩ :=
    kickLoop_spec s.arena rotated s.posY s.posX n hsq' fuel 0 (by omega) (by omega)
  have e0 : s.posX + kickPos 0 = s.posX := by simp [kickPos]
  have e1 : kickOffset (0 + 1) = 1 := by decide
  rw [e0, e1] at hout
  refine ⟨rotated, hrot, ?_⟩
  unfold playerRotate
  simp only [running_guard s hplay hpause, Bool.false_eq_true, if_false, hrot,
    Option.some_bind, hout]
  cases out with
  | some x => exact Or.inl ⟨x, hprop, rfl⟩
  | none =>
    simp only [hback, Option.map_some']
    exact Or.inr trivial

theorem playerRotate_inv (fuel : Nat) (dir : Int) (s s' : State) (hinv : Inv s)
    (hdir : dir = 1 ∨ dir = -1) (h : playerRotate fuel dir s = some s') : Inv s' := by
  by_cases hg : (!s.playing || s.paused) = true
  · unfold playerRotate at h
    rw [if_pos hg] at h
    cases h
    exact hinv
  · have hplay : s.playing = true := by
      cases hp : s.playing <;> simp [hp] at hg ⊢
    have hpause : s.paused = false := by
      cases hp : s.paused <;> simp [hp] at hg ⊢
    obtain ⟨t, hrot⟩ := hinv.piece
    obtain ⟨n, -, hn4, hsq, -, -⟩ := rotationOf_facts t s.matrix hrot
    have hbig := playerRotate_mono (le_max_left fuel 5) dir s s' h
    obtain ⟨rotated, hr, hout⟩ :=
      playerRotate_outcome (max fuel 5) dir s n hplay hpause hsq hdir
        (by have := le_max_right fuel 5; omega)
    rcases hout with ⟨x, hfree, hres⟩ | hres
    · rw [hres] at hbig
      cases hbig
      exact
        { rect := hinv.rect
          cells := hinv.cells
          noFull := hinv.noFull
          piece := ⟨t, RotationOf.turn s.matrix rotated dir hrot hr⟩
          next := hinv.next
          level := hinv.level
          lines := hinv.lines
          free := hfree }
    · rw [hres] at hbig
      cases hbig
      exact hinv.same rfl rfl rfl rfl rfl rfl rfl

theorem running_of_guard (s : State) (hg : ¬ (!s.playing || s.paused) = true) :
    s.playing = true ∧ s.paused = false := by
  cases hp : s.playing <;> cases hq : s.paused <;> simp [hp, hq] at hg ⊢

/-- A hard drop from a Running state that satisfies the invariant, with fuel 41 or more: the
piece comes to rest `k` rows down, at most 4 rows are full after the merge, and the state
after the lock satisfies the invariant. -/
theorem hardDrop_lock_inv (fuel : Nat) (r0 r1 : Fin 7) (s : State) (hinv : Inv s)
    (hplay : s.playing = true) (hpause : s.paused = false) (hfuel : 41 ≤ fuel) :
    ∃ (k : Nat) (merged swept : Matrix) (s' : State),
      (∀ j : Nat, j ≤ k → collide s.arena s.matrix s.posX (s.posY + (j : Int)) = false) ∧
      collide s.arena s.matrix s.posX (s.posY + (k : Int) + 1) = true ∧
      merge s.arena s.matrix s.posX (s.posY + (k : Int)) = some merged ∧
      arenaSweep fuel merged = some (swept, merged.countP isFull) ∧
      merged.countP isFull ≤ 4 ∧
      hardDrop fuel r0 r1 s = some s' ∧ Inv s' ∧
      s'.lines = s.lines + (merged.countP isFull : Int) ∧
      s'.score = s.score + 2 * (k : Int) +
        (if merged.countP isFull > 0 then
          lineScoreBase.getD (merged.countP isFull) 0 * s.level else 0) := by
  obtain ⟨t, hrot⟩ := hinv.piece
  obtain ⟨n, -, -, -, -, hcell⟩ := rotationOf_facts t s.matrix hrot
  obtain ⟨k, hk, hclear, hland⟩ :=
    landing_exists s.arena s.matrix s.posX s.posY hcell hinv.free
  rw [hinv.rect.1] at hk
  have hinv0 : Inv ({ s with posY := s.posY + (k : Int),
                             score := s.score + 2 * (k : Int) } : State) :=
    hinv.transfer rfl rfl rfl rfl rfl (hclear k (le_refl k))
  obtain ⟨merged, swept, s1, hmerge, hsweep, hcount, hlock, hinv1, hlines, hscore⟩ :=
    lockPiece_inv fuel r0 r1 _ hinv0 hfuel
  refine ⟨k, merged, swept, { s1 with dropCounter := 0 }, hclear, hland, hmerge, hsweep,
    hcount, ?_, hinv1.same rfl rfl rfl rfl rfl rfl rfl, hlines, hscore⟩
  rw [hardDrop_eq fuel r0 r1 s k hplay hpause hclear hland (by omega), hlock]
  rfl

/-- A soft drop whose probe collides, from a Running state that satisfies the invariant,
with fuel 41 or more: at most 4 rows are full after the merge, and the state after the lock
satisfies the invariant. -/
theorem playerDrop_lock_inv (fuel : Nat) (r0 r1 : Fin 7) (s : State) (hinv : Inv s)
    (hplay : s.playing = true) (hpause : s.paused = false)
    (hland : collide s.arena s.matrix s.posX (s.posY + 1) = true) (hfuel : 41 ≤ fuel) :
    ∃ (merged swept : Matrix) (s' : State),
      merge s.arena s.matrix s.posX s.posY = some merged ∧
      arenaSweep fuel merged = some (swept, merged.countP isFull) ∧
      merged.countP isFull ≤ 4 ∧
      playerDrop fuel r0 r1 s = some s' ∧ Inv s' ∧
      s'.lines = s.lines + (merged.countP isFull : Int) ∧
      s'.score = s.score +
        (if merged.countP isFull > 0 then
          lineScoreBase.getD (merged.countP isFull) 0 * s.level else 0) := by
  obtain ⟨merged, swept, s1, hmerge, hsweep, hcount, hlock, hinv1, hlines, hscore⟩ :=
    lockPiece_inv fuel r0 r1 s hinv hfuel
  refine ⟨merged, swept, { s1 with dropCounter := 0 }, hmerge, hsweep, hcount, ?_,
    hinv1.same rfl rfl rfl rfl rfl rfl rfl, hlines, hscore⟩
  rw [playerDrop_lock_eq fuel r0 r1 s hplay hpause hland, hlock]
  rfl

theorem playerDrop_inv (fuel : Nat) (r0 r1 : Fin 7) (s s' : State) (hinv : Inv s)
    (h : playerDrop fuel r0 r1 s = some s') : Inv s' := by
  by_cases hg : (!s.playing || s.paused) = true
  · unfold playerDrop at h
    rw [if_pos hg] at h
    cases h
    exact hinv
  · obtain ⟨hplay, hpause⟩ := running_of_guard s hg
    by_cases hland : collide s.arena s.matrix s.posX (s.posY + 1) = true
    · have hbig := playerDrop_mono (le_max_right 41 fuel) r0 r1 s s' h
      obtain ⟨-, -, s1, -, -, -, hs1, hinv1, -, -⟩ :=
        playerDrop_lock_inv (max 41 fuel) r0 r1 s hinv hplay hpause hland (le_max_left 41 fuel)
      rw [hs1] at hbig
      cases hbig
      exact hinv1
    · unfold playerDrop at h
      rw [if_neg hg] at h
      simp only [hland, if_false, Bool.false_eq_true] at h
      cases h
      exact hinv.transfer rfl rfl rfl rfl rfl (by simpa using hland)

theorem hardDrop_inv (fuel : Nat) (r0 r1 : Fin 7) (s s' : State) (hinv : Inv s)
    (h : hardDrop fuel r0 r1 s = some s') : Inv s' := by
  by_cases hg : (!s.playing || s.paused) = true
  · unfold hardDrop at h
    rw [if_pos hg] at h
    cases h
    exact hinv
  · obtain ⟨hplay, hpause⟩ := running_of_guard s hg
    have hbig := hardDrop_mono (le_max_right 41 fuel) r0 r1 s s' h
    obtain ⟨-, -, -, s1, -, -, -, -, -, hs1, hinv1, -, -⟩ :=
      hardDrop_lock_inv (max 41 fuel) r0 r1 s hinv hplay hpause (le_max_left 41 fuel)
    rw [hs1] at hbig
    cases hbig
    exact hinv1

theorem update_inv (rnd : ℚ → ℚ) (fuel : Nat) (r0 r1 : Fin 7) (time : ℚ) (s : State)
    (out : State × List State) (hinv : Inv s)
    (h : update rnd fuel r0 r1 time s = some out) :
    Inv out.1 := by
  unfold update at h
  by_cases hg : (!s.playing) = true
  · rw [if_pos hg] at h
    cases h
    exact hinv.same rfl rfl rfl rfl rfl rfl rfl
  · rw [if_neg hg] at h
    simp only at h
    rw [Option.map_eq_some'] at h
    obtain ⟨t, ht, rfl⟩ := h
    by_cases hp : (!s.paused) = true
    · rw [if_pos hp] at ht
      have hinv1 : Inv ({ s with lastTime := time,
                                 dropCounter := rnd (s.dropCounter + rnd (time - s.lastTime)) } : State) :=
        hinv.same rfl rfl rfl rfl rfl rfl rfl
      by_cases hgt : rnd (s.dropCounter + rnd (time - s.lastTime)) > (s.dropInterval : ℚ)
      · rw [if_pos hgt] at ht
        exact playerDrop_inv fuel r0 r1 _ t hinv1 ht
      · rw [if_neg hgt] at ht
        cases ht
        exact hinv1
    · rw [if_neg hp] at ht
      cases ht
      exact hinv.same rfl rfl rfl rfl rfl rfl rfl

theorem start_inv (r r1 : Fin 7) (s s' : State) (hinv : Inv s)
    (h : start r r1 s = some s') : Inv s' := by
  obtain ⟨s1, t, row, hs, -, -, ha, hm, hn, -, -, -, hli, hl, -, -, hfree⟩ :=
    start_spec r r1 s 12 20 (by decide) (by decide) hinv.rect
  rw [hs] at h
  cases h
  exact
    { rect := by rw [ha]; exact createMatrix_rect 12 20
      cells := by
        intro r hr c hc
        rw [ha] at hr
        rw [createMatrix_zero 12 20 r hr c hc]
        decide
      noFull := by rw [ha]; exact createMatrix_noFull 12 20 (by decide)
      piece := ⟨t, by rw [hm]; exact RotationOf.base⟩
      next := by
        intro p hp
        rw [hn] at hp
        cases hp
        exact randomPiece_catalog r1
      level := by rw [hl, hli]; decide
      lines := by rw [hli]
      free := hfree }

theorem initialState_inv (d : Difficulty) (r r1 : Fin 7) (s : State)
    (h : initialState d r r1 = some s) : Inv s := by
  unfold initialState at h
  rw [Option.map_eq_some'] at h
  obtain ⟨s0, hs0, rfl⟩ := h
  have hinv0 : Inv s0 := by
    refine playerReset_inv r r1 _ s0 ?_ ?_ ?_ ?_ ?_ ?_ hs0
    · exact createMatrix_rect 12 20
    · intro row hr c hc
      rw [createMatrix_zero 12 20 row hr c hc]
      decide
    · exact createMatrix_noFull 12 20 (by decide)
    · intro p hp
      cases hp
      exact randomPiece_catalog r
    · show (1 : Int) = 0 / 10 + 1
      decide
    · show (0 : Int) ≤ 0
      decide
  exact hinv0.same rfl rfl rfl rfl rfl rfl rfl

/-- Every handled input keeps the invariant. -/
theorem step_inv (rnd : ℚ → ℚ) (fuel : Nat) (a : Action) (s s' : State) (hinv : Inv s)
    (ha : a.Valid) (h : step rnd fuel a s = some s') : Inv s' := by
  cases a with
  | start r r1 => exact start_inv r r1 s s' hinv h
  | pause =>
    simp only [step, Option.some.injEq] at h
    subst h
    unfold togglePause
    split
    · exact hinv.same rfl rfl rfl rfl rfl rfl rfl
    · exact hinv
  | move dir =>
    simp only [step, Option.some.injEq] at h
    subst h
    exact playerMove_inv dir s hinv
  | rotate dir => exact playerRotate_inv fuel dir s s' hinv ha h
  | softDrop r0 r1 => exact playerDrop_inv fuel r0 r1 s s' hinv h
  | hardDrop r0 r1 => exact hardDrop_inv fuel r0 r1 s s' hinv h
  | tick time r0 r1 =>
    simp only [step] at h
    rw [Option.map_eq_some'] at h
    obtain ⟨out, hu, rfl⟩ := h
    exact update_inv rnd fuel r0 r1 time s out hinv hu
  | difficulty d =>
    simp only [step, Option.some.injEq] at h
    subst h
    exact hinv.same rfl rfl rfl rfl rfl rfl rfl

/-- Every reachable state satisfies the invariant. -/
theorem reachable_inv (s : State) (h : Reachable s) : Inv s := by
  induction h with
  | init d r r1 s hs => exact initialState_inv d r r1 s hs
  | step rnd fuel a s s' _ ha hstep ih => exact step_inv rnd fuel a s s' ih ha hstep

/-- In a state that satisfies the invariant every valid input is handled: with fuel 41 or more
no loop runs out of fuel and nothing throws. -/
theorem step_total (rnd : ℚ → ℚ) (fuel : Nat) (a : Action) (s : State) (hinv : Inv s)
    (ha : a.Valid) (hfuel : 41 ≤ fuel) : ∃ s', step rnd fuel a s = some s' := by
  cases a with
  | start r r1 =>
    obtain ⟨s', -, -, hs, -⟩ := start_spec r r1 s 12 20 (by decide) (by decide) hinv.rect
    exact ⟨s', hs⟩
  | pause => exact ⟨_, rfl⟩
  | move dir => exact ⟨_, rfl⟩
  | difficulty d => exact ⟨_, rfl⟩
  | rotate dir =>
    by_cases hg : (!s.playing || s.paused) = true
    · refine ⟨s, ?_⟩
      show playerRotate fuel dir s = some s
      unfold playerRotate
      rw [if_pos hg]
    · obtain ⟨hplay, hpause⟩ := running_of_guard s hg
      obtain ⟨t, hrot⟩ := hinv.piece
      obtain ⟨n, -, hn4, hsq, -, -⟩ := rotationOf_facts t s.matrix hrot
      obtain ⟨rotated, -, hout⟩ :=
        playerRotate_outcome fuel dir s n hplay hpause hsq ha (by omega)
      rcases hout with ⟨x, -, hres⟩ | hres
      · exact ⟨_, hres⟩
      · exact ⟨_, hres⟩
  | softDrop r0 r1 =>
    by_cases hg : (!s.playing || s.paused) = true
    · refine ⟨s, ?_⟩
      show playerDrop fuel r0 r1 s = some s
      unfold playerDrop
      rw [if_pos hg]
    · obtain ⟨hplay, hpause⟩ := running_of_guard s hg
      obtain ⟨s', hs', -, -⟩ := playerDrop_total fuel r0 r1 s hinv.rect hinv.next hplay hpause
        hinv.free (by omega)
      exact ⟨s', hs'⟩
  | hardDrop r0 r1 =>
    by_cases hg : (!s.playing || s.paused) = true
    · refine ⟨s, ?_⟩
      show hardDrop fuel r0 r1 s = some s
      unfold hardDrop
      rw [if_pos hg]
    · obtain ⟨hplay, hpause⟩ := running_of_guard s hg
      obtain ⟨-, -, -, s', -, -, -, -, -, hs', -, -, -⟩ :=
        hardDrop_lock_inv fuel r0 r1 s hinv hplay hpause hfuel
      exact ⟨s', hs'⟩
  | tick time r0 r1 =>
    show ∃ s', (update rnd fuel r0 r1 time s).map Prod.fst = some s'
    unfold update
    by_cases hg : (!s.playing) = true
    · rw [if_pos hg]; exact ⟨_, rfl⟩
    · rw [if_neg hg]
      by_cases hp : (!s.paused) = true
      · simp only [hp, if_true]
        by_cases hgt : rnd (s.dropCounter + rnd (time - s.lastTime)) > (s.dropInterval : ℚ)
        · simp only [hgt, if_true]
          have hplay : s.playing = true := by
            cases hq : s.playing <;> simp [hq] at hg ⊢
          have hpause : s.paused = false := by
            cases hq : s.paused <;> simp [hq] at hp ⊢
          obtain ⟨s', hs', -, -⟩ := playerDrop_total fuel r0 r1
            ({ s with lastTime := time,
                      dropCounter := rnd (s.dropCounter + rnd (time - s.lastTime)) } : State)
            hinv.rect hinv.next hplay hpause hinv.free (by omega)
          rw [hs']
          exact ⟨_, rfl⟩
        · simp only [hgt, if_false]
          exact ⟨_, rfl⟩
      · simp only [hp, if_false]
        exact ⟨_, rfl⟩

/-- The script reaches its initial state, whatever the selector shows and whatever is
drawn. -/
theorem initialState_total (d : Difficulty) (r r1 : Fin 7) :
    ∃ s, initialState d r r1 = some s := by
  obtain ⟨t, ht⟩ := randomPiece_catalog r
  obtain ⟨row, -, -, hreset⟩ := playerReset_fresh r r1
    ({ arena := createMatrix 12 20, posX := 0, posY := 0, matrix := [], score := 0, lines := 0,
       level := 1, nextPiece := some (randomPiece r), dropCounter := 0, dropInterval := 1000,
       lastTime := 0, playing := false, paused := false, difficulty := d } : State)
    12 20 (by decide) (by decide) rfl t (by rw [← ht])
  unfold initialState
  rw [hreset]
  exact ⟨_, rfl⟩

/-! ## Reachable states -/

theorem initExample_reachable : Reachable initExample :=
  Reachable.init .normal 0 0 initExample rfl

theorem runningExample_reachable : Reachable runningExample :=
  Reachable.step roundDouble 0 (.start 0 0) initExample runningExample initExample_reachable
    trivial rfl

/-- C12: in every state reachable from the initial state by start, pause, move, rotate,
soft-drop, hard-drop (and difficulty changes) and scheduler ticks, the level is
`floor(lines / 10) + 1`, with `lines ≥ 0` and `level ≥ 1`. -/
theorem level_from_lines (s : State) (h : Reachable s) :
    s.level = Int.floor ((s.lines : ℚ) / 10) + 1 ∧ s.level = s.lines / 10 + 1 ∧
      0 ≤ s.lines ∧ 1 ≤ s.level := by
  have hinv := reachable_inv s h
  have hl := hinv.level
  have h0 := hinv.lines
  have hfloor : Int.floor ((s.lines : ℚ) / 10) = s.lines / 10 := by
    have := Rat.floor_intCast_div_natCast s.lines 10
    simpa using this
  refine ⟨by rw [hfloor]; exact hl, hl, h0, ?_⟩
  omega

/-- Witness for C12: the state after the first start. -/
theorem level_from_lines_witness :
    runningExample.level = Int.floor ((runningExample.lines : ℚ) / 10) + 1 ∧
      runningExample.level = runningExample.lines / 10 + 1 ∧
      0 ≤ runningExample.lines ∧ 1 ≤ runningExample.level :=
  level_from_lines runningExample runningExample_reachable

/-- C13: in every reachable Running state a lock raises the level by exactly 1 when the line
count crosses a multiple of 10 and leaves it unchanged otherwise, so never by 2 or more.
This holds for `hardDrop` and for a `playerDrop` whose probe collides (fuel 41 or more). -/
theorem level_steps_by_one (s : State) (h : Reachable s) (hplay : s.playing = true)
    (hpause : s.paused = false) (fuel : Nat) (hfuel : 41 ≤ fuel) (r0 r1 : Fin 7) :
    (∃ s', hardDrop fuel r0 r1 s = some s' ∧
      (s.lines / 10 < s'.lines / 10 → s'.level = s.level + 1) ∧
      (s'.lines / 10 = s.lines / 10 → s'.level = s.level) ∧
      s.level ≤ s'.level ∧ s'.level ≤ s.level + 1) ∧
    (collide s.arena s.matrix s.posX (s.posY + 1) = true →
      ∃ s', playerDrop fuel r0 r1 s = some s' ∧
        (s.lines / 10 < s'.lines / 10 → s'.level = s.level + 1) ∧
        (s'.lines / 10 = s.lines / 10 → s'.level = s.level) ∧
        s.level ≤ s'.level ∧ s'.level ≤ s.level + 1) := by
  have hinv := reachable_inv s h
  have hl := hinv.level
  constructor
  · obtain ⟨k, merged, swept, s', -, -, -, -, hcount, hs', hinv', hlines, -⟩ :=
      hardDrop_lock_inv fuel r0 r1 s hinv hplay hpause hfuel
    have hl' := hinv'.level
    refine ⟨s', hs', ?_, ?_, ?_, ?_⟩ <;> omega
  · intro hland
    obtain ⟨merged, swept, s', -, -, hcount, hs', hinv', hlines, -⟩ :=
      playerDrop_lock_inv fuel r0 r1 s hinv hplay hpause hland hfuel
    have hl' := hinv'.level
    refine ⟨s', hs', ?_, ?_, ?_, ?_⟩ <;> omega

/-- Witness for C13: a lock out of the state after the first start. -/
theorem level_steps_by_one_witness :
    (∃ s', hardDrop 41 1 2 runningExample = some s' ∧
      (runningExample.lines / 10 < s'.lines / 10 → s'.level = runningExample.level + 1) ∧
      (s'.lines / 10 = runningExample.lines / 10 → s'.level = runningExample.level) ∧
      runningExample.level ≤ s'.level ∧ s'.level ≤ runningExample.level + 1) ∧
    (collide runningExample.arena runningExample.matrix runningExample.posX
        (runningExample.posY + 1) = true →
      ∃ s', playerDrop 41 1 2 runningExample = some s' ∧
        (runningExample.lines / 10 < s'.lines / 10 → s'.level = runningExample.level + 1) ∧
        (s'.lines / 10 = runningExample.lines / 10 → s'.level = runningExample.level) ∧
        runningExample.level ≤ s'.level ∧ s'.level ≤ runningExample.level + 1) :=
  level_steps_by_one runningExample runningExample_reachable rfl rfl 41 (by decide) 1 2

/-- C19: in every reachable state the board has exactly 20 rows of exactly 12 cells with every
cell in `0 .. 7`, and whenever `playing` is true the active piece does not collide with the
board: each of its non-zero cells lies on an in-bounds board cell that holds `0`, so the
merge at that position returns. -/
theorem reachable_board_and_piece (s : State) (h : Reachable s) :
    s.arena.length = 20 ∧ (∀ row ∈ s.arena, row.length = 12) ∧
      (∀ row ∈ s.arena, ∀ c ∈ row, 0 ≤ c ∧ c ≤ 7) ∧
      (s.playing = true →
        collide s.arena s.matrix s.posX s.posY = false ∧
        (∀ y x v, cellOf s.matrix y x = some v → v ≠ 0 →
          InBounds s.arena ((y : Int) + s.posY) ((x : Int) + s.posX) ∧
            arenaAt s.arena ((y : Int) + s.posY) ((x : Int) + s.posX) = some 0) ∧
        ∃ merged, merge s.arena s.matrix s.posX s.posY = some merged) := by
  have hinv := reachable_inv s h
  refine ⟨hinv.rect.1, hinv.rect.2, hinv.cells, ?_⟩
  intro _
  refine ⟨hinv.free, ?_, ?_⟩
  · intro y x v hc hv
    have h0 := (collide_eq_false_iff s.arena s.matrix s.posX s.posY).1 hinv.free y x v hc hv
    refine ⟨?_, h0⟩
    rw [← arenaAt_isSome_iff, h0]
    rfl
  · obtain ⟨merged, hm, -, -, -⟩ :=
      merge_of_not_collide s.arena s.matrix s.posX s.posY hinv.free
    exact ⟨merged, hm⟩

/-- Witness for C19: the state after the first start. -/
theorem reachable_board_and_piece_witness :
    runningExample.arena.length = 20 ∧ (∀ row ∈ runningExample.arena, row.length = 12) ∧
      (∀ row ∈ runningExample.arena, ∀ c ∈ row, 0 ≤ c ∧ c ≤ 7) ∧
      (runningExample.playing = true →
        collide runningExample.arena runningExample.matrix runningExample.posX
          runningExample.posY = false ∧
        (∀ y x v, cellOf runningExample.matrix y x = some v → v ≠ 0 →
          InBounds runningExample.arena ((y : Int) + runningExample.posY)
              ((x : Int) + runningExample.posX) ∧
            arenaAt runningExample.arena ((y : Int) + runningExample.posY)
              ((x : Int) + runningExample.posX) = some 0) ∧
        ∃ merged, merge runningExample.arena runningExample.matrix runningExample.posX
          runningExample.posY = some merged) :=
  reachable_board_and_piece runningExample runningExample_reachable

theorem lineScoreBase_defined (n : Nat) (h1 : 1 ≤ n) (h4 : n ≤ 4) :
    lineScoreBase[n]? = some (lineScoreBase.getD n 0) ∧ lineScoreBase.getD n 0 ≠ 0 := by
  interval_cases n <;> exact ⟨rfl, by decide⟩

/-- The state after a sequence of valid inputs handled from a reachable state is reachable. -/
theorem reachable_run (rnd : ℚ → ℚ) (fuel : Nat) (inputs : List Action) (s s' : State)
    (hs : Reachable s) (hv : ∀ a ∈ inputs, a.Valid) (h : run rnd fuel inputs s = some s') :
    Reachable s' := by
  induction inputs generalizing s with
  | nil =>
    simp only [run, Option.some.injEq] at h
    subst h
    exact hs
  | cons a rest ih =>
    simp only [run] at h
    rw [Option.bind_eq_some] at h
    obtain ⟨t, ht, hrest⟩ := h
    exact ih t (Reachable.step rnd fuel a s t hs (hv a (List.mem_cons_self a rest)) ht)
      (fun b hb => hv b (List.mem_cons_of_mem a hb)) hrest

theorem preClearInputs_valid : ∀ a ∈ preClearInputs, a.Valid := by
  intro a ha
  simp only [preClearInputs, List.mem_cons, List.mem_singleton, List.mem_nil_iff,
    or_false] at ha
  rcases ha with rfl | rfl | rfl | rfl | rfl | rfl | rfl | rfl | rfl | rfl | rfl | rfl | rfl |
    rfl <;> simp [Action.Valid]

theorem preClearExample_run :
    run roundDouble 41 preClearInputs initExample = some preClearExample := rfl

theorem preClearExample_reachable : Reachable preClearExample :=
  reachable_run roundDouble 41 preClearInputs initExample preClearExample initExample_reachable
    preClearInputs_valid preClearExample_run

/-- C20: in every reachable state the board holds no full row, and every lock out of a
reachable Running state (fuel 41 or more) clears at most 4 lines.  A `hardDrop` is the lock at
the landing row: the piece is free on each of the `k` rows it falls through and collides one
row further down, it is merged at that landing row, the sweep of the merged board returns the
count `n` of its full rows, and the state that `hardDrop` returns has `lines` raised by `n` and
`score` raised by `2 * k` and, when `n ≥ 1`, by `lineScoreBase[n] * level`.  A `playerDrop`
whose probe collides is the lock at the current row, with `lines` and `score` raised in the
same way by the count `n` of its sweep.  In both, `n ≤ 4`, and for `n ≥ 1` the lookup
`lineScoreBase[n]` is a defined entry of the table, different from the fallback `0`. -/
theorem lock_clears_at_most_four (s : State) (h : Reachable s) :
    (∀ row ∈ s.arena, isFull row = false) ∧
    (s.playing = true → s.paused = false → ∀ fuel, 41 ≤ fuel → ∀ r0 r1 : Fin 7,
      (∃ (k n : Nat) (merged swept : Matrix) (s' : State),
        (∀ j : Nat, j ≤ k →
          collide s.arena s.matrix s.posX (s.posY + (j : Int)) = false) ∧
        collide s.arena s.matrix s.posX (s.posY + (k : Int) + 1) = true ∧
        hardDrop fuel r0 r1 s =
          (lockPiece fuel r0 r1
            { s with posY := s.posY + (k : Int), score := s.score + 2 * (k : Int) }).map
            (fun t => { t with dropCounter := 0 }) ∧
        merge s.arena s.matrix s.posX (s.posY + (k : Int)) = some merged ∧
        arenaSweep fuel merged = some (swept, n) ∧
        n = merged.countP isFull ∧
        hardDrop fuel r0 r1 s = some s' ∧
        s'.lines = s.lines + (n : Int) ∧
        s'.score = s.score + 2 * (k : Int) +
          (if n > 0 then lineScoreBase.getD n 0 * s.level else 0) ∧
        n ≤ 4 ∧
        (1 ≤ n →
          lineScoreBase[n]? = some (lineScoreBase.getD n 0) ∧
            lineScoreBase.getD n 0 ≠ 0)) ∧
      (collide s.arena s.matrix s.posX (s.posY + 1) = true →
        ∃ (n : Nat) (merged swept : Matrix) (s' : State),
          playerDrop fuel r0 r1 s =
            (lockPiece fuel r0 r1 s).map (fun t => { t with dropCounter := 0 }) ∧
          merge s.arena s.matrix s.posX s.posY = some merged ∧
          arenaSweep fuel merged = some (swept, n) ∧
          n = merged.countP isFull ∧
          playerDrop fuel r0 r1 s = some s' ∧
          s'.lines = s.lines + (n : Int) ∧
          s'.score = s.score +
            (if n > 0 then lineScoreBase.getD n 0 * s.level else 0) ∧
          n ≤ 4 ∧
          (1 ≤ n →
            lineScoreBase[n]? = some (lineScoreBase.getD n 0) ∧
              lineScoreBase.getD n 0 ≠ 0))) := by
  have hinv := reachable_inv s h
  refine ⟨hinv.noFull, ?_⟩
  intro hplay hpause fuel hfuel r0 r1
  constructor
  · obtain ⟨k, merged, swept, s', hclear, hland, hmerge, hsweep, hcount, hs', -, hlines,
        hscore⟩ := hardDrop_lock_inv fuel r0 r1 s hinv hplay hpause hfuel
    have hk : k < s.arena.length := landing_bound s.arena s.matrix s.posX s.posY k hclear hland
    rw [hinv.rect.1] at hk
    exact ⟨k, merged.countP isFull, merged, swept, s', hclear, hland,
      hardDrop_eq fuel r0 r1 s k hplay hpause hclear hland (by omega), hmerge, hsweep, rfl,
      hs', hlines, hscore, hcount, fun h1 => lineScoreBase_defined _ h1 hcount⟩
  · intro hland
    obtain ⟨merged, swept, s', hmerge, hsweep, hcount, hs', -, hlines, hscore⟩ :=
      playerDrop_lock_inv fuel r0 r1 s hinv hplay hpause hland hfuel
    exact ⟨merged.countP isFull, merged, swept, s',
      playerDrop_lock_eq fuel r0 r1 s hplay hpause hland, hmerge, hsweep, rfl, hs', hlines,
      hscore, hcount, fun h1 => lineScoreBase_defined _ h1 hcount⟩

/-- Witness for C20: the reachable state `preClearExample`, whose bottom row lacks the four
cells under the flat I piece.  The hard drop falls 18 rows and clears that one row: `lines`
goes from 0 to 1 and `score` from 72 to `72 + 2 * 18 + 40 * 1 = 148`. -/
theorem lock_clears_at_most_four_witness :
    ((∀ row ∈ preClearExample.arena, isFull row = false) ∧
    (preClearExample.playing = true → preClearExample.paused = false →
      ∀ fuel, 41 ≤ fuel → ∀ r0 r1 : Fin 7,
      (∃ (k n : Nat) (merged swept : Matrix) (s' : State),
        (∀ j : Nat, j ≤ k →
          collide preClearExample.arena preClearExample.matrix preClearExample.posX
            (preClearExample.posY + (j : Int)) = false) ∧
        collide preClearExample.arena preClearExample.matrix preClearExample.posX
          (preClearExample.posY + (k : Int) + 1) = true ∧
        hardDrop fuel r0 r1 preClearExample =
          (lockPiece fuel r0 r1
            { preClearExample with
                posY := preClearExample.posY + (k : Int),
                score := preClearExample.score + 2 * (k : Int) }).map
            (fun t => { t with dropCounter := 0 }) ∧
        merge preClearExample.arena preClearExample.matrix preClearExample.posX
          (preClearExample.posY + (k : Int)) = some merged ∧
        arenaSweep fuel merged = some (swept, n) ∧
        n = merged.countP isFull ∧
        hardDrop fuel r0 r1 preClearExample = some s' ∧
        s'.lines = preClearExample.lines + (n : Int) ∧
        s'.score = preClearExample.score + 2 * (k : Int) +
          (if n > 0 then lineScoreBase.getD n 0 * preClearExample.level else 0) ∧
        n ≤ 4 ∧
        (1 ≤ n →
          lineScoreBase[n]? = some (lineScoreBase.getD n 0) ∧
            lineScoreBase.getD n 0 ≠ 0)) ∧
      (collide preClearExample.arena preClearExample.matrix preClearExample.posX
          (preClearExample.posY + 1) = true →
        ∃ (n : Nat) (merged swept : Matrix) (s' : State),
          playerDrop fuel r0 r1 preClearExample =
            (lockPiece fuel r0 r1 preClearExample).map (fun t => { t with dropCounter := 0 }) ∧
          merge preClearExample.arena preClearExample.matrix preClearExample.posX
            preClearExample.posY = some merged ∧
          arenaSweep fuel merged = some (swept, n) ∧
          n = merged.countP isFull ∧
          playerDrop fuel r0 r1 preClearExample = some s' ∧
          s'.lines = preClearExample.lines + (n : Int) ∧
          s'.score = preClearExample.score +
            (if n > 0 then lineScoreBase.getD n 0 * preClearExample.level else 0) ∧
          n ≤ 4 ∧
          (1 ≤ n →
            lineScoreBase[n]? = some (lineScoreBase.getD n 0) ∧
              lineScoreBase.getD n 0 ≠ 0)))) ∧
    run roundDouble 41 preClearInputs initExample = some preClearExample ∧
    (hardDrop 41 0 6 preClearExample).map (fun t => (t.lines, t.score)) = some (1, 148) ∧
    (merge preClearExample.arena preClearExample.matrix preClearExample.posX
      (preClearExample.posY + 18)).map (fun merged => merged.countP isFull) = some 1 :=
  ⟨lock_clears_at_most_four preClearExample preClearExample_reachable, rfl, rfl, rfl⟩

end Tetris
